import Mathlib

/-!
# nema-mar-portal: EAT identity, versioning and the content-store client

A shallow embedding of the parts of the portal that decide how Emergency
Advisory Text (EAT) records are titled, versioned, published and listed:

* `internal/fastschema/types.go`   : `EAT`, `File`, `FormatEventTitle`
* `internal/fastschema/client.go`  : `Client.Login`, `Client.ListEATs`, `Client.GetEAT`,
  `Client.GetLatestVersion`, `Client.ListDistinctEvents`, `Client.CreateEAT`,
  `Client.UploadFile`, `Client.ApplySchema`, `Client.doGet`, `Client.doPost`
* `cmd/nema-mar-app/api_handler.go`: `publishRequest`, `publishResponse`,
  `writePublishError`, `apiPublishHandler`
* `internal/valid/valid.go`        : `Query`
* `internal/email/smtp.go`         : `Config`, `ConfigFromEnv`

Go strings are embedded as Lean strings, Go `int` as `Int` wrapped to 64 bits
where the code does arithmetic, `float32` by its three bit fields, and
`time.Time` as Unix seconds together with the zone offset in effect.  The
pieces of the Go standard library the code calls (`fmt.Sprintf`,
`strconv.FormatFloat`, `time.Time.Format`, `time.Parse`) are embedded for the
verbs and layout elements the repository uses.
-/

namespace NemaMar

/-! ## Go machine integers -/

/-- Wrap an integer to the range of a 64-bit two's complement Go `int`. -/
def wrapInt64 (x : Int) : Int :=
  (x + 9223372036854775808) % 18446744073709551616 - 9223372036854775808

/-- Largest value of a 64-bit Go `int`. -/
def maxInt64 : Int := 9223372036854775807

/-- Smallest value of a 64-bit Go `int`. -/
def minInt64 : Int := -9223372036854775808

/-- Go `a + b` on `int`. -/
def intAdd (a b : Int) : Int := wrapInt64 (a + b)

/-! ## float32 and `strconv.FormatFloat(x, 'f', prec, 32)` -/

/-- An IEEE-754 single precision value, by its bit fields. -/
structure Float32 where
  sign : Bool
  expBits : Fin 256
  mantBits : Fin 8388608
  deriving DecidableEq, Repr

namespace Float32

/-- The value is an infinity or a NaN (exponent field all ones). -/
def isInfOrNaN (x : Float32) : Bool := x.expBits.val == 255

/-- The value is finite. -/
def isFinite (x : Float32) : Bool := !x.isInfOrNaN

/-- Integer significand of a finite value (implicit bit restored for normals). -/
def mant (x : Float32) : Nat :=
  if x.expBits.val = 0 then x.mantBits.val else x.mantBits.val + 8388608

/-- Binary exponent of a finite value: the magnitude is `mant * 2 ^ exp2`. -/
def exp2 (x : Float32) : Int :=
  (if x.expBits.val = 0 then 1 else (x.expBits.val : Int)) - 127 - 23

def posInf : Float32 := ⟨false, 255, 0⟩
def negInf : Float32 := ⟨true, 255, 0⟩
def nan : Float32 := ⟨false, 255, 4194304⟩

end Float32

/-- The natural number nearest to `n * 2 ^ e`, ties to even: the exact decimal
rounding `strconv` performs on the binary value (`decimal.Round`). -/
def roundHalfEven (n : Nat) (e : Int) : Nat :=
  match e with
  | Int.ofNat k => n * 2 ^ k
  | Int.negSucc k =>
    let d := 2 ^ (k + 1)
    let q := n / d
    let r := n % d
    if 2 * r > d then q + 1
    else if 2 * r = d then (if q % 2 = 0 then q else q + 1)
    else q

/-- Decimal digits of `n`, left padded with zeros to at least `width` digits. -/
def zeroPad (width : Nat) (n : Nat) : List Char :=
  let ds := (Nat.repr n).data
  List.replicate (width - ds.length) '0' ++ ds

/-- Embedding of `strconv.FormatFloat(float64(x), 'f', prec, 32)`: the text
`%.<prec>f` produces; `fmt` passes the three non-finite texts through unchanged. -/
def FormatFloat32 (x : Float32) (prec : Nat) : String :=
  if x.isInfOrNaN then
    if x.mantBits.val ≠ 0 then "NaN" else if x.sign then "-Inf" else "+Inf"
  else
    let scaled := roundHalfEven (x.mant * 10 ^ prec) x.exp2
    let intPart := (Nat.repr (scaled / 10 ^ prec)).data
    let frac := if prec = 0 then [] else '.' :: zeroPad prec (scaled % 10 ^ prec)
    String.mk ((if x.sign then ['-'] else []) ++ intPart ++ frac)

/-! ## `fmt.Sprintf` for the verbs the repository uses -/

/-- An operand of `fmt.Sprintf`. -/
inductive Arg where
  | float32 (x : Float32)
  | string (s : String)
  | int (n : Int)
  deriving DecidableEq, Repr

/-- Text of one verb applied to one operand (`%s`, `%d`, `%f` with an optional
precision; `%v` and `%w` print a string or an error message like `%s`); a
missing or mismatched operand gives a `%!` marker as in Go. -/
def fmtVerb (prec : Option Nat) (verb : Char) : Option Arg → List Char
  | some (Arg.float32 x) =>
    if verb = 'f' then (FormatFloat32 x (prec.getD 6)).data else '%' :: '!' :: verb :: "(float32)".data
  | some (Arg.string s) =>
    if verb = 's' ∨ verb = 'v' ∨ verb = 'w' then
      (match prec with | none => s.data | some p => s.data.take p)
    else '%' :: '!' :: verb :: "(string)".data
  | some (Arg.int n) =>
    if verb = 'd' then (toString n).data else '%' :: '!' :: verb :: "(int)".data
  | none => '%' :: '!' :: verb :: "(MISSING)".data

/-- Scan the format: literal text is copied, `%%` is a percent sign, `%v` and
`%.Nv` (one precision digit) consume the next operand. -/
def sprintfAux : List Char → List Arg → List Char
  | [], [] => []
  | [], _ :: _ => "%!(EXTRA)".data
  | '%' :: '%' :: rest, args => '%' :: sprintfAux rest args
  | '%' :: '.' :: d :: verb :: rest, args =>
    fmtVerb (some (d.toNat - '0'.toNat)) verb args.head? ++ sprintfAux rest args.tail
  | '%' :: verb :: rest, args =>
    fmtVerb none verb args.head? ++ sprintfAux rest args.tail
  | c :: rest, args => c :: sprintfAux rest args

/-- Embedding of `fmt.Sprintf(format, args...)`. -/
def Sprintf (format : String) (args : List Arg) : String :=
  String.mk (sprintfAux format.data args)

/-! ## `time.Time`, `Format` and `Parse` -/

/-- An instant with the zone offset of its location: `sec` counts seconds since
1970-01-01T00:00:00Z, `offset` is the zone offset east of UTC in seconds. -/
structure Time where
  sec : Int
  nsec : Nat
  offset : Int
  deriving DecidableEq, Repr

/-- A calendar date. -/
structure Civil where
  year : Int
  month : Int
  day : Int
  deriving DecidableEq, Repr

/-- Proleptic Gregorian date of the day `days` days after 1970-01-01. -/
def civilFromDays (days : Int) : Civil :=
  let z := days + 719468
  let era := z / 146097
  let doe := z - era * 146097
  let yoe := (doe - doe / 1460 + doe / 36524 - doe / 146096) / 365
  let doy := doe - (365 * yoe + yoe / 4 - yoe / 100)
  let mp := (5 * doy + 2) / 153
  let d := doy - (153 * mp + 2) / 5 + 1
  let m := if mp < 10 then mp + 3 else mp - 9
  ⟨(if m ≤ 2 then yoe + era * 400 + 1 else yoe + era * 400), m, d⟩

/-- Number of days from 1970-01-01 to the given proleptic Gregorian date. -/
def daysFromCivil (y m d : Int) : Int :=
  let y1 := if m ≤ 2 then y - 1 else y
  let era := y1 / 400
  let yoe := y1 - era * 400
  let doy := (153 * (if m > 2 then m - 3 else m + 9) + 2) / 5 + d - 1
  let doe := yoe * 365 + yoe / 4 - yoe / 100 + doy
  era * 146097 + doe - 719468

namespace Time

/-- Embedding of `t.UTC()`: the same instant, location set to UTC. -/
def UTC (t : Time) : Time := { t with offset := 0 }

/-- Seconds since the epoch on the wall clock of the location of `t`. -/
def wall (t : Time) : Int := t.sec + t.offset

/-- Calendar date shown by the wall clock of the location of `t`. -/
def date (t : Time) : Civil := civilFromDays (t.wall / 86400)

/-- Second of the day shown by the wall clock of the location of `t`. -/
def secOfDay (t : Time) : Int := t.wall % 86400

/-- Embedding of `t.AddDate(0, 0, days)`: the same wall clock time `days` days later. -/
def AddDays (t : Time) (days : Int) : Time := { t with sec := t.sec + days * 86400 }

end Time

/-- Embedding of `time.Date(y, m, d, hh, mm, ss, 0, time.UTC)` for in-range fields. -/
def DateUTC (y m d hh mm ss : Int) : Time :=
  ⟨daysFromCivil y m d * 86400 + hh * 3600 + mm * 60 + ss, 0, 0⟩

/-- Elements of a `time` layout: the reference-time fields that occur in the
layouts of the repository (`2006`, `01`, `02`, `15`, `04`, `05`); every other
character stands for itself.  The further fields of the Go layout language
(month and weekday names, unpadded fields, zones, fractions) occur in none of
these layouts and are not embedded. -/
inductive Chunk where
  | lit (c : Char)
  | stdLongYear
  | stdZeroMonth
  | stdZeroDay
  | stdHour
  | stdZeroMinute
  | stdZeroSecond
  deriving DecidableEq, Repr

/-- Split a layout into its elements (`nextStdChunk`, applied repeatedly). -/
def layoutChunks : List Char → List Chunk
  | [] => []
  | '2' :: '0' :: '0' :: '6' :: rest => Chunk.stdLongYear :: layoutChunks rest
  | '0' :: '1' :: rest => Chunk.stdZeroMonth :: layoutChunks rest
  | '0' :: '2' :: rest => Chunk.stdZeroDay :: layoutChunks rest
  | '1' :: '5' :: rest => Chunk.stdHour :: layoutChunks rest
  | '0' :: '4' :: rest => Chunk.stdZeroMinute :: layoutChunks rest
  | '0' :: '5' :: rest => Chunk.stdZeroSecond :: layoutChunks rest
  | c :: rest => Chunk.lit c :: layoutChunks rest

/-- Embedding of `appendInt(b, x, width)`: sign, then zero padded digits. -/
def appendInt (x : Int) (width : Nat) : List Char :=
  (if x < 0 then ['-'] else []) ++ zeroPad width x.natAbs

/-- Text of one layout element for the instant `t`. -/
def formatChunk (t : Time) : Chunk → List Char
  | Chunk.lit c => [c]
  | Chunk.stdLongYear => appendInt t.date.year 4
  | Chunk.stdZeroMonth => appendInt t.date.month 2
  | Chunk.stdZeroDay => appendInt t.date.day 2
  | Chunk.stdHour => appendInt (t.secOfDay / 3600) 2
  | Chunk.stdZeroMinute => appendInt (t.secOfDay % 3600 / 60) 2
  | Chunk.stdZeroSecond => appendInt (t.secOfDay % 60) 2

/-- Embedding of `t.Format(layout)`. -/
def Time.Format (t : Time) (layout : String) : String :=
  String.mk ((layoutChunks layout.data).flatMap (formatChunk t))

/-- The UTC calendar date of an instant: the date of its day number, whatever
the location the instant carries. -/
def utcDate (t : Time) : Civil := civilFromDays (t.sec / 86400)

/-- A calendar date written `YYYY-MM-DD`: the year zero padded to four digits (a
minus sign first for a year before 0), month and day to two digits. -/
def isoDate (c : Civil) : String :=
  String.mk (appendInt c.year 4 ++ ['-'] ++ appendInt c.month 2 ++ ['-'] ++ appendInt c.day 2)

/-- Fields collected by `time.Parse` before the instant is built. -/
structure Parsed where
  year : Int := 0
  month : Int := -1
  day : Int := -1
  hour : Int := 0
  min : Int := 0
  sec : Int := 0
  deriving DecidableEq, Repr

/-- Value of a decimal digit character. -/
def digitVal (c : Char) : Int := (c.toNat : Int) - 48

/-- Embedding of `getnum(s, fixed)`: one or two leading digits, exactly two when `fixed`. -/
def getnum (s : List Char) (fixed : Bool) : Option (Int × List Char) :=
  match s with
  | [] => none
  | [c0] => if c0.isDigit then (if fixed then none else some (digitVal c0, [])) else none
  | c0 :: c1 :: rest =>
    if c0.isDigit then
      if c1.isDigit then some (digitVal c0 * 10 + digitVal c1, rest)
      else if fixed then none else some (digitVal c0, c1 :: rest)
    else none

/-- Embedding of `isLeap(year)`. -/
def isLeap (year : Int) : Bool := year % 4 == 0 && (year % 100 != 0 || year % 400 == 0)

/-- Embedding of `daysIn(month, year)`. -/
def daysIn (month year : Int) : Int :=
  if month = 2 then (if isLeap year then 29 else 28)
  else if month = 4 ∨ month = 6 ∨ month = 9 ∨ month = 11 then 30 else 31

/-- Consume the value along the layout elements (the loop of `time.Parse`):
a literal must match the next character, a field must have the digits and the
range Go requires; text left over after the layout is an error. -/
def parseChunks : List Chunk → List Char → Parsed → Option Parsed
  | [], value, p => if value = [] then some p else none
  | Chunk.lit c :: rest, value, p =>
    match value with
    | v :: vs => if v = c then parseChunks rest vs p else none
    | [] => none
  | Chunk.stdLongYear :: rest, value, p =>
    match value with
    | a :: b :: c :: d :: vs =>
      if a.isDigit ∧ b.isDigit ∧ c.isDigit ∧ d.isDigit then
        parseChunks rest vs
          { p with year := digitVal a * 1000 + digitVal b * 100 + digitVal c * 10 + digitVal d }
      else none
    | _ => none
  | Chunk.stdZeroMonth :: rest, value, p =>
    match getnum value true with
    | some (m, vs) => if m ≤ 0 ∨ 12 < m then none else parseChunks rest vs { p with month := m }
    | none => none
  | Chunk.stdZeroDay :: rest, value, p =>
    match getnum value true with
    | some (d, vs) => parseChunks rest vs { p with day := d }
    | none => none
  | Chunk.stdHour :: rest, value, p =>
    match getnum value false with
    | some (h, vs) => if h < 0 ∨ 24 ≤ h then none else parseChunks rest vs { p with hour := h }
    | none => none
  | Chunk.stdZeroMinute :: rest, value, p =>
    match getnum value true with
    | some (m, vs) => if m < 0 ∨ 60 ≤ m then none else parseChunks rest vs { p with min := m }
    | none => none
  | Chunk.stdZeroSecond :: rest, value, p =>
    match getnum value true with
    | some (s, vs) => if s < 0 ∨ 60 ≤ s then none else parseChunks rest vs { p with sec := s }
    | none => none

/-- Embedding of `time.Parse(layout, value)` for layouts made of the fields above
and literal characters other than spaces, as the handler layout
`2006-01-02T15:04` is (fractional seconds after a seconds field are not
embedded): `none` stands for a parse error, the instant is in UTC. -/
def Parse (layout value : String) : Option Time :=
  match parseChunks (layoutChunks layout.data) value.data {} with
  | none => none
  | some p =>
    let month := if p.month < 0 then 1 else p.month
    let day := if p.day < 0 then 1 else p.day
    if day < 1 ∨ day > daysIn month p.year then none
    else some (DateUTC p.year month day p.hour p.min p.sec)

/-! ## `internal/fastschema/types.go` -/

/-- The Go type `error`: `none` is `nil`, `some msg` an error with that message. -/
abbrev GoError := Option String

/-- Embedding of `fmt.Errorf(format, args...)`: an error with the formatted message. -/
def Errorf (format : String) (args : List Arg) : GoError := some (Sprintf format args)

/-- File represents an attachment stored in the object store of the content store. -/
structure File where
  ID : Int
  Name : String
  Path : String
  URL : String
  Size : Int
  /-- The Go field `Type` (MIME type); `Type` is reserved in Lean. -/
  MimeType : String
  deriving DecidableEq, Repr

/-- EAT represents an Emergency Advisory Text record. -/
structure EAT where
  ID : Int
  EventTitle : String
  Location : String
  EventDate : Time
  Magnitude : Float32
  EarthquakeURL : String
  Version : Int
  EventComments : String
  BeachMarineThreat : Bool
  LandThreat : Bool
  Status : String
  TEPActivated : Bool
  Attachments : List File
  CreatedAt : Time
  UpdatedAt : Time
  deriving DecidableEq, Repr

/-- The zero value of `time.Time` (January 1, year 1, 00:00 UTC). -/
def zeroTime : Time := ⟨-62135596800, 0, 0⟩

/-- The zero value of `float32`. -/
def zeroFloat32 : Float32 := ⟨false, 0, 0⟩

/-- The zero value of `EAT`. -/
def zeroEAT : EAT :=
  { ID := 0, EventTitle := "", Location := "", EventDate := zeroTime, Magnitude := zeroFloat32,
    EarthquakeURL := "", Version := 0, EventComments := "", BeachMarineThreat := false,
    LandThreat := false, Status := "", TEPActivated := false, Attachments := [],
    CreatedAt := zeroTime, UpdatedAt := zeroTime }

/-- FormatEventTitle computes the event title from its components
(`types.go`, lines 74-77). -/
def FormatEventTitle (magnitude : Float32) (location : String) (eventDate : Time) : String :=
  Sprintf "M%.1f-%s-%s"
    [Arg.float32 magnitude, Arg.string location, Arg.string (eventDate.UTC.Format "2006-01-02")]

/-- ListData holds the pagination info and items. -/
structure ListData where
  Total : Int
  PerPage : Int
  CurrentPage : Int
  LastPage : Int
  Items : List EAT
  deriving DecidableEq, Repr

/-- ListResponse wraps the paginated list response of the content store. -/
structure ListResponse where
  Data : ListData
  deriving DecidableEq, Repr

/-- SingleResponse wraps a single record response of the content store. -/
structure SingleResponse where
  Data : EAT
  deriving DecidableEq, Repr

/-! ## `internal/fastschema/client.go` -/

/-- An outgoing HTTP request as the client builds it. -/
structure Request where
  Method : String
  URL : String
  Header : List (String × String)
  Body : Option String
  deriving DecidableEq, Repr

/-- An HTTP response: the status code and the outcome of `io.ReadAll(resp.Body)`. -/
structure Response where
  StatusCode : Int
  Body : Except String String

/-- The network as the client sees it: `NewRequest` gives the error of
`http.NewRequest(method, url, body)` (`none` when the request can be built),
`Do` the outcome of `httpClient.Do(req)`. -/
structure Transport where
  NewRequest : String → String → GoError
  Do : Request → Except String Response

/-- The calls of `encoding/json` the client makes on response bodies. -/
structure JSON where
  UnmarshalList : String → Except String ListResponse
  UnmarshalSingle : String → Except String SingleResponse

/-- Client communicates with the content-store sidecar. -/
structure Client where
  baseURL : String
  token : String
  deriving DecidableEq, Repr

/-- Upper-case hexadecimal digit. -/
def hexDigit (n : Nat) : Char :=
  if n < 10 then Char.ofNat (48 + n) else Char.ofNat (55 + n)

/-- Embedding of `url.QueryEscape` on one character: letters, digits and
`-_.~` are kept, a space becomes `+`, every other UTF-8 byte becomes `%XX`. -/
def queryEscapeChar (c : Char) : List Char :=
  if c.isAlphanum ∨ c = '-' ∨ c = '_' ∨ c = '.' ∨ c = '~' then [c]
  else if c = ' ' then ['+']
  else (String.utf8EncodeChar c).flatMap
    (fun b => ['%', hexDigit (b.toNat / 16), hexDigit (b.toNat % 16)])

/-- Embedding of `url.QueryEscape`. -/
def QueryEscape (s : String) : String := String.mk (s.data.flatMap queryEscapeChar)

/-- The layout `time.RFC3339` restricted to UTC instants, where the zone
element `Z07:00` prints `Z`. -/
def formatRFC3339UTC (t : Time) : String := t.UTC.Format "2006-01-02T15:04:05" ++ "Z"

namespace Client

/-- The request `doGet` builds (`client.go`, lines 195-202): a GET of the URL, with the
bearer token attached when the client holds one. -/
def getRequest (c : Client) (url : String) : Request :=
  { Method := "GET", URL := url,
    Header := if c.token ≠ "" then [("Authorization", "Bearer " ++ c.token)] else [],
    Body := none }

/-- Embedding of `doGet` (`client.go`, lines 194-221): performs an authenticated GET request
and returns the response body. -/
def doGet (c : Client) (tr : Transport) (url : String) : Option String × GoError :=
  match tr.NewRequest "GET" url with
  | some err => (none, Errorf "create request: %w" [Arg.string err])
  | none =>
    match tr.Do (c.getRequest url) with
    | Except.error err => (none, Errorf "request: %w" [Arg.string err])
    | Except.ok resp =>
      match resp.Body with
      | Except.error err => (none, Errorf "read body: %w" [Arg.string err])
      | Except.ok body =>
        if resp.StatusCode < 200 ∨ resp.StatusCode ≥ 300 then
          (none, Errorf "FastSchema error (%d): %s" [Arg.int resp.StatusCode, Arg.string body])
        else (some body, none)

/-- Embedding of `ListEATs` (`client.go`, lines 59-76): EATs with event_date since the given
time, sorted by event_date descending. -/
def ListEATs (c : Client) (tr : Transport) (js : JSON) (since : Time) : List EAT × GoError :=
  let filter := Sprintf "\x7b\"event_date\":\x7b\"$gte\":\"%s\"\x7d\x7d"
    [Arg.string (formatRFC3339UTC since)]
  let u := Sprintf "%s/api/content/eat?filter=%s&sort=-event_date&limit=100"
    [Arg.string c.baseURL, Arg.string (QueryEscape filter)]
  match c.doGet tr u with
  | (_, some err) => ([], some err)
  | (body, none) =>
    match js.UnmarshalList (body.getD "") with
    | Except.error err => ([], Errorf "decode list response: %w" [Arg.string err])
    | Except.ok resp => (resp.Data.Items, none)

/-- Embedding of `GetEAT` (`client.go`, lines 78-92): retrieves a single EAT by ID.  The
first component is the returned pointer, `none` for `nil`. -/
def GetEAT (c : Client) (tr : Transport) (js : JSON) (id : Int) : Option EAT × GoError :=
  let u := Sprintf "%s/api/content/eat/%d" [Arg.string c.baseURL, Arg.int id]
  match c.doGet tr u with
  | (_, some err) => (none, some err)
  | (body, none) =>
    match js.UnmarshalSingle (body.getD "") with
    | Except.error err => (none, Errorf "decode single response: %w" [Arg.string err])
    | Except.ok resp => (some resp.Data, none)

/-- The loop of `ListDistinctEvents` (`client.go`, lines 125-132): `seen` is the set of
keys of the Go map, `titles` the slice built so far. -/
def distinctLoop : List EAT → List String → List String → List String
  | [], _, titles => titles
  | eat :: rest, seen, titles =>
    if ¬ (eat.EventTitle ∈ seen) then
      distinctLoop rest (eat.EventTitle :: seen) (titles ++ [eat.EventTitle])
    else distinctLoop rest seen titles

/-- Embedding of `ListDistinctEvents` (`client.go`, lines 117-135): distinct event titles
from the last `days` days; `now` is the reading of `time.Now()`. -/
def ListDistinctEvents (c : Client) (tr : Transport) (js : JSON) (now : Time) (days : Int) :
    List String × GoError :=
  let since := now.UTC.AddDays (-days)
  match c.ListEATs tr js since with
  | (_, some err) => ([], some err)
  | (eats, none) => (distinctLoop eats [] [], none)

end Client

/-! ## `cmd/nema-mar-app/api_handler.go` -/

/-- Config holds SMTP configuration (`internal/email/smtp.go`). -/
structure Config where
  Host : String
  Port : String
  Username : String
  Password : String
  FromAddr : String
  Recipients : List String
  deriving DecidableEq, Repr

/-- The JSON payload for the publish endpoint. -/
structure publishRequest where
  Mode : String
  Location : String
  EventDate : String
  Magnitude : Float32
  EarthquakeURL : String
  EventComments : String
  BeachMarineThreat : Bool
  LandThreat : Bool
  Status : String
  TEPActivated : Bool
  Attachments : List File
  ExistingEATID : Int
  deriving DecidableEq, Repr

/-- The JSON response from the publish endpoint. -/
structure publishResponse where
  Success : Bool
  ID : Int
  Version : Int
  Error : String
  deriving DecidableEq, Repr

/-- The error type `weft.StatusError`: an HTTP status code with an optional cause. -/
structure StatusError where
  Code : Int
  Err : GoError
  deriving DecidableEq, Repr

/-- A call a handler makes to one of its collaborators (the content-store
client, the PDF renderer, the mailer, the logger), with its arguments. -/
inductive Call where
  | GetEAT (id : Int)
  | GetLatestVersion (eventTitle : String)
  | CreateEAT (eat : EAT)
  | GenerateEATPDF (eat : EAT)
  | ConfigFromEnv
  | SendEATEmail (cfg : Config) (eat : EAT) (pdfBytes : List Nat)
  | Log (msg : String)
  deriving DecidableEq, Repr

/-- The call is addressed to the content store. -/
def Call.isStore : Call → Bool
  | Call.GetEAT _ => true
  | Call.GetLatestVersion _ => true
  | Call.CreateEAT _ => true
  | _ => false

/-- The call reads from the content store. -/
def Call.isStoreRead : Call → Bool
  | Call.GetEAT _ => true
  | Call.GetLatestVersion _ => true
  | _ => false

/-- The collaborators of `apiPublishHandler` over a world state `σ` (the
content store behind `fsClient`, the environment, the mail server).  Each
result has the shape of the Go result list: a pointer or slice is `none` when
`nil`, the error is `none` when `nil`. -/
structure Env (σ : Type) where
  GetEAT : Int → σ → (Option EAT × GoError) × σ
  GetLatestVersion : String → σ → (Option EAT × GoError) × σ
  CreateEAT : EAT → σ → (Option EAT × GoError) × σ
  GenerateEATPDF : EAT → σ → (Option (List Nat) × GoError)
  ConfigFromEnv : σ → Config × GoError
  SendEATEmail : Config → EAT → List Nat → σ → GoError × σ

/-- What a handler leaves behind: the error it returns (`none` for `nil`), the
`Content-Type` header it set, the response value it encoded into the buffer, and
whether it stopped in a run-time panic (nil pointer dereference). -/
structure Outcome where
  err : Option StatusError
  contentType : Option String
  body : Option publishResponse
  panicked : Bool
  deriving DecidableEq, Repr

/-- A finished handler run: outcome, collaborator calls in order, final world. -/
structure Run (σ : Type) where
  out : Outcome
  calls : List Call
  world : σ

/-- The inbound request as the handler consumes it: the error of
`weft.CheckQuery(r, POST, no parameters)` and the result of decoding the body
into a `publishRequest`. -/
structure Inbound where
  checkQuery : Option StatusError
  decoded : Except String publishRequest

/-- Embedding of `writePublishError` (`api_handler.go`, lines 185-188). -/
def writePublishError (msg : String) : Outcome :=
  { err := none, contentType := some "application/json",
    body := some { Success := false, ID := 0, Version := 0, Error := msg }, panicked := false }

/-- The outcome of a nil pointer dereference. -/
def panicOutcome : Outcome :=
  { err := none, contentType := none, body := none, panicked := true }

/-- Embedding of `apiPublishHandler`, lines 161-175: generate the PDF of the
persisted record and send the notification email, both best effort.  The result
is the list of collaborator calls made and the world afterwards. -/
def publishNotify {σ : Type} (env : Env σ) (created : EAT) (w : σ) : List Call × σ :=
  let pdf := env.GenerateEATPDF created w
  let pdfCalls := Call.GenerateEATPDF created ::
    (match pdf.2 with
     | some err => [Call.Log (Sprintf "warning: PDF generation failed: %v" [Arg.string err])]
     | none => [])
  let cfg := env.ConfigFromEnv w
  match cfg.2 with
  | some err =>
    (pdfCalls ++ [Call.ConfigFromEnv,
      Call.Log (Sprintf "warning: email not configured: %v" [Arg.string err])], w)
  | none =>
    match pdf.1 with
    | none => (pdfCalls ++ [Call.ConfigFromEnv], w)
    | some pdfBytes =>
      match env.SendEATEmail cfg.1 created pdfBytes w with
      | (some err, w2) =>
        (pdfCalls ++ [Call.ConfigFromEnv, Call.SendEATEmail cfg.1 created pdfBytes,
          Call.Log (Sprintf "warning: email send failed: %v" [Arg.string err])], w2)
      | (none, w2) =>
        (pdfCalls ++ [Call.ConfigFromEnv, Call.SendEATEmail cfg.1 created pdfBytes], w2)

/-- Embedding of `apiPublishHandler`, lines 155-183: save to the content store,
then the best-effort side effects, then the success response.  `calls` are the
collaborator calls made so far. -/
def publishSave {σ : Type} (env : Env σ) (eat : EAT) (calls : List Call) (w : σ) : Run σ :=
  match env.CreateEAT eat w with
  | ((_, some err), w1) =>
    ⟨writePublishError ("failed to save EAT: " ++ err), calls ++ [Call.CreateEAT eat], w1⟩
  | ((none, none), w1) => ⟨panicOutcome, calls ++ [Call.CreateEAT eat], w1⟩
  | ((some created, none), w1) =>
    let notified := publishNotify env created w1
    ⟨{ err := none, contentType := some "application/json",
       body := some { Success := true, ID := created.ID, Version := created.Version, Error := "" },
       panicked := false },
     calls ++ Call.CreateEAT eat :: notified.1, notified.2⟩

/-- Embedding of `apiPublishHandler`, lines 148-152: the version number that
follows the latest record of a title, 1 when there is none (`latest` is the
pointer `GetLatestVersion` returned, `none` for `nil`). -/
def nextVersion : Option EAT → Int
  | some latest => intAdd latest.Version 1
  | none => 1

/-- Embedding of `apiPublishHandler`, lines 144-153: look up the latest version
of the title and take the next version number, then save. -/
def publishNewVersion {σ : Type} (env : Env σ) (eat : EAT) (calls : List Call) (w : σ) :
    Run σ :=
  match env.GetLatestVersion eat.EventTitle w with
  | ((_, some _), w1) =>
    ⟨writePublishError "failed to look up latest version",
      calls ++ [Call.GetLatestVersion eat.EventTitle], w1⟩
  | ((latest, none), w1) =>
    publishSave env { eat with Version := nextVersion latest }
      (calls ++ [Call.GetLatestVersion eat.EventTitle]) w1

/-- Embedding of `apiPublishHandler`, lines 116-127: the record built from the
request fields and the parsed event date; id, title and version are still zero. -/
def publishRequest.toEAT (req : publishRequest) (eventDate : Time) : EAT :=
  { zeroEAT with
    Location := req.Location, EventDate := eventDate, Magnitude := req.Magnitude,
    EarthquakeURL := req.EarthquakeURL, EventComments := req.EventComments,
    BeachMarineThreat := req.BeachMarineThreat, LandThreat := req.LandThreat,
    Status := req.Status, TEPActivated := req.TEPActivated, Attachments := req.Attachments }

/-- Embedding of `apiPublishHandler`, lines 134-142: the event title of a new
version, looked up through `existing_eat_id` when that is positive and
recomputed from the fields otherwise.  The result is the title, or the outcome
the handler stops with. -/
def resolveEventTitle {σ : Type} (env : Env σ) (req : publishRequest) (eat : EAT) (w : σ) :
    Except Outcome String × List Call × σ :=
  if req.ExistingEATID > 0 then
    match env.GetEAT req.ExistingEATID w with
    | ((_, some _), w1) =>
      (Except.error (writePublishError "failed to look up existing EAT"),
        [Call.GetEAT req.ExistingEATID], w1)
    | ((none, none), w1) => (Except.error panicOutcome, [Call.GetEAT req.ExistingEATID], w1)
    | ((some existing, none), w1) =>
      (Except.ok existing.EventTitle, [Call.GetEAT req.ExistingEATID], w1)
  else (Except.ok (FormatEventTitle eat.Magnitude eat.Location eat.EventDate), [], w)

/-- Embedding of `apiPublishHandler` (`api_handler.go`, lines 89-183): saves an EAT,
generates a PDF, and sends email. -/
def apiPublishHandler {σ : Type} (env : Env σ) (r : Inbound) (w : σ) : Run σ :=
  match r.checkQuery with
  | some e => ⟨{ err := some e, contentType := none, body := none, panicked := false }, [], w⟩
  | none =>
  match r.decoded with
  | Except.error e =>
    ⟨{ err := some ⟨400, Errorf "invalid JSON: %w" [Arg.string e]⟩, contentType := none,
       body := none, panicked := false }, [], w⟩
  | Except.ok req =>
  if req.Location = "" then ⟨writePublishError "location is required", [], w⟩
  else if req.EventDate = "" then ⟨writePublishError "event_date is required", [], w⟩
  else if req.Status ≠ "preliminary" ∧ req.Status ≠ "confirmed" then
    ⟨writePublishError "status must be \x27preliminary\x27 or \x27confirmed\x27", [], w⟩
  else
  match Parse "2006-01-02T15:04" req.EventDate with
  | none => ⟨writePublishError "invalid event_date format", [], w⟩
  | some eventDate =>
    let eat := req.toEAT eventDate
    if req.Mode = "new_event" then
      publishSave env
        { eat with
          EventTitle := FormatEventTitle eat.Magnitude eat.Location eat.EventDate, Version := 1 }
        [] w
    else
      match resolveEventTitle env req eat w with
      | (Except.error out, calls, w1) => ⟨out, calls, w1⟩
      | (Except.ok title, calls, w1) =>
        publishNewVersion env { eat with EventTitle := title } calls w1

/-- The request passes the validation of `apiPublishHandler` (lines 100-114). -/
def publishRequest.Valid (req : publishRequest) : Prop :=
  req.Location ≠ "" ∧ req.EventDate ≠ "" ∧
  (req.Status = "preliminary" ∨ req.Status = "confirmed") ∧
  (Parse "2006-01-02T15:04" req.EventDate).isSome

instance (req : publishRequest) : Decidable req.Valid := by
  unfold publishRequest.Valid; infer_instance

/-- The records handed to `CreateEAT` during a run, in call order. -/
def createdArgs : List Call → List EAT
  | [] => []
  | Call.CreateEAT e :: rest => e :: createdArgs rest
  | _ :: rest => createdArgs rest

/-- Run a sequence of publish requests one after the other. -/
def publishAll {σ : Type} (env : Env σ) : List Inbound → σ → List Outcome × σ
  | [], w => ([], w)
  | r :: rest, w =>
    let run := apiPublishHandler env r w
    let tail := publishAll env rest run.world
    (run.out :: tail.1, tail.2)

/-! ## A sequential content store

The store of the versioning claims: `CreateEAT` appends the record it is given
(assigning the next id), `GetLatestVersion` returns a record of maximal version
among those with exactly the given title, `GetEAT` finds a record by id.  It is
a model of the store together with the client: the lookup by exact title is what
the filter of `Client.GetLatestVersion` asks for when the title has no double
quote, no backslash and no control character. -/

/-- State of the sequential content store. -/
structure Store where
  records : List EAT
  nextID : Int
  deriving DecidableEq, Repr

/-- The empty store. -/
def Store.empty : Store := ⟨[], 1⟩

/-- A record of maximal version in a list, `none` for the empty list. -/
def maxByVersion : List EAT → Option EAT
  | [] => none
  | e :: rest =>
    match maxByVersion rest with
    | none => some e
    | some b => if b.Version ≤ e.Version then some e else some b

/-- The records of one event title, in store order. -/
def chain (title : String) (records : List EAT) : List EAT :=
  records.filter (fun e => e.EventTitle = title)

/-- The versions held for one event title, in store order. -/
def chainVersions (title : String) (s : Store) : List Int :=
  (chain title s.records).map (fun e => e.Version)

/-- The sequential store as the handler sees it.  The PDF renderer and the
mailer are arbitrary and do not touch the store. -/
def storeEnv (pdf : EAT → Option (List Nat) × GoError) (cfg : Config × GoError)
    (send : Config → EAT → List Nat → GoError) : Env Store :=
  { GetEAT := fun id s =>
      match s.records.find? (fun e => e.ID = id) with
      | some e => ((some e, none), s)
      | none => ((none, Errorf "FastSchema error (%d): %s" [Arg.int 404, Arg.string "not found"]), s)
    GetLatestVersion := fun title s => ((maxByVersion (chain title s.records), none), s)
    CreateEAT := fun eat s =>
      let created := { eat with ID := s.nextID }
      ((some created, none), { records := s.records ++ [created], nextID := s.nextID + 1 })
    GenerateEATPDF := fun eat _ => pdf eat
    ConfigFromEnv := fun _ => cfg
    SendEATEmail := fun c eat bytes s => (send c eat bytes, s) }

/-- The numbers `1, 2, ..., n` as Go integers. -/
def oneTo (n : Nat) : List Int := (List.range n).map (fun (k : Nat) => (k : Int) + 1)

/-- Published against the store `s`, the request is a valid `new_version`
request whose event title resolves to `T`. -/
def ResolvesTo (env : Env Store) (T : String) (r : Inbound) (s : Store) : Prop :=
  r.checkQuery = none ∧ ∃ req eventDate, r.decoded = Except.ok req ∧ req.Valid ∧
    Parse "2006-01-02T15:04" req.EventDate = some eventDate ∧ req.Mode = "new_version" ∧
    (resolveEventTitle env req (req.toEAT eventDate) s).1 = Except.ok T

/-- Every request of the sequence, published in turn, resolves to `T`. -/
def AllResolveTo (env : Env Store) (T : String) : List Inbound → Store → Prop
  | [], _ => True
  | r :: rest, s =>
    ResolvesTo env T r s ∧ AllResolveTo env T rest (apiPublishHandler env r s).world

/-- No `new_event` request of the sequence, published in turn, computes a title
that already has a record in the store. -/
def FreshNewEvents (env : Env Store) : List Inbound → Store → Prop
  | [], _ => True
  | r :: rest, s =>
    (∀ req eventDate, r.decoded = Except.ok req → req.Mode = "new_event" →
      Parse "2006-01-02T15:04" req.EventDate = some eventDate →
      chain (FormatEventTitle req.Magnitude req.Location eventDate) s.records = []) ∧
    FreshNewEvents env rest (apiPublishHandler env r s).world

/-- The `(eventTitle, version)` pairs held by the store, in store order. -/
def versionKeys (s : Store) : List (String × Int) :=
  s.records.map (fun e => (e.EventTitle, e.Version))

/-- The answer of a publish: whether it succeeded and with which version. -/
def Outcome.answer (o : Outcome) : Option (Bool × Int) :=
  o.body.map (fun b => (b.Success, b.Version))

/-- The response of a successful publish. -/
def successOutcome (id version : Int) : Outcome :=
  { err := none, contentType := some "application/json",
    body := some { Success := true, ID := id, Version := version, Error := "" },
    panicked := false }

/-- Each chain of the store holds the versions `1..n`, in store order. -/
def Dense (s : Store) : Prop :=
  ∀ T, chainVersions T s = oneTo (chain T s.records).length

/-! ## Reading a title and a feed

Notions the properties below are stated with. -/

/-- The text of a title between its leading `M` and the `-` that precedes the
location: the title without its first character and without the trailing
`-<location>-<date>`. -/
def magnitudePart (title loc date : String) : String :=
  String.mk ((title.data.drop 1).take
    (title.data.length - 1 - (1 + loc.data.length + 1 + date.data.length)))

/-- The text is a decimal numeral with exactly one digit after the point: an
optional minus sign, at least one digit, a point, one digit. -/
def oneDecimalDigit (s : String) : Bool :=
  match s.data.reverse with
  | d :: '.' :: r =>
    let body := r.reverse
    let digs := if body.head? = some '-' then body.tail else body
    d.isDigit && !digs.isEmpty && digs.all Char.isDigit
  | _ => false

/-- The titles of a feed, first occurrences only and in feed order, leaving out
the titles already in `seen`. -/
def firstOccurrences : List String → List String → List String
  | [], _ => []
  | a :: rest, seen =>
    if a ∈ seen then firstOccurrences rest seen else a :: firstOccurrences rest (a :: seen)

/-! ## Sample values -/

/-- The magnitude 5.0 as a `float32` (bits `0x40A00000`). -/
def mag5_0 : Float32 := ⟨false, 129, 2097152⟩

/-- The magnitude 6.2 as a `float32` (bits `0x40C66666`). -/
def mag6_2 : Float32 := ⟨false, 129, 4613734⟩

/-- The magnitude 0.5 as a `float32` (bits `0x3F000000`). -/
def mag0_5 : Float32 := ⟨false, 126, 0⟩

/-- The instant 2026-01-15T10:30:00Z. -/
def sampleInstant : Time := DateUTC 2026 1 15 10 30 0

/-- A publish request for a magnitude 5.0 event at Wellington. -/
def sampleRequest (mode status : String) (existing : Int) : publishRequest :=
  { Mode := mode, Location := "Wellington", EventDate := "2026-01-15T10:30", Magnitude := mag5_0,
    EarthquakeURL := "", EventComments := "", BeachMarineThreat := false, LandThreat := false,
    Status := status, TEPActivated := false, Attachments := [], ExistingEATID := existing }

/-- A record with the given id, title and version and zero fields otherwise. -/
def sampleRecord (id : Int) (title : String) (version : Int) : EAT :=
  { zeroEAT with ID := id, EventTitle := title, Version := version }

/-- The sequential store with a working PDF renderer and mailer. -/
def sampleEnv : Env Store :=
  storeEnv (fun _ => (some [37, 80, 68, 70], none))
    (⟨"smtp.example.org", "587", "", "", "portal@example.org", ["duty@example.org"]⟩, none)
    (fun _ _ _ => none)

/-- A store holding version 3 of the chain `M5.0-X-2026-01-01` under id 7. -/
def sampleStore : Store := ⟨[sampleRecord 7 "M5.0-X-2026-01-01" 3], 8⟩

/-- A content store that answers every request with 404 Not Found. -/
def notFoundTransport : Transport :=
  { NewRequest := fun _ _ => none
    Do := fun _ => Except.ok ⟨404, Except.ok "not found"⟩ }

/-- A content store that answers every request with 200 and the given body. -/
def okTransport (body : String) : Transport :=
  { NewRequest := fun _ _ => none
    Do := fun _ => Except.ok ⟨200, Except.ok body⟩ }

/-- A decoder that yields the given items and record whatever the body. -/
def stubJSON (items : List EAT) (single : EAT) : JSON :=
  { UnmarshalList := fun _ => Except.ok ⟨⟨items.length, 100, 1, 1, items⟩⟩
    UnmarshalSingle := fun _ => Except.ok ⟨single⟩ }

/-- A client of a local content store, not logged in. -/
def localClient : Client := ⟨"http://localhost:8000", ""⟩

/-! ## `internal/fastschema`: login and the write operations -/

/-- LoginRequest is the payload for authentication with the content store. -/
structure LoginRequest where
  Login : String
  Password : String
  deriving DecidableEq, Repr

/-- The anonymous struct under `data` in `LoginResponse`. -/
structure LoginData where
  Token : String
  deriving DecidableEq, Repr

/-- LoginResponse wraps the authentication response. -/
structure LoginResponse where
  Data : LoginData
  deriving DecidableEq, Repr

/-- FileResponse wraps a file upload response of the content store. -/
structure FileResponse where
  Data : File
  deriving DecidableEq, Repr

/-- An HTTP response whose body has not been read yet: the status code, the
text the body stream yields, and the read error that ends the stream (`none`
when it ends normally). -/
structure StreamResponse where
  StatusCode : Int
  Data : String
  ReadErr : GoError
  deriving DecidableEq, Repr

/-- The call `httpClient.Post(url, contentType, body)` that `Login` makes. -/
structure PostClient where
  Post : String → String → String → Except String StreamResponse

/-- The calls of `encoding/json` that `Login` makes: `json.Marshal` of the
payload, and `json.NewDecoder(resp.Body).Decode` on the body stream (its text
and the read error that ends it). -/
structure LoginJSON where
  Marshal : LoginRequest → Except String String
  Decode : String → GoError → Except String LoginResponse

/-- The calls of `encoding/json` the write operations make next to those of
`JSON`: `json.Marshal` of a record and `json.Unmarshal` into a `FileResponse`. -/
structure PostJSON where
  MarshalEAT : EAT → Except String String
  UnmarshalFile : String → Except String FileResponse

/-- The `mime/multipart` writer of `UploadFile`: the errors of
`CreateFormFile("file", filename)` and `Close()`, the value of
`FormDataContentType()`, and the buffer content after the file text was copied
into the part and the writer closed. -/
structure Multipart where
  CreateFormFile : String → GoError
  Close : GoError
  FormDataContentType : String
  Encode : String → String → String

namespace Client

/-- The URL `Login` posts to (`client.go`, line 39). -/
def loginURL (c : Client) : String := c.baseURL ++ "/api/auth/local/login"

/-- Embedding of `Login` (`client.go`, lines 31-57): authenticates with the content store
and stores the token.  The result is the returned error and the client afterwards. -/
def Login (c : Client) (hc : PostClient) (js : LoginJSON) (username password : String) :
    GoError × Client :=
  match js.Marshal { Login := username, Password := password } with
  | Except.error err => (Errorf "marshal login: %w" [Arg.string err], c)
  | Except.ok body =>
    match hc.Post c.loginURL "application/json" body with
    | Except.error err => (Errorf "login request: %w" [Arg.string err], c)
    | Except.ok resp =>
      if resp.StatusCode ≠ 200 then
        (Errorf "login failed (%d): %s" [Arg.int resp.StatusCode, Arg.string resp.Data], c)
      else
        match js.Decode resp.Data resp.ReadErr with
        | Except.error err => (Errorf "decode login response: %w" [Arg.string err], c)
        | Except.ok loginResp => (none, { c with token := loginResp.Data.Token })

/-- The URL `GetLatestVersion` requests (`client.go`, lines 95-98): the records whose
`event_title` equals the title, sorted by version descending, at most one. -/
def latestVersionURL (c : Client) (eventTitle : String) : String :=
  let filter := Sprintf "\x7b\"event_title\":\x7b\"$eq\":\"%s\"\x7d\x7d" [Arg.string eventTitle]
  Sprintf "%s/api/content/eat?filter=%s&sort=-version&limit=1"
    [Arg.string c.baseURL, Arg.string (QueryEscape filter)]

/-- Embedding of `GetLatestVersion` (`client.go`, lines 94-115): the latest version EAT for
the given event title.  The first component is the returned pointer, `none` for `nil`. -/
def GetLatestVersion (c : Client) (tr : Transport) (js : JSON) (eventTitle : String) :
    Option EAT × GoError :=
  match c.doGet tr (c.latestVersionURL eventTitle) with
  | (_, some err) => (none, some err)
  | (body, none) =>
    match js.UnmarshalList (body.getD "") with
    | Except.error err => (none, Errorf "decode list response: %w" [Arg.string err])
    | Except.ok resp =>
      match resp.Data.Items with
      | [] => (none, none)
      | first :: _ => (some first, none)

/-- The request `doPost` builds (`client.go`, lines 225-233): a POST of the body with its
content type, and the bearer token attached when the client holds one. -/
def postRequest (c : Client) (url contentType body : String) : Request :=
  { Method := "POST", URL := url,
    Header := ("Content-Type", contentType) ::
      (if c.token ≠ "" then [("Authorization", "Bearer " ++ c.token)] else []),
    Body := some body }

/-- Embedding of `doPost` (`client.go`, lines 223-251): performs an authenticated POST
request and returns the response body. -/
def doPost (c : Client) (tr : Transport) (url contentType body : String) :
    Option String × GoError :=
  match tr.NewRequest "POST" url with
  | some err => (none, Errorf "create request: %w" [Arg.string err])
  | none =>
    match tr.Do (c.postRequest url contentType body) with
    | Except.error err => (none, Errorf "request: %w" [Arg.string err])
    | Except.ok resp =>
      match resp.Body with
      | Except.error err => (none, Errorf "read body: %w" [Arg.string err])
      | Except.ok respBody =>
        if resp.StatusCode < 200 ∨ resp.StatusCode ≥ 300 then
          (none, Errorf "FastSchema error (%d): %s"
            [Arg.int resp.StatusCode, Arg.string respBody])
        else (some respBody, none)

/-- Embedding of `CreateEAT` (`client.go`, lines 137-155): creates a new EAT record in the
content store. -/
def CreateEAT (c : Client) (tr : Transport) (js : JSON) (pj : PostJSON) (eat : EAT) :
    Option EAT × GoError :=
  match pj.MarshalEAT eat with
  | Except.error err => (none, Errorf "marshal eat: %w" [Arg.string err])
  | Except.ok payload =>
    match c.doPost tr (c.baseURL ++ "/api/content/eat") "application/json" payload with
    | (_, some err) => (none, some err)
    | (body, none) =>
      match js.UnmarshalSingle (body.getD "") with
      | Except.error err => (none, Errorf "decode create response: %w" [Arg.string err])
      | Except.ok resp => (some resp.Data, none)

/-- Embedding of `UploadFile` (`client.go`, lines 157-186): uploads a file to the file
manager of the content store.  `data` is the outcome of reading the file to its
end: its text, or the read error. -/
def UploadFile (c : Client) (tr : Transport) (pj : PostJSON) (mp : Multipart)
    (filename : String) (data : Except String String) : Option File × GoError :=
  match mp.CreateFormFile filename with
  | some err => (none, Errorf "create form file: %w" [Arg.string err])
  | none =>
    match data with
    | Except.error err => (none, Errorf "copy file data: %w" [Arg.string err])
    | Except.ok text =>
      match mp.Close with
      | some err => (none, Errorf "close multipart writer: %w" [Arg.string err])
      | none =>
        match c.doPost tr (c.baseURL ++ "/api/file/upload") mp.FormDataContentType
            (mp.Encode filename text) with
        | (_, some err) => (none, some err)
        | (body, none) =>
          match pj.UnmarshalFile (body.getD "") with
          | Except.error err => (none, Errorf "decode file response: %w" [Arg.string err])
          | Except.ok resp => (some resp.Data, none)

/-- Embedding of `ApplySchema` (`client.go`, lines 188-192): sends the schema JSON to the
admin API of the content store. -/
def ApplySchema (c : Client) (tr : Transport) (schemaJSON : String) : GoError :=
  (c.doPost tr (c.baseURL ++ "/api/schema") "application/json" schemaJSON).2

end Client

/-! ## `internal/valid/valid.go` -/

/-- Value of a string of decimal digits. -/
def digitsValue (ds : List Char) : Nat :=
  ds.foldl (fun acc c => acc * 10 + (c.toNat - 48)) 0

/-- Embedding of `strconv.Atoi`: an optional sign followed by one or more
decimal digits, within the range of a 64-bit `int`; anything else is an error. -/
def Atoi (s : String) : Except String Int :=
  let body :=
    match s.data with
    | '-' :: r => r
    | '+' :: r => r
    | r => r
  if body = [] ∨ ¬ (body.all Char.isDigit = true) then Except.error "invalid syntax"
  else
    let v : Int := if s.data.head? = some '-' then -(digitsValue body : Int) else digitsValue body
    if v < minInt64 ∨ maxInt64 < v then Except.error "value out of range" else Except.ok v

/-- The type `url.Values`: the values given for each query parameter. -/
abbrev Values := List (String × List String)

/-- Embedding of `url.Values.Get`: the first value of the key, or the empty
string when there is none. -/
def Values.Get (v : Values) (key : String) : String :=
  match v.lookup key with
  | some (first :: _) => first
  | _ => ""

/-- Embedding of `valid.Query` (`valid.go`, lines 13-36): validates query parameters for
the API and page handlers; `none` is the `nil` error. -/
def Query (v : Values) : Option StatusError :=
  let id := v.Get "id"
  let idErr : Bool := id ≠ "" && (match Atoi id with | Except.error _ => true | Except.ok _ => false)
  if idErr then some ⟨400, Errorf "invalid id: %s" [Arg.string id]⟩
  else
    let days := v.Get "days"
    let daysErr : Bool := days ≠ "" &&
      (match Atoi days with
       | Except.error _ => true
       | Except.ok d => decide (d < 1 ∨ d > 90))
    if daysErr then some ⟨400, Errorf "invalid days: %s (must be 1-90)" [Arg.string days]⟩
    else
      let version := v.Get "version"
      let versionErr : Bool := version ≠ "" &&
        (match Atoi version with
         | Except.error _ => true
         | Except.ok n => decide (n < 1))
      if versionErr then some ⟨400, Errorf "invalid version: %s" [Arg.string version]⟩
      else none

/-! ## `internal/email/smtp.go` -/

/-- Embedding of `unicode.IsSpace`: the characters `strings.TrimSpace` removes. -/
def isSpace (c : Char) : Bool :=
  let n := c.toNat
  (9 ≤ n && n ≤ 13) || n == 32 || n == 133 || n == 160 || n == 5760 ||
  (8192 ≤ n && n ≤ 8202) || n == 8232 || n == 8233 || n == 8239 || n == 8287 || n == 12288

/-- Trim on character lists: leading and trailing spaces removed. -/
def trimSpaceChars (cs : List Char) : List Char :=
  ((cs.dropWhile isSpace).reverse.dropWhile isSpace).reverse

/-- Embedding of `strings.TrimSpace`. -/
def TrimSpace (s : String) : String := String.mk (trimSpaceChars s.data)

/-- Split on character lists: the pieces between the occurrences of `sep`. -/
def splitChars (sep : Char) : List Char → List (List Char)
  | [] => [[]]
  | c :: rest =>
    if c = sep then [] :: splitChars sep rest
    else
      match splitChars sep rest with
      | piece :: pieces => (c :: piece) :: pieces
      | [] => [[c]]

/-- Embedding of `strings.Split(s, sep)` for a separator of one character. -/
def Split (s : String) (sep : Char) : List String :=
  (splitChars sep s.data).map String.mk

/-- Embedding of `ConfigFromEnv` (`smtp.go`, lines 25-58): reads SMTP configuration from
environment variables; `getenv` is `os.Getenv`. -/
def ConfigFromEnv (getenv : String → String) : Config × GoError :=
  let port := getenv "SMTP_PORT"
  let recipients := getenv "SMTP_RECIPIENTS"
  let cfg : Config :=
    { Host := getenv "SMTP_HOST",
      Port := if port = "" then "587" else port,
      Username := getenv "SMTP_USERNAME",
      Password := getenv "SMTP_PASSWORD",
      FromAddr := getenv "SMTP_FROM",
      Recipients := if recipients ≠ "" then (Split recipients ',').map TrimSpace else [] }
  if cfg.Host = "" then (cfg, Errorf "SMTP_HOST not set" [])
  else if cfg.FromAddr = "" then (cfg, Errorf "SMTP_FROM not set" [])
  else if cfg.Recipients.length = 0 then (cfg, Errorf "SMTP_RECIPIENTS not set" [])
  else (cfg, none)

/-! ## The publish handler up to the create -/

/-- The part of `apiPublishHandler` before the create (lines 129-153) as one
function: the record that is handed to `CreateEAT`, or the outcome the handler
stops with, together with the collaborator calls made and the world reached. -/
def publishPrepare {σ : Type} (env : Env σ) (req : publishRequest) (eventDate : Time) (w : σ) :
    Except Outcome EAT × List Call × σ :=
  let eat := req.toEAT eventDate
  if req.Mode = "new_event" then
    (Except.ok { eat with
      EventTitle := FormatEventTitle eat.Magnitude eat.Location eat.EventDate, Version := 1 },
      [], w)
  else
    match resolveEventTitle env req eat w with
    | (Except.error out, calls, w1) => (Except.error out, calls, w1)
    | (Except.ok title, calls, w1) =>
      match env.GetLatestVersion title w1 with
      | ((_, some _), w2) =>
        (Except.error (writePublishError "failed to look up latest version"),
          calls ++ [Call.GetLatestVersion title], w2)
      | ((latest, none), w2) =>
        (Except.ok { eat with EventTitle := title, Version := nextVersion latest },
          calls ++ [Call.GetLatestVersion title], w2)

/-- The call renders the PDF or sends the email. -/
def Call.isNotify : Call → Bool
  | Call.GenerateEATPDF _ => true
  | Call.SendEATEmail _ _ _ => true
  | _ => false

/-- The call sends the email. -/
def Call.isSend : Call → Bool
  | Call.SendEATEmail _ _ _ => true
  | _ => false

/-- The outcome is a soft-fail response: no handler error, no panic, and a body
with `success = false` and a non-empty error message. -/
def Outcome.SoftFail (o : Outcome) : Prop :=
  o.err = none ∧ o.panicked = false ∧
  ∃ resp, o.body = some resp ∧ resp.Success = false ∧ resp.Error ≠ ""

/-! ## Sample values for the client operations -/

/-- A content store that answers every request with 500 and an error body
(the server of `TestErrorResponse`). -/
def serverErrorTransport : Transport :=
  { NewRequest := fun _ _ => none
    Do := fun _ => Except.ok ⟨500, Except.ok "\x7b\"error\":\"internal error\"\x7d"⟩ }

/-- The request carries an `Authorization` header exactly when the client holds
a token, and then its value is `Bearer ` followed by the token. -/
def AuthHeaderOK (c : Client) (r : Request) : Prop :=
  r.Header.lookup "Authorization" = if c.token = "" then none else some ("Bearer " ++ c.token)

/-- Codecs for the write operations that yield fixed values whatever the input. -/
def stubPostJSON (file : File) : PostJSON :=
  { MarshalEAT := fun _ => Except.ok ""
    UnmarshalFile := fun _ => Except.ok ⟨file⟩ }

/-- Codecs for `Login` that yield a fixed payload and a fixed token. -/
def stubLoginJSON (token : String) : LoginJSON :=
  { Marshal := fun _ => Except.ok ""
    Decode := fun _ _ => Except.ok ⟨⟨token⟩⟩ }

/-- The mock content store of `TestMain` (`routes_test.go`, lines 20-62) as `Login` sees
it: a POST to `/api/auth/login` is answered with the token `test-token`, any other
path with 404 Not Found. -/
def testMainStore (base : String) : PostClient :=
  { Post := fun url _ _ =>
      if url = base ++ "/api/auth/login" then Except.ok ⟨200, "test-token", none⟩
      else Except.ok ⟨404, "", none⟩ }

/-- A content store that serves the login at the path the client uses. -/
def localLoginStore (base token : String) : PostClient :=
  { Post := fun url _ _ =>
      if url = base ++ "/api/auth/local/login" then Except.ok ⟨200, token, none⟩
      else Except.ok ⟨404, "", none⟩ }

/-- The sequential store with a working mailer and a PDF renderer that fails the
way `GenerateEATPDF` can: `Output` returns an error, and the result is no PDF
and the error `pdf output: ...`. -/
def failingPdfEnv : Env Store :=
  storeEnv (fun _ => (none, some "pdf output: write failed"))
    (⟨"smtp.example.org", "587", "", "", "portal@example.org", ["duty@example.org"]⟩, none)
    (fun _ _ _ => none)

/-- The sequential store, except that every create call fails. -/
def failingCreateEnv : Env Store :=
  { sampleEnv with
    CreateEAT := fun _ s => ((none, some "FastSchema error (500): internal error"), s) }

/-! ## `cmd/nema-mar-app/dashboard_handler.go` -/

/-- Page holds data passed to HTML templates (`templates.go`, lines 12-23). -/
structure Page where
  Nonce : String
  Events : List String
  CurrentEAT : Option EAT
  Versions : List EAT
  IsNewEvent : Bool
  IsNewVersion : Bool
  Error : String
  Success : String
  HasNewBanner : Bool
  deriving DecidableEq, Repr

/-- The value `Page\x7bNonce: nonce\x7d`: every other field is zero. -/
def Page.withNonce (nonce : String) : Page :=
  { Nonce := nonce, Events := [], CurrentEAT := none, Versions := [], IsNewEvent := false,
    IsNewVersion := false, Error := "", Success := "", HasNewBanner := false }

/-- The parsed dashboard template: for the page it is executed on, the text it
writes to the buffer and the error it returns. -/
abbrev Template := Page → String × GoError

/-- What `dashboardHandler` leaves behind: either the error it returns before
anything is rendered, or the page it executes the template on with the
`Content-Type` header it set, the text written to the buffer and the error of
the template. -/
inductive DashboardResult where
  | failed (err : StatusError)
  | rendered (page : Page) (contentType : String) (buffer : String) (err : GoError)
  deriving DecidableEq, Repr

/-- The page a run rendered, if it rendered one. -/
def DashboardResult.page : DashboardResult → Option Page
  | DashboardResult.failed _ => none
  | DashboardResult.rendered page _ _ _ => some page

/-- Embedding of `dashboardHandler`, lines 21-47: the current EAT of the page, or
the error the handler returns.  With both `event_title` and `version` given the
version is parsed and dropped and the latest version of the title is fetched;
otherwise the latest version of the first distinct event of the last 7 days. -/
def dashboardCurrent (c : Client) (tr : Transport) (js : JSON) (now : Time) (q : Values) :
    Except StatusError (Option EAT) :=
  let eventTitle := q.Get "event_title"
  let versionStr := q.Get "version"
  if eventTitle ≠ "" ∧ versionStr ≠ "" then
    let _version := Atoi versionStr
    match c.GetLatestVersion tr js eventTitle with
    | (_, some err) => Except.error ⟨500, some err⟩
    | (eat, none) => Except.ok eat
  else
    match c.ListDistinctEvents tr js now 7 with
    | (_, some err) => Except.error ⟨500, some err⟩
    | (events, none) =>
      match events with
      | [] => Except.ok none
      | first :: _ =>
        match c.GetLatestVersion tr js first with
        | (_, some err) => Except.error ⟨500, some err⟩
        | (eat, none) => Except.ok eat

/-- The loop of `dashboardHandler`, lines 53-57: the records of the feed with the
title of the current EAT are appended to `page.Versions`. -/
def versionsLoop (title : String) : List EAT → List EAT → List EAT
  | [], versions => versions
  | e :: rest, versions =>
    if e.EventTitle = title then versionsLoop title rest (versions ++ [e])
    else versionsLoop title rest versions

/-- Embedding of `dashboardHandler`, lines 49-59: the version history of the
current EAT, loaded from the records since the day before its event date. -/
def dashboardVersions (c : Client) (tr : Transport) (js : JSON) : Option EAT → List EAT
  | none => []
  | some current =>
    match c.ListEATs tr js (current.EventDate.AddDays (-1)) with
    | (eats, none) => versionsLoop current.EventTitle eats []
    | (_, some _) => []

/-- Embedding of `dashboardHandler` (`dashboard_handler.go`, lines 12-63): serves the
read-only dashboard page.  `checked` is the result of `weft.CheckQueryValid` on
the request (GET, optional parameters `event_title` and `version`, validated by
`valid.Query`), `now` the reading of `time.Now()`. -/
def dashboardHandler (c : Client) (tr : Transport) (js : JSON) (tmpl : Template) (now : Time)
    (nonce : String) (checked : Except StatusError Values) : DashboardResult :=
  match checked with
  | Except.error err => DashboardResult.failed err
  | Except.ok q =>
    match dashboardCurrent c tr js now q with
    | Except.error err => DashboardResult.failed err
    | Except.ok current =>
      let page : Page :=
        { Page.withNonce nonce with
          CurrentEAT := current, Versions := dashboardVersions c tr js current }
      DashboardResult.rendered page "text/html; charset=utf-8" (tmpl page).1 (tmpl page).2

/-! ## Sample values for the dashboard -/

/-- A content store that answers every request with 200 and the URL of the
request as body, so that the decoder sees which query was made. -/
def echoTransport : Transport :=
  { NewRequest := fun _ _ => none
    Do := fun r => Except.ok ⟨200, Except.ok r.URL⟩ }

/-- The decoder of a content store that holds the records `feed`, listed by
event date descending, of which `latest` is the latest version of `title`: the
latest-version query for `title` is answered with `latest`, every other list
query with the whole feed. -/
def chainJSON (c : Client) (title : String) (latest : EAT) (feed : List EAT) : JSON :=
  { UnmarshalList := fun body =>
      if body = c.latestVersionURL title then Except.ok ⟨⟨1, 1, 1, 1, [latest]⟩⟩
      else Except.ok ⟨⟨feed.length, 100, 1, 1, feed⟩⟩
    UnmarshalSingle := fun _ => Except.error "unexpected end of JSON input" }

/-- Three records of a store: versions 2 and 1 of the chain `M5.0-X-2026-01-01`
and, between them in the feed, version 1 of another event. -/
def sampleFeed : List EAT :=
  [sampleRecord 9 "M5.0-X-2026-01-01" 2, sampleRecord 8 "M6.2-Y-2026-01-01" 1,
    sampleRecord 7 "M5.0-X-2026-01-01" 1]

/-- The decoder of the store that holds `sampleFeed`. -/
def sampleChainJSON : JSON :=
  chainJSON localClient "M5.0-X-2026-01-01" (sampleRecord 9 "M5.0-X-2026-01-01" 2) sampleFeed

/-- A template that writes the title of the current EAT and the number of
versions in the history. -/
def sampleTemplate : Template := fun page =>
  (Sprintf "%s (%d versions)"
    [Arg.string ((page.CurrentEAT.map EAT.EventTitle).getD ""), Arg.int page.Versions.length], none)

/-! ## URL decoding and JSON documents

The two notions the filter of a list query is measured against: the URL-decoding
of a query parameter, as `url.QueryUnescape` performs it, and the reading of a
text as a JSON document (RFC 8259), with `\u` escapes decoded as `encoding/json`
decodes them. -/

/-- The UTF-8 bytes of a text. -/
def utf8Bytes (s : String) : List Nat :=
  s.data.flatMap (fun c => (String.utf8EncodeChar c).map UInt8.toNat)

/-- Value of a hexadecimal digit (`unhex` of `net/url`). -/
def unhex (c : Char) : Option Nat :=
  if '0' ≤ c ∧ c ≤ '9' then some (c.toNat - '0'.toNat)
  else if 'a' ≤ c ∧ c ≤ 'f' then some (c.toNat - 'a'.toNat + 10)
  else if 'A' ≤ c ∧ c ≤ 'F' then some (c.toNat - 'A'.toNat + 10)
  else none

/-- Embedding of `url.QueryUnescape`, giving the bytes of the decoded text: `%XX`
is the byte with that hexadecimal value, `+` a space, every other character
stands for itself; a `%` that is not followed by two hexadecimal digits is an
error (`none`). -/
def QueryUnescape : List Char → Option (List Nat)
  | [] => some []
  | c :: rest =>
    if c = '%' then
      match rest with
      | a :: b :: rest2 =>
        match unhex a, unhex b with
        | some x, some y => (QueryUnescape rest2).map (fun r => (16 * x + y) :: r)
        | _, _ => none
      | _ => none
    else if c = '+' then (QueryUnescape rest).map (fun r => 32 :: r)
    else (QueryUnescape rest).map (fun r => (String.utf8EncodeChar c).map UInt8.toNat ++ r)

/-- A JSON value; a number is kept as its text. -/
inductive JValue where
  | null
  | bool (b : Bool)
  | number (text : String)
  | str (s : String)
  | arr (items : List JValue)
  | obj (members : List (String × JValue))

/-- Skip JSON white space (space, tab, line feed, carriage return). -/
def skipWS : List Char → List Char
  | [] => []
  | c :: rest => if c = ' ' ∨ c = '\t' ∨ c = '\n' ∨ c = '\r' then skipWS rest else c :: rest

/-- The character a two-character escape of a JSON string stands for. -/
def jsonEscape (e : Char) : Option Char :=
  if e = '\x22' then some '\x22'
  else if e = '\x5c' then some '\x5c'
  else if e = '/' then some '/'
  else if e = 'b' then some '\x08'
  else if e = 'f' then some '\x0c'
  else if e = 'n' then some '\n'
  else if e = 'r' then some '\r'
  else if e = 't' then some '\t'
  else none

/-- Value of four hexadecimal digits. -/
def hex4 (a b c d : Char) : Option Nat :=
  match unhex a, unhex b, unhex c, unhex d with
  | some w, some x, some y, some z => some (((w * 16 + x) * 16 + y) * 16 + z)
  | _, _, _, _ => none

/-- Scan a JSON string after its opening quote up to the closing quote: the code
points of its characters (a `\uXXXX` escape gives the code unit `XXXX`, which
may be a surrogate half) and the text after the closing quote.  A control
character, an unknown escape or a missing closing quote is an error. -/
def jsonStringBody : List Char → Option (List Nat × List Char)
  | [] => none
  | c :: rest =>
    if c = '\x22' then some ([], rest)
    else if c = '\x5c' then
      match rest with
      | [] => none
      | e :: rest2 =>
        if e = 'u' then
          match rest2 with
          | h1 :: h2 :: h3 :: h4 :: rest3 =>
            match hex4 h1 h2 h3 h4, jsonStringBody rest3 with
            | some n, some (units, r) => some (n :: units, r)
            | _, _ => none
          | _ => none
        else
          match jsonEscape e, jsonStringBody rest2 with
          | some x, some (units, r) => some (x.toNat :: units, r)
          | _, _ => none
    else if c.toNat < 32 then none
    else
      match jsonStringBody rest with
      | some (units, r) => some (c.toNat :: units, r)
      | none => none

/-- The characters of a sequence of code units: a high surrogate followed by a
low surrogate is one character, a surrogate half on its own is U+FFFD. -/
def decodeUnits : List Nat → List Char
  | [] => []
  | [u] => [if 0xD800 ≤ u ∧ u < 0xE000 then Char.ofNat 0xFFFD else Char.ofNat u]
  | u :: v :: rest =>
    if 0xD800 ≤ u ∧ u < 0xDC00 ∧ 0xDC00 ≤ v ∧ v < 0xE000 then
      Char.ofNat (0x10000 + (u - 0xD800) * 0x400 + (v - 0xDC00)) :: decodeUnits rest
    else
      (if 0xD800 ≤ u ∧ u < 0xE000 then Char.ofNat 0xFFFD else Char.ofNat u) ::
        decodeUnits (v :: rest)

/-- Read a JSON string after its opening quote: its value and the text after
the closing quote. -/
def jsonString (cs : List Char) : Option (String × List Char) :=
  match jsonStringBody cs with
  | some (units, rest) => some (String.mk (decodeUnits units), rest)
  | none => none

/-- Split off the leading decimal digits. -/
def spanDigits : List Char → List Char × List Char
  | [] => ([], [])
  | c :: rest =>
    if c.isDigit then (c :: (spanDigits rest).1, (spanDigits rest).2) else ([], c :: rest)

/-- Read the integer part of a JSON number: a single `0`, or digits that do not
start with `0`. -/
def jsonInt : List Char → Option (List Char × List Char)
  | '0' :: rest => some (['0'], rest)
  | cs => if (spanDigits cs).1 = [] then none else some (spanDigits cs)

/-- Read the optional fraction of a JSON number: a point and at least one digit. -/
def jsonFrac : List Char → Option (List Char × List Char)
  | '.' :: rest =>
    if (spanDigits rest).1 = [] then none
    else some ('.' :: (spanDigits rest).1, (spanDigits rest).2)
  | cs => some ([], cs)

/-- Read the optional exponent of a JSON number: `e` or `E`, an optional sign and
at least one digit. -/
def jsonExp : List Char → Option (List Char × List Char)
  | [] => some ([], [])
  | c :: rest =>
    if c = 'e' ∨ c = 'E' then
      match rest with
      | s :: rest2 =>
        if s = '+' ∨ s = '-' then
          (if (spanDigits rest2).1 = [] then none
           else some (c :: s :: (spanDigits rest2).1, (spanDigits rest2).2))
        else if (spanDigits rest).1 = [] then none
        else some (c :: (spanDigits rest).1, (spanDigits rest).2)
      | [] => none
    else some ([], c :: rest)

/-- Read a JSON number: its text and the text after it. -/
def jsonNumber (cs : List Char) : Option (String × List Char) :=
  let signed : List Char × List Char :=
    match cs with
    | '-' :: rest => (['-'], rest)
    | _ => ([], cs)
  match jsonInt signed.2 with
  | none => none
  | some (int, r1) =>
    match jsonFrac r1 with
    | none => none
    | some (frac, r2) =>
      match jsonExp r2 with
      | none => none
      | some (exp, r3) => some (String.mk (signed.1 ++ int ++ frac ++ exp), r3)

/-- The text after the given literal, if the text starts with it. -/
def dropLiteral : List Char → List Char → Option (List Char)
  | [], cs => some cs
  | _ :: _, [] => none
  | l :: ls, c :: cs => if l = c then dropLiteral ls cs else none

mutual

/-- Read a JSON value, white space before it included: the value and the text
after it.  `fuel` bounds the nesting of values and the number of members and
elements; with no fuel left nothing is read. -/
def jsonValue : Nat → List Char → Option (JValue × List Char)
  | 0, _ => none
  | fuel + 1, cs =>
    match skipWS cs with
    | [] => none
    | c :: rest =>
      if c = '\x7b' then
        match skipWS rest with
        | [] => none
        | d :: rest2 =>
          if d = '\x7d' then some (JValue.obj [], rest2)
          else
            match jsonMembers fuel (d :: rest2) with
            | some (members, r) => some (JValue.obj members, r)
            | none => none
      else if c = '[' then
        match skipWS rest with
        | [] => none
        | d :: rest2 =>
          if d = ']' then some (JValue.arr [], rest2)
          else
            match jsonElements fuel (d :: rest2) with
            | some (items, r) => some (JValue.arr items, r)
            | none => none
      else if c = '\x22' then
        match jsonString rest with
        | some (s, r) => some (JValue.str s, r)
        | none => none
      else if c = 't' then (dropLiteral ['r', 'u', 'e'] rest).map (fun r => (JValue.bool true, r))
      else if c = 'f' then
        (dropLiteral ['a', 'l', 's', 'e'] rest).map (fun r => (JValue.bool false, r))
      else if c = 'n' then (dropLiteral ['u', 'l', 'l'] rest).map (fun r => (JValue.null, r))
      else
        match jsonNumber (c :: rest) with
        | some (text, r) => some (JValue.number text, r)
        | none => none

/-- Read the members of a JSON object after its opening brace and the white
space that follows it, up to the closing brace: each member is a string, a
colon and a value, and members are separated by commas. -/
def jsonMembers : Nat → List Char → Option (List (String × JValue) × List Char)
  | 0, _ => none
  | _ + 1, [] => none
  | fuel + 1, c :: rest =>
    if c = '\x22' then
      match jsonString rest with
      | none => none
      | some (key, r1) =>
        match skipWS r1 with
        | [] => none
        | d :: r2 =>
          if d = ':' then
            match jsonValue fuel r2 with
            | none => none
            | some (v, r3) =>
              match skipWS r3 with
              | [] => none
              | e :: r4 =>
                if e = '\x7d' then some ([(key, v)], r4)
                else if e = ',' then
                  match jsonMembers fuel (skipWS r4) with
                  | some (members, r) => some ((key, v) :: members, r)
                  | none => none
                else none
          else none
    else none

/-- Read the elements of a JSON array after its opening bracket, up to the
closing bracket: values separated by commas. -/
def jsonElements : Nat → List Char → Option (List JValue × List Char)
  | 0, _ => none
  | fuel + 1, cs =>
    match jsonValue fuel cs with
    | none => none
    | some (v, r1) =>
      match skipWS r1 with
      | [] => none
      | e :: r2 =>
        if e = ']' then some ([v], r2)
        else if e = ',' then
          match jsonElements fuel r2 with
          | some (items, r) => some (v :: items, r)
          | none => none
        else none

end

/-- Read a whole text as one JSON value with nothing but white space after it. -/
def jsonDocument (fuel : Nat) (cs : List Char) : Option JValue :=
  match jsonValue fuel cs with
  | some (v, rest) => if skipWS rest = [] then some v else none
  | none => none

/-- The text is a well-formed JSON document with the value `v`. -/
def IsJSONOf (doc : String) (v : JValue) : Prop :=
  ∃ fuel, jsonDocument fuel doc.data = some v

/-- The text is a well-formed JSON document. -/
def WellFormedJSON (doc : String) : Prop :=
  ∃ fuel v, jsonDocument fuel doc.data = some v

/-- The filter object of `GetLatestVersion` for a title: the object with the one
member `event_title`, whose value is the object with the one member `$eq`, whose
value is the title. -/
def titleFilter (title : String) : JValue :=
  JValue.obj [("event_title", JValue.obj [("$eq", JValue.str title)])]

/-- The character may stand unescaped inside a JSON string: it is neither the
quote nor the backslash nor a control character. -/
def plainJSONChar (c : Char) : Bool :=
  c != '\x22' && c != '\x5c' && decide (32 ≤ c.toNat)

/-- A content store that answers every request with 500 over a connection that
breaks while the body is read. -/
def brokenBodyTransport : Transport :=
  { NewRequest := fun _ _ => none
    Do := fun _ => Except.ok ⟨500, Except.error "unexpected EOF"⟩ }

/-- A content store that answers the login with 201 Created and a token. -/
def createdLoginStore (base token : String) : PostClient :=
  { Post := fun url _ _ =>
      if url = base ++ "/api/auth/local/login" then Except.ok ⟨201, token, none⟩
      else Except.ok ⟨404, "", none⟩ }

/-- A content store that answers a request with 200 and the given body when its
`Authorization` header has the expected value, and with 401 otherwise (after the
server of `TestCreateEAT`, which reports any other header as a test failure). -/
def bearerCheckingStore (expected body : String) : Transport :=
  { NewRequest := fun _ _ => none
    Do := fun r =>
      if r.Header.lookup "Authorization" = some expected then Except.ok ⟨200, Except.ok body⟩
      else Except.ok ⟨401, Except.ok "unexpected auth header"⟩ }

/-- A decoder that reads the given body as the given record and nothing else. -/
def exactJSON (body : String) (single : EAT) : JSON :=
  { UnmarshalList := fun _ => Except.error "unexpected end of JSON input"
    UnmarshalSingle := fun b =>
      if b = body then Except.ok ⟨single⟩ else Except.error "unexpected end of JSON input" }

/-- A network on which every request whose `Authorization` header has the
expected value fails, while any other request is answered with 200. -/
def refusingBearerTransport (expected : String) : Transport :=
  { NewRequest := fun _ _ => none
    Do := fun r =>
      if r.Header.lookup "Authorization" = some expected then Except.error "connection refused"
      else Except.ok ⟨200, Except.ok ""⟩ }

/-! ## `internal/pdf/generate.go` -/

/-- Embedding of `GenerateEATPDF` (`generate.go`, lines 12-77): creates a PDF
representation of an EAT.  The document is laid out by `fpdf` calls that return
nothing; `output` is the result of the one call whose error is looked at,
`p.Output(&buf)`, for the document of the record: the bytes written to the
buffer, or the error.  A buffer nothing was written to yields a nil slice. -/
def GenerateEATPDF (output : EAT → Except String (List Nat)) (eat : EAT) :
    Option (List Nat) × GoError :=
  match output eat with
  | Except.error err => (none, Errorf "pdf output: %w" [Arg.string err])
  | Except.ok bytes => (if bytes = [] then none else some bytes, none)

/-! # Properties -/

/-! ## Event titles -/

theorem format_date_layout (t : Time) : t.UTC.Format "2006-01-02" = isoDate (utcDate t) := by
  apply String.ext
  simp [Time.Format, layoutChunks, formatChunk, isoDate, utcDate, Time.date, Time.wall, Time.UTC]

theorem formatEventTitle_concat (m : Float32) (loc : String) (t : Time) :
    FormatEventTitle m loc t =
      "M" ++ Sprintf "%.1f" [Arg.float32 m] ++ "-" ++ loc ++ "-" ++ isoDate (utcDate t) := by
  rw [← format_date_layout]
  apply String.ext
  simp [FormatEventTitle, Sprintf, sprintfAux, fmtVerb]

/-- The cases of `TestFormatEventTitle` (`types_test.go`). -/
theorem test_format_event_title :
    FormatEventTitle mag5_0 "Wellington" (DateUTC 2026 1 15 10 30 0) =
      "M5.0-Wellington-2026-01-15" ∧
    FormatEventTitle mag6_2 "Kaikoura" (DateUTC 2026 3 1 0 0 0) = "M6.2-Kaikoura-2026-03-01" ∧
    FormatEventTitle mag0_5 "Test Location" (DateUTC 2025 12 31 23 59 0) =
      "M0.5-Test Location-2025-12-31" := by
  decide

/-- Rounding of `%.1f`: 5.04 (bits `0x40A147AE`) renders like 5.0, and the two
ties 0.25 and 0.75 go to the even digit. -/
theorem test_one_decimal_rounding :
    FormatFloat32 ⟨false, 129, 2181038⟩ 1 = "5.0" ∧ FormatFloat32 mag5_0 1 = "5.0" ∧
    FormatFloat32 ⟨false, 125, 0⟩ 1 = "0.2" ∧ FormatFloat32 ⟨false, 126, 4194304⟩ 1 = "0.8" ∧
    FormatFloat32 ⟨true, 0, 1⟩ 1 = "-0.0" ∧ FormatFloat32 Float32.nan 1 = "NaN" ∧
    FormatFloat32 Float32.negInf 1 = "-Inf" := by
  decide

/-- Claim C1: for every magnitude, location and instant, `FormatEventTitle` is
the concatenation of `M`, the magnitude formatted with `%.1f`, `-`, the location
unchanged, `-` and the UTC calendar date of the instant written `YYYY-MM-DD`; in
particular the title of magnitude 5.0 at Wellington on 2026-01-15T10:30Z is
`M5.0-Wellington-2026-01-15`. -/
theorem format_event_title_is_concatenation :
    (∀ (m : Float32) (loc : String) (t : Time),
      FormatEventTitle m loc t =
        "M" ++ Sprintf "%.1f" [Arg.float32 m] ++ "-" ++ loc ++ "-" ++ isoDate (utcDate t)) ∧
    FormatEventTitle mag5_0 "Wellington" sampleInstant = "M5.0-Wellington-2026-01-15" :=
  ⟨formatEventTitle_concat, by decide⟩

theorem magnitudePart_eq (m : Float32) (loc : String) (t : Time) :
    magnitudePart (FormatEventTitle m loc t) loc (isoDate (utcDate t)) = FormatFloat32 m 1 := by
  rw [formatEventTitle_concat]
  apply String.ext
  simp [magnitudePart, Sprintf, sprintfAux, fmtVerb]
  have h : ∀ a l d : Nat, a + (l + (d + 1) + 1) - (1 + l + 1 + d) = a := by intros; omega
  rw [h, String.length, List.take_left]

theorem digitChar_isDigit (k : Nat) (h : k < 10) : (Nat.digitChar k).isDigit = true := by
  interval_cases k <;> decide

theorem toDigitsCore_isDigit (fuel : Nat) : ∀ (n : Nat) (ds : List Char),
    (∀ c ∈ ds, c.isDigit = true) → ∀ c ∈ Nat.toDigitsCore 10 fuel n ds, c.isDigit = true := by
  induction fuel with
  | zero => intro n ds h; simpa [Nat.toDigitsCore] using h
  | succ f ih =>
    intro n ds h
    simp only [Nat.toDigitsCore]
    have hd : (Nat.digitChar (n % 10)).isDigit = true :=
      digitChar_isDigit _ (Nat.mod_lt _ (by decide))
    split
    · intro c hc
      rcases List.mem_cons.1 hc with rfl | hc
      · exact hd
      · exact h c hc
    · apply ih
      intro c hc
      rcases List.mem_cons.1 hc with rfl | hc
      · exact hd
      · exact h c hc

theorem toDigitsCore_ne_nil (fuel : Nat) : ∀ (n : Nat) (ds : List Char),
    (0 < fuel ∨ ds ≠ []) → Nat.toDigitsCore 10 fuel n ds ≠ [] := by
  induction fuel with
  | zero =>
    intro n ds h
    rcases h with h | h
    · omega
    · simpa [Nat.toDigitsCore] using h
  | succ f ih =>
    intro n ds _
    simp only [Nat.toDigitsCore]
    split
    · simp
    · apply ih; right; simp

theorem repr_isDigit (n : Nat) : ∀ c ∈ (Nat.repr n).data, c.isDigit = true := by
  simp only [Nat.repr, Nat.toDigits, List.asString]
  exact toDigitsCore_isDigit _ _ _ (by simp)

theorem repr_ne_nil (n : Nat) : (Nat.repr n).data ≠ [] := by
  simp only [Nat.repr, Nat.toDigits, List.asString]
  exact toDigitsCore_ne_nil _ _ _ (Or.inl (Nat.succ_pos _))

theorem repr_lt_ten (k : Nat) (h : k < 10) : (Nat.repr k).data = [Nat.digitChar k] := by
  interval_cases k <;> decide

theorem zeroPad_one (k : Nat) (h : k < 10) : zeroPad 1 k = [Nat.digitChar k] := by
  simp [zeroPad, repr_lt_ten k h]

theorem oneDecimalDigit_shape (neg : Bool) (ds : List Char) (d : Char) (hds : ds ≠ [])
    (hall : ∀ c ∈ ds, c.isDigit = true) (hd : d.isDigit = true) :
    oneDecimalDigit (String.mk ((if neg = true then ['-'] else []) ++ ds ++ ['.', d])) = true := by
  obtain ⟨x, xs, rfl⟩ := List.exists_cons_of_ne_nil hds
  have hx : x.isDigit = true := hall x (List.mem_cons_self _ _)
  have hx' : x ≠ '-' := by
    rintro rfl
    exact absurd hx (by decide)
  cases neg
  · simp [oneDecimalDigit, hd, hx']
    exact ⟨hx, fun c hc => hall c (List.mem_cons_of_mem _ hc)⟩
  · simp [oneDecimalDigit, hd]
    exact ⟨hx, fun c hc => hall c (List.mem_cons_of_mem _ hc)⟩

theorem oneDecimalDigit_finite (m : Float32) (h : m.isFinite = true) :
    oneDecimalDigit (FormatFloat32 m 1) = true := by
  have hf : m.isInfOrNaN = false := by simpa [Float32.isFinite] using h
  simp only [FormatFloat32, hf]
  have hlt : roundHalfEven (m.mant * 10 ^ 1) m.exp2 % 10 ^ 1 < 10 := Nat.mod_lt _ (by decide)
  simp only [Bool.false_eq_true, if_false, show ¬ (1 = 0) from by decide, zeroPad_one _ hlt]
  exact oneDecimalDigit_shape m.sign _ _ (repr_ne_nil _) (repr_isDigit _) (digitChar_isDigit _ hlt)

/-- Claim C2, as stated, fails: for the magnitude `+Inf`, which
`portalPreviewHandler` passes on when the form carries `Inf` or a number too
large for a `float32`, the title is `M+Inf-Wellington-2026-01-15`; its magnitude
part `+Inf` has no decimal point and no digit. -/
theorem magnitude_part_of_infinity :
    FormatEventTitle Float32.posInf "Wellington" sampleInstant = "M+Inf-Wellington-2026-01-15" ∧
    magnitudePart (FormatEventTitle Float32.posInf "Wellington" sampleInstant) "Wellington"
      (isoDate (utcDate sampleInstant)) = "+Inf" ∧
    oneDecimalDigit (magnitudePart (FormatEventTitle Float32.posInf "Wellington" sampleInstant)
      "Wellington" (isoDate (utcDate sampleInstant))) = false := by
  decide

/-- Claim C2, amended: for every finite single-precision magnitude passed to
`FormatEventTitle`, the magnitude part of the title (between the leading `M`
and the `-` that precedes the location) is rendered with exactly one digit
after the decimal point; for the non-finite values the magnitude part is `NaN`
(any NaN), `+Inf` or `-Inf`, none of which has a digit after a decimal point. -/
theorem magnitude_part_one_decimal (m : Float32) (loc : String) (t : Time) :
    (m.isFinite = true →
      oneDecimalDigit (magnitudePart (FormatEventTitle m loc t) loc (isoDate (utcDate t))) =
        true) ∧
    (m.isFinite = false → m.mantBits.val ≠ 0 →
      magnitudePart (FormatEventTitle m loc t) loc (isoDate (utcDate t)) = "NaN") ∧
    (m.isFinite = false → m.mantBits.val = 0 → m.sign = false →
      magnitudePart (FormatEventTitle m loc t) loc (isoDate (utcDate t)) = "+Inf") ∧
    (m.isFinite = false → m.mantBits.val = 0 → m.sign = true →
      magnitudePart (FormatEventTitle m loc t) loc (isoDate (utcDate t)) = "-Inf") ∧
    (m.isFinite = false →
      oneDecimalDigit (magnitudePart (FormatEventTitle m loc t) loc (isoDate (utcDate t))) =
        false) := by
  rw [magnitudePart_eq]
  have hnf : m.isFinite = false → m.isInfOrNaN = true := by
    intro h
    simpa [Float32.isFinite] using h
  refine ⟨oneDecimalDigit_finite m, ?_, ?_, ?_, ?_⟩
  · intro h hm
    simp [FormatFloat32, hnf h, hm]
  · intro h hm hs
    simp [FormatFloat32, hnf h, hm, hs]
  · intro h hm hs
    simp [FormatFloat32, hnf h, hm, hs]
  · intro h
    simp only [FormatFloat32, hnf h, if_true]
    split_ifs <;> decide

/-- Witness of `magnitude_part_one_decimal`: the magnitude 5.0 at Wellington, and
the three kinds of non-finite magnitude. -/
theorem magnitude_part_one_decimal_witness :
    (mag5_0.isFinite = true ∧
      oneDecimalDigit (magnitudePart (FormatEventTitle mag5_0 "Wellington" sampleInstant)
        "Wellington" (isoDate (utcDate sampleInstant))) = true) ∧
    (Float32.nan.isFinite = false ∧ Float32.nan.mantBits.val ≠ 0 ∧
      magnitudePart (FormatEventTitle Float32.nan "Wellington" sampleInstant)
        "Wellington" (isoDate (utcDate sampleInstant)) = "NaN") ∧
    (Float32.posInf.isFinite = false ∧ Float32.posInf.mantBits.val = 0 ∧
      Float32.posInf.sign = false ∧
      magnitudePart (FormatEventTitle Float32.posInf "Wellington" sampleInstant)
        "Wellington" (isoDate (utcDate sampleInstant)) = "+Inf") ∧
    (Float32.negInf.isFinite = false ∧ Float32.negInf.mantBits.val = 0 ∧
      Float32.negInf.sign = true ∧
      magnitudePart (FormatEventTitle Float32.negInf "Wellington" sampleInstant)
        "Wellington" (isoDate (utcDate sampleInstant)) = "-Inf") ∧
    oneDecimalDigit (magnitudePart (FormatEventTitle Float32.negInf "Wellington" sampleInstant)
      "Wellington" (isoDate (utcDate sampleInstant))) = false :=
  ⟨⟨by decide, (magnitude_part_one_decimal mag5_0 "Wellington" sampleInstant).1 (by decide)⟩,
   ⟨by decide, by decide,
    (magnitude_part_one_decimal Float32.nan "Wellington" sampleInstant).2.1 (by decide)
      (by decide)⟩,
   ⟨by decide, by decide, by decide,
    (magnitude_part_one_decimal Float32.posInf "Wellington" sampleInstant).2.2.1 (by decide)
      (by decide) (by decide)⟩,
   ⟨by decide, by decide, by decide,
    (magnitude_part_one_decimal Float32.negInf "Wellington" sampleInstant).2.2.2.1 (by decide)
      (by decide) (by decide)⟩,
   (magnitude_part_one_decimal Float32.negInf "Wellington" sampleInstant).2.2.2.2 (by decide)⟩

/-! ## The publish handler -/

theorem createdArgs_append (a b : List Call) :
    createdArgs (a ++ b) = createdArgs a ++ createdArgs b := by
  induction a with
  | nil => rfl
  | cons c rest ih => cases c <;> simp [createdArgs, ih]

theorem createdArgs_of_no_store (l : List Call) (h : ∀ c ∈ l, c.isStore = false) :
    createdArgs l = [] := by
  induction l with
  | nil => rfl
  | cons c rest ih =>
    have hc := h c (List.mem_cons_self _ _)
    have hr := ih (fun x hx => h x (List.mem_cons_of_mem _ hx))
    cases c <;> simp_all [createdArgs, Call.isStore]

theorem publishNotify_no_store {σ : Type} (env : Env σ) (created : EAT) (w : σ) :
    ∀ c ∈ (publishNotify env created w).1, c.isStore = false := by
  intro c hc
  unfold publishNotify at hc
  dsimp only at hc
  split at hc
  · split at hc <;> simp at hc <;> rcases hc with rfl | rfl | rfl | rfl <;> rfl
  · split at hc
    · split at hc <;> simp at hc <;> rcases hc with rfl | rfl | rfl <;> rfl
    · split at hc <;> split at hc <;> simp at hc <;>
        rcases hc with rfl | rfl | rfl | rfl | rfl <;> rfl

theorem publishSave_calls {σ : Type} (env : Env σ) (eat : EAT) (calls : List Call) (w : σ) :
    ∃ rest, (publishSave env eat calls w).calls = calls ++ Call.CreateEAT eat :: rest ∧
      ∀ c ∈ rest, c.isStore = false := by
  unfold publishSave
  split
  · exact ⟨[], rfl, by simp⟩
  · exact ⟨[], rfl, by simp⟩
  · exact ⟨_, rfl, publishNotify_no_store env _ _⟩

theorem publishSave_createdArgs {σ : Type} (env : Env σ) (eat : EAT) (calls : List Call) (w : σ) :
    createdArgs (publishSave env eat calls w).calls = createdArgs calls ++ [eat] := by
  obtain ⟨rest, h, hr⟩ := publishSave_calls env eat calls w
  rw [h, createdArgs_append]
  simp [createdArgs, createdArgs_of_no_store rest hr]

theorem publishNewVersion_createdArgs {σ : Type} (env : Env σ) (eat : EAT) (calls : List Call)
    (w w1 : σ) (latest : Option EAT)
    (hlat : env.GetLatestVersion eat.EventTitle w = ((latest, none), w1)) :
    createdArgs (publishNewVersion env eat calls w).calls = createdArgs calls ++
      [{ eat with Version := nextVersion latest }] := by
  unfold publishNewVersion
  rw [hlat]
  simp [publishSave_createdArgs, createdArgs_append, createdArgs]

theorem publishNewVersion_calls {σ : Type} (env : Env σ) (eat : EAT) (calls : List Call)
    (w : σ) :
    ∃ rest, (publishNewVersion env eat calls w).calls =
        calls ++ Call.GetLatestVersion eat.EventTitle :: rest ∧
      ∀ e ∈ createdArgs rest, e.EventTitle = eat.EventTitle := by
  unfold publishNewVersion
  split
  · exact ⟨[], rfl, by simp [createdArgs]⟩
  · rename_i latest w1 _
    obtain ⟨rest, h, hr⟩ := publishSave_calls env { eat with Version := nextVersion latest }
      (calls ++ [Call.GetLatestVersion eat.EventTitle]) w1
    refine ⟨Call.CreateEAT { eat with Version := nextVersion latest } :: rest, ?_, ?_⟩
    · rw [h]; simp
    · intro e he
      simp [createdArgs, createdArgs_of_no_store rest hr] at he
      rw [he]

/-- A request that passes validation reaches identity resolution. -/
theorem handler_valid_unfold {σ : Type} (env : Env σ) (w : σ) (req : publishRequest)
    (eventDate : Time) (hv : req.Valid)
    (hp : Parse "2006-01-02T15:04" req.EventDate = some eventDate) :
    apiPublishHandler env ⟨none, Except.ok req⟩ w =
      if req.Mode = "new_event" then
        publishSave env
          { req.toEAT eventDate with
            EventTitle := FormatEventTitle req.Magnitude req.Location eventDate, Version := 1 }
          [] w
      else
        match resolveEventTitle env req (req.toEAT eventDate) w with
        | (Except.error out, calls, w1) => ⟨out, calls, w1⟩
        | (Except.ok title, calls, w1) =>
          publishNewVersion env { req.toEAT eventDate with EventTitle := title } calls w1 := by
  obtain ⟨h1, h2, h3, _⟩ := hv
  have h3' : ¬ (req.Status ≠ "preliminary" ∧ req.Status ≠ "confirmed") := by
    rintro ⟨a, b⟩
    rcases h3 with h | h
    · exact a h
    · exact b h
  simp only [apiPublishHandler, h1, h2, h3', hp, if_false]
  rfl

theorem int_add_one_in_range (v : Int) (hlo : minInt64 ≤ v) (hhi : v < maxInt64) :
    intAdd v 1 = v + 1 := by
  unfold intAdd wrapInt64
  unfold minInt64 at hlo
  unfold maxInt64 at hhi
  omega

/-- A request that fails validation is answered with a soft failure and
reaches no collaborator. -/
theorem invalid_request_run {σ : Type} (env : Env σ) (w : σ) (req : publishRequest)
    (h : req.Location = "" ∨ req.EventDate = "" ∨
      Parse "2006-01-02T15:04" req.EventDate = none ∨
      (req.Status ≠ "preliminary" ∧ req.Status ≠ "confirmed")) :
    (apiPublishHandler env ⟨none, Except.ok req⟩ w).calls = [] ∧
    (apiPublishHandler env ⟨none, Except.ok req⟩ w).world = w ∧
    (apiPublishHandler env ⟨none, Except.ok req⟩ w).out.err = none ∧
    (apiPublishHandler env ⟨none, Except.ok req⟩ w).out.panicked = false ∧
    ∃ resp, (apiPublishHandler env ⟨none, Except.ok req⟩ w).out.body = some resp ∧
      resp.Success = false ∧ resp.Error ≠ "" := by
  unfold apiPublishHandler
  dsimp only
  by_cases h1 : req.Location = ""
  · rw [if_pos h1]
    exact ⟨rfl, rfl, rfl, rfl, _, rfl, rfl, by decide⟩
  rw [if_neg h1]
  by_cases h2 : req.EventDate = ""
  · rw [if_pos h2]
    exact ⟨rfl, rfl, rfl, rfl, _, rfl, rfl, by decide⟩
  rw [if_neg h2]
  by_cases h3 : req.Status ≠ "preliminary" ∧ req.Status ≠ "confirmed"
  · rw [if_pos h3]
    exact ⟨rfl, rfl, rfl, rfl, _, rfl, rfl, by decide⟩
  rw [if_neg h3]
  have h4 : Parse "2006-01-02T15:04" req.EventDate = none := by
    rcases h with h | h | h | h
    · exact absurd h h1
    · exact absurd h h2
    · exact h
    · exact absurd h h3
  rw [h4]
  exact ⟨rfl, rfl, rfl, rfl, _, rfl, rfl, by decide⟩

/-- Claim C3: in `apiPublishHandler`, for a valid request in `new_version` mode
whose title resolves and whose latest-version lookup succeeds, exactly one record
is written to the store; it carries the resolved title, and its version is
`latest.Version + 1` (Go addition on `int`, which is the integer successor for
every version below the largest `int`) when a latest record exists and 1 when
none exists; `nextVersion(absent) = 1` and `nextVersion({version: 3}) = 4`. -/
theorem publish_new_version_number {σ : Type} (env : Env σ) (w w1 w2 : σ) (req : publishRequest)
    (eventDate : Time) (title : String) (calls : List Call) (latest : Option EAT)
    (hv : req.Valid) (hp : Parse "2006-01-02T15:04" req.EventDate = some eventDate)
    (hm : req.Mode = "new_version")
    (hres : resolveEventTitle env req (req.toEAT eventDate) w = (Except.ok title, calls, w1))
    (hlat : env.GetLatestVersion title w1 = ((latest, none), w2)) :
    (∃ e, createdArgs (apiPublishHandler env ⟨none, Except.ok req⟩ w).calls = [e] ∧
      e.EventTitle = title ∧
      (∀ l, latest = some l → e.Version = intAdd l.Version 1 ∧
        (minInt64 ≤ l.Version → l.Version < maxInt64 → e.Version = l.Version + 1)) ∧
      (latest = none → e.Version = 1)) ∧
    nextVersion none = 1 ∧ nextVersion (some (sampleRecord 7 "M5.0-X-2026-01-01" 3)) = 4 := by
  refine ⟨?_, by decide, by decide⟩
  have hne : ¬ req.Mode = "new_event" := by rw [hm]; decide
  have hc : createdArgs calls = [] := by
    unfold resolveEventTitle at hres
    split at hres
    · split at hres <;> simp at hres
      obtain ⟨_, rfl, _⟩ := hres
      rfl
    · simp at hres; obtain ⟨_, rfl, _⟩ := hres; rfl
  rw [handler_valid_unfold env w req eventDate hv hp, if_neg hne, hres]
  dsimp only
  rw [publishNewVersion_createdArgs env { req.toEAT eventDate with EventTitle := title }
    calls w1 w2 latest hlat, hc]
  refine ⟨_, rfl, rfl, ?_, ?_⟩
  · rintro l rfl
    exact ⟨rfl, fun hlo hhi => int_add_one_in_range _ hlo hhi⟩
  · rintro rfl
    rfl

/-- Witness of `publish_new_version_number`: a new version of the chain whose
latest record has version 3 is written with version 4. -/
theorem publish_new_version_number_witness :
    ∃ e, createdArgs (apiPublishHandler sampleEnv
        ⟨none, Except.ok (sampleRequest "new_version" "confirmed" 7)⟩ sampleStore).calls = [e] ∧
      e.EventTitle = "M5.0-X-2026-01-01" ∧ e.Version = 4 := by
  obtain ⟨⟨e, h1, h2, h3, _⟩, _⟩ := publish_new_version_number sampleEnv sampleStore sampleStore
    sampleStore (sampleRequest "new_version" "confirmed" 7) sampleInstant "M5.0-X-2026-01-01"
    [Call.GetEAT 7] (some (sampleRecord 7 "M5.0-X-2026-01-01" 3))
    (by decide) (by decide) rfl rfl rfl
  exact ⟨e, h1, h2, ((h3 _ rfl).2 (by decide) (by decide)).trans (by decide)⟩

/-- Claim C4: for every valid publish request with mode `new_event`, the first
collaborator call is the create, its record has the title
`FormatEventTitle(magnitude, location, parsed eventDate)` and version 1, whatever
the store holds and whatever `existing_eat_id` the request carries, and no other
store call (so no `GetEAT` or `GetLatestVersion`) is made at all. -/
theorem publish_new_event_identity {σ : Type} (env : Env σ) (w : σ) (req : publishRequest)
    (eventDate : Time) (hv : req.Valid)
    (hp : Parse "2006-01-02T15:04" req.EventDate = some eventDate)
    (hm : req.Mode = "new_event") :
    ∃ e rest, (apiPublishHandler env ⟨none, Except.ok req⟩ w).calls = Call.CreateEAT e :: rest ∧
      e.EventTitle = FormatEventTitle req.Magnitude req.Location eventDate ∧
      e.Version = 1 ∧
      e = { req.toEAT eventDate with
            EventTitle := FormatEventTitle req.Magnitude req.Location eventDate, Version := 1 } ∧
      (∀ c ∈ rest, c.isStore = false) ∧
      (∀ c ∈ (apiPublishHandler env ⟨none, Except.ok req⟩ w).calls, c.isStoreRead = false) := by
  rw [handler_valid_unfold env w req eventDate hv hp, if_pos hm]
  obtain ⟨rest, h, hr⟩ := publishSave_calls env
    { req.toEAT eventDate with
      EventTitle := FormatEventTitle req.Magnitude req.Location eventDate, Version := 1 } [] w
  refine ⟨_, rest, by simpa using h, rfl, rfl, rfl, hr, ?_⟩
  intro c hc
  rw [h] at hc
  rcases List.mem_cons.1 (by simpa using hc) with rfl | hc
  · rfl
  · have := hr c hc
    cases c <;> simp_all [Call.isStore, Call.isStoreRead]

/-- Witness of `publish_new_event_identity`: a `new_event` request that carries
`existing_eat_id = 7`, against a store that holds record 7. -/
theorem publish_new_event_identity_witness :
    ∃ e rest, (apiPublishHandler sampleEnv
        ⟨none, Except.ok (sampleRequest "new_event" "confirmed" 7)⟩ sampleStore).calls =
        Call.CreateEAT e :: rest ∧
      e.EventTitle = "M5.0-Wellington-2026-01-15" ∧ e.Version = 1 ∧
      (∀ c ∈ rest, c.isStore = false) := by
  obtain ⟨e, rest, h1, h2, h3, _, h5, _⟩ := publish_new_event_identity sampleEnv sampleStore
    (sampleRequest "new_event" "confirmed" 7) sampleInstant (by decide) (by decide) rfl
  exact ⟨e, rest, h1, h2.trans (by decide), h3, h5⟩

/-- Claim C5: for every valid publish request in `new_version` mode with
`existing_eat_id > 0` whose point lookup succeeds, the handler asks for the
latest version of the looked-up title and every record passed to `CreateEAT`
carries exactly that title, whatever location, magnitude and event date were
submitted (one such record is passed when the latest-version lookup succeeds);
only when `existing_eat_id` is not positive is the title recomputed with
`FormatEventTitle`. -/
theorem publish_new_version_title {σ : Type} (env : Env σ) (w : σ) (req : publishRequest)
    (eventDate : Time) (hv : req.Valid)
    (hp : Parse "2006-01-02T15:04" req.EventDate = some eventDate)
    (hm : req.Mode = "new_version") :
    (req.ExistingEATID > 0 → ∀ existing w1,
      env.GetEAT req.ExistingEATID w = ((some existing, none), w1) →
      (∃ rest, (apiPublishHandler env ⟨none, Except.ok req⟩ w).calls =
        Call.GetEAT req.ExistingEATID :: Call.GetLatestVersion existing.EventTitle :: rest) ∧
      (∀ e ∈ createdArgs (apiPublishHandler env ⟨none, Except.ok req⟩ w).calls,
        e.EventTitle = existing.EventTitle) ∧
      (∀ latest w2, env.GetLatestVersion existing.EventTitle w1 = ((latest, none), w2) →
        ∃ e, createdArgs (apiPublishHandler env ⟨none, Except.ok req⟩ w).calls = [e] ∧
          e.EventTitle = existing.EventTitle)) ∧
    (¬ req.ExistingEATID > 0 →
      (∃ rest, (apiPublishHandler env ⟨none, Except.ok req⟩ w).calls =
        Call.GetLatestVersion (FormatEventTitle req.Magnitude req.Location eventDate) :: rest) ∧
      (∀ e ∈ createdArgs (apiPublishHandler env ⟨none, Except.ok req⟩ w).calls,
        e.EventTitle = FormatEventTitle req.Magnitude req.Location eventDate)) := by
  have hne : ¬ req.Mode = "new_event" := by rw [hm]; decide
  rw [handler_valid_unfold env w req eventDate hv hp, if_neg hne]
  constructor
  · intro hpos existing w1 hget
    have hres : resolveEventTitle env req (req.toEAT eventDate) w =
        (Except.ok existing.EventTitle, [Call.GetEAT req.ExistingEATID], w1) := by
      simp [resolveEventTitle, hpos, hget]
    rw [hres]
    dsimp only
    obtain ⟨rest, h, hr⟩ := publishNewVersion_calls env
      { req.toEAT eventDate with EventTitle := existing.EventTitle }
      [Call.GetEAT req.ExistingEATID] w1
    refine ⟨⟨rest, by simpa using h⟩, ?_, ?_⟩
    · intro e he
      rw [h] at he
      simp [createdArgs] at he
      exact hr e he
    · intro latest w2 hlat
      rw [publishNewVersion_createdArgs env
        { req.toEAT eventDate with EventTitle := existing.EventTitle } _ w1 w2 latest hlat]
      exact ⟨_, rfl, rfl⟩
  · intro hnp
    have hres : resolveEventTitle env req (req.toEAT eventDate) w =
        (Except.ok (FormatEventTitle req.Magnitude req.Location eventDate), [], w) := by
      simp [resolveEventTitle, hnp, publishRequest.toEAT]
    rw [hres]
    dsimp only
    obtain ⟨rest, h, hr⟩ := publishNewVersion_calls env
      { req.toEAT eventDate with
        EventTitle := FormatEventTitle req.Magnitude req.Location eventDate } [] w
    refine ⟨⟨rest, by simpa using h⟩, ?_⟩
    intro e he
    rw [h] at he
    simp [createdArgs] at he
    exact hr e he

/-- Witness of `publish_new_version_title`: a new version submitted for
Wellington on 2026-01-15 against record 7, titled `M5.0-X-2026-01-01`, is
created under the title `M5.0-X-2026-01-01`. -/
theorem publish_new_version_title_witness :
    ∃ e, createdArgs (apiPublishHandler sampleEnv
        ⟨none, Except.ok (sampleRequest "new_version" "confirmed" 7)⟩ sampleStore).calls = [e] ∧
      e.EventTitle = "M5.0-X-2026-01-01" :=
  ((publish_new_version_title sampleEnv sampleStore (sampleRequest "new_version" "confirmed" 7)
    sampleInstant (by decide) (by decide) rfl).1 (by decide)
    (sampleRecord 7 "M5.0-X-2026-01-01" 3) sampleStore rfl).2.2
    (some (sampleRecord 7 "M5.0-X-2026-01-01" 3)) sampleStore rfl

/-- Claim C6: for every decodable publish request that fails validation (empty
location, empty or unparsable `event_date`, or a status that is neither
`preliminary` nor `confirmed`), `apiPublishHandler` returns a soft-fail response
(`success = false`, non-empty error message, no handler error) and calls no
collaborator at all, so no `GetEAT`, `GetLatestVersion` or `CreateEAT`; the world
is left as it was. -/
theorem publish_invalid_soft_fail {σ : Type} (env : Env σ) (w : σ) (req : publishRequest)
    (h : req.Location = "" ∨ req.EventDate = "" ∨
      Parse "2006-01-02T15:04" req.EventDate = none ∨
      (req.Status ≠ "preliminary" ∧ req.Status ≠ "confirmed")) :
    (apiPublishHandler env ⟨none, Except.ok req⟩ w).calls = [] ∧
    (apiPublishHandler env ⟨none, Except.ok req⟩ w).world = w ∧
    (apiPublishHandler env ⟨none, Except.ok req⟩ w).out.err = none ∧
    (apiPublishHandler env ⟨none, Except.ok req⟩ w).out.panicked = false ∧
    ∃ resp, (apiPublishHandler env ⟨none, Except.ok req⟩ w).out.body = some resp ∧
      resp.Success = false ∧ resp.Error ≠ "" :=
  invalid_request_run env w req h

/-- Witness of `publish_invalid_soft_fail`: a request with status `urgent`. -/
theorem publish_invalid_soft_fail_witness :
    (apiPublishHandler sampleEnv
      ⟨none, Except.ok (sampleRequest "new_event" "urgent" 0)⟩ sampleStore).calls = [] ∧
    (apiPublishHandler sampleEnv
      ⟨none, Except.ok (sampleRequest "new_event" "urgent" 0)⟩ sampleStore).out =
      writePublishError "status must be \x27preliminary\x27 or \x27confirmed\x27" := by
  have h := publish_invalid_soft_fail sampleEnv sampleStore (sampleRequest "new_event" "urgent" 0)
    (Or.inr (Or.inr (Or.inr (by decide))))
  exact ⟨h.1, by decide⟩

/-! ## Sequential publishes against the store -/

theorem publishNotify_store (pdf : EAT → Option (List Nat) × GoError) (cfg : Config × GoError)
    (send : Config → EAT → List Nat → GoError) (created : EAT) (s : Store) :
    (publishNotify (storeEnv pdf cfg send) created s).2 = s := by
  unfold publishNotify
  dsimp only
  split
  · rfl
  · split
    · rfl
    · split <;> simp_all [storeEnv]

theorem publishSave_store (pdf : EAT → Option (List Nat) × GoError) (cfg : Config × GoError)
    (send : Config → EAT → List Nat → GoError) (eat : EAT) (calls : List Call) (s : Store) :
    (publishSave (storeEnv pdf cfg send) eat calls s).world =
      ⟨s.records ++ [{ eat with ID := s.nextID }], s.nextID + 1⟩ ∧
    (publishSave (storeEnv pdf cfg send) eat calls s).out =
      successOutcome s.nextID eat.Version := by
  have h : (storeEnv pdf cfg send).CreateEAT eat s =
      ((some { eat with ID := s.nextID }, none),
        ⟨s.records ++ [{ eat with ID := s.nextID }], s.nextID + 1⟩) := rfl
  unfold publishSave
  rw [h]
  dsimp only
  exact ⟨publishNotify_store pdf cfg send _ _, rfl⟩

theorem publishNewVersion_store (pdf : EAT → Option (List Nat) × GoError)
    (cfg : Config × GoError) (send : Config → EAT → List Nat → GoError) (eat : EAT)
    (calls : List Call) (s : Store) :
    (publishNewVersion (storeEnv pdf cfg send) eat calls s).world =
      ⟨s.records ++ [{ eat with
        Version := nextVersion (maxByVersion (chain eat.EventTitle s.records)),
        ID := s.nextID }], s.nextID + 1⟩ ∧
    (publishNewVersion (storeEnv pdf cfg send) eat calls s).out =
      successOutcome s.nextID (nextVersion (maxByVersion (chain eat.EventTitle s.records))) := by
  have h : (storeEnv pdf cfg send).GetLatestVersion eat.EventTitle s =
      ((maxByVersion (chain eat.EventTitle s.records), none), s) := rfl
  unfold publishNewVersion
  rw [h]
  dsimp only
  exact publishSave_store pdf cfg send _ _ _

theorem resolveEventTitle_store (pdf : EAT → Option (List Nat) × GoError)
    (cfg : Config × GoError) (send : Config → EAT → List Nat → GoError) (req : publishRequest)
    (eat : EAT) (s : Store) :
    (resolveEventTitle (storeEnv pdf cfg send) req eat s).2.2 = s := by
  unfold resolveEventTitle
  split
  · split <;> simp_all [storeEnv] <;> (split at * <;> simp_all)
  · rfl

theorem maxByVersion_none (l : List EAT) : maxByVersion l = none ↔ l = [] := by
  cases l with
  | nil => simp [maxByVersion]
  | cons e rest =>
    simp only [maxByVersion]
    split
    · simp
    · split <;> simp

theorem maxByVersion_some (l : List EAT) : ∀ b, maxByVersion l = some b →
    b ∈ l ∧ ∀ e ∈ l, e.Version ≤ b.Version := by
  induction l with
  | nil => intro b h; simp [maxByVersion] at h
  | cons x rest ih =>
    intro b h
    simp only [maxByVersion] at h
    split at h
    · rename_i hn
      have hr : rest = [] := (maxByVersion_none rest).1 hn
      subst hr
      simp at h
      subst h
      simp
    · rename_i b0 hb0
      obtain ⟨hmem, hmax⟩ := ih b0 hb0
      split at h
      · rename_i hle
        simp at h
        subst h
        refine ⟨List.mem_cons_self _ _, ?_⟩
        intro e he
        rcases List.mem_cons.1 he with rfl | he
        · exact le_refl _
        · exact le_trans (hmax e he) hle
      · rename_i hle
        simp at h
        subst h
        refine ⟨List.mem_cons_of_mem _ hmem, ?_⟩
        intro e he
        rcases List.mem_cons.1 he with rfl | he
        · omega
        · exact hmax e he

theorem mem_oneTo (n : Nat) (v : Int) : v ∈ oneTo n ↔ 1 ≤ v ∧ v ≤ n := by
  simp only [oneTo, List.mem_map, List.mem_range]
  constructor
  · rintro ⟨k, hk, rfl⟩; omega
  · rintro ⟨h1, h2⟩
    refine ⟨(v - 1).toNat, ?_, ?_⟩ <;> omega

theorem oneTo_succ (n : Nat) : oneTo (n + 1) = oneTo n ++ [(n : Int) + 1] := by
  simp [oneTo, List.range_succ]

theorem length_oneTo (n : Nat) : (oneTo n).length = n := by simp [oneTo]

/-- The version after a chain that holds the versions `1..k` is `k + 1`, as
long as `k` is below the largest Go `int`. -/
theorem nextVersion_of_dense (ch : List EAT) (k : Nat)
    (hch : ch.map (fun e => e.Version) = oneTo k) (hk : (k : Int) < maxInt64) :
    nextVersion (maxByVersion ch) = (k : Int) + 1 := by
  cases hm : maxByVersion ch with
  | none =>
    have : ch = [] := (maxByVersion_none ch).1 hm
    subst this
    have : k = 0 := by
      have := congrArg List.length hch
      simp [length_oneTo] at this
      omega
    subst this
    rfl
  | some b =>
    obtain ⟨hmem, hmax⟩ := maxByVersion_some ch b hm
    have hb : b.Version ∈ oneTo k := by
      rw [← hch]; exact List.mem_map_of_mem _ hmem
    have hb' := (mem_oneTo k b.Version).1 hb
    have hk1 : (k : Int) ∈ oneTo k := (mem_oneTo k k).2 ⟨by omega, le_refl _⟩
    rw [← hch] at hk1
    obtain ⟨e, he, hev⟩ := List.mem_map.1 hk1
    have := hmax e he
    have hbk : b.Version = k := by omega
    simp only [nextVersion, hbk]
    unfold intAdd wrapInt64
    unfold maxInt64 at hk
    omega

theorem resolves_step (pdf : EAT → Option (List Nat) × GoError) (cfg : Config × GoError)
    (send : Config → EAT → List Nat → GoError) (T : String) (r : Inbound) (s : Store)
    (h : ResolvesTo (storeEnv pdf cfg send) T r s) :
    ∃ e, (apiPublishHandler (storeEnv pdf cfg send) r s).world =
        ⟨s.records ++ [e], s.nextID + 1⟩ ∧
      e.EventTitle = T ∧ e.Version = nextVersion (maxByVersion (chain T s.records)) ∧
      (apiPublishHandler (storeEnv pdf cfg send) r s).out =
        successOutcome s.nextID e.Version := by
  obtain ⟨hq, req, d, hdec, hv, hp, hm, hres⟩ := h
  have hr : r = ⟨none, Except.ok req⟩ := by
    cases r; simp_all
  have hne : ¬ req.Mode = "new_event" := by rw [hm]; decide
  have hw := resolveEventTitle_store pdf cfg send req (req.toEAT d) s
  rw [hr, handler_valid_unfold _ s req d hv hp, if_neg hne]
  rcases hx : resolveEventTitle (storeEnv pdf cfg send) req (req.toEAT d) s with ⟨x, calls, w1⟩
  rw [hx] at hres hw
  simp only at hres hw
  subst hres hw
  dsimp only
  obtain ⟨h1, h2⟩ := publishNewVersion_store pdf cfg send
    { req.toEAT d with EventTitle := T } calls w1
  exact ⟨_, h1, rfl, rfl, h2⟩

theorem chain_append (T : String) (l : List EAT) (e : EAT) :
    chain T (l ++ [e]) = if e.EventTitle = T then chain T l ++ [e] else chain T l := by
  by_cases h : e.EventTitle = T <;> simp [chain, List.filter_append, h]

theorem versions_from (k n : Nat) :
    (List.range (n + 1)).map (fun (i : Nat) => some (true, (k : Int) + i + 1)) =
      some (true, (k : Int) + 1) ::
        (List.range n).map (fun (i : Nat) => some (true, ((k + 1 : Nat) : Int) + i + 1)) := by
  rw [List.range_succ_eq_map]
  simp only [List.map_cons, List.map_map]
  congr 1
  · simp
    intro a _
    omega

theorem sequential_versions_from (pdf : EAT → Option (List Nat) × GoError)
    (cfg : Config × GoError) (send : Config → EAT → List Nat → GoError) (T : String)
    (rs : List Inbound) : ∀ (s : Store) (k : Nat),
    chainVersions T s = oneTo k →
    AllResolveTo (storeEnv pdf cfg send) T rs s →
    ((k + rs.length : Nat) : Int) ≤ maxInt64 →
    (publishAll (storeEnv pdf cfg send) rs s).1.map Outcome.answer =
      (List.range rs.length).map (fun (i : Nat) => some (true, (k : Int) + i + 1)) ∧
    chainVersions T (publishAll (storeEnv pdf cfg send) rs s).2 = oneTo (k + rs.length) := by
  induction rs with
  | nil => intro s k hk _ _; exact ⟨rfl, by simpa [publishAll] using hk⟩
  | cons r rest ih =>
    intro s k hk hall hN
    obtain ⟨hr, hrest⟩ := hall
    obtain ⟨e, hw, het, hev, hout⟩ := resolves_step pdf cfg send T r s hr
    have hlen : ((k + (rest.length + 1) : Nat) : Int) ≤ maxInt64 := by simpa using hN
    have hnext : nextVersion (maxByVersion (chain T s.records)) = (k : Int) + 1 :=
      nextVersion_of_dense _ k hk (by push_cast at hlen; omega)
    rw [hnext] at hev
    have hk' : chainVersions T (apiPublishHandler (storeEnv pdf cfg send) r s).world =
        oneTo (k + 1) := by
      rw [hw]
      simp only [chainVersions, chain_append, het, if_true, List.map_append, List.map_cons,
        List.map_nil, hev, oneTo_succ]
      rw [← hk]
      rfl
    obtain ⟨h1, h2⟩ := ih _ (k + 1) hk' hrest (by push_cast at hlen ⊢; omega)
    constructor
    · simp only [publishAll, List.map_cons, List.length_cons, versions_from, h1]
      congr 1
      rw [hout, hev]
      rfl
    · simp only [publishAll, List.length_cons]
      rw [h2]
      congr 1
      omega

/-- Claim C7: in the sequential store (`CreateEAT` appends, `GetLatestVersion`
returns a record of maximal version of the title), a sequence of `N` successful
`new_version` publishes that all resolve to the same event title, started from a
store holding no record of that title, is answered with the versions
`1, 2, ..., N` in call order, and the chain of the title then holds exactly these
versions in that order; `N` may be any number a Go `int` can count. -/
theorem sequential_new_versions_count_up (pdf : EAT → Option (List Nat) × GoError)
    (cfg : Config × GoError) (send : Config → EAT → List Nat → GoError) (T : String)
    (rs : List Inbound) (s : Store) (N : Nat)
    (hlen : rs.length = N) (hN : (N : Int) ≤ maxInt64)
    (hnone : chain T s.records = [])
    (hall : AllResolveTo (storeEnv pdf cfg send) T rs s) :
    (publishAll (storeEnv pdf cfg send) rs s).1.map Outcome.answer =
      (oneTo N).map (fun v => some (true, v)) ∧
    chainVersions T (publishAll (storeEnv pdf cfg send) rs s).2 = oneTo N := by
  subst hlen
  have h0 : chainVersions T s = oneTo 0 := by simp [chainVersions, hnone, oneTo]
  obtain ⟨h1, h2⟩ := sequential_versions_from pdf cfg send T rs s 0 h0 hall (by simpa using hN)
  refine ⟨?_, by simpa using h2⟩
  rw [h1]
  simp [oneTo, Function.comp]

/-- Witness of `sequential_new_versions_count_up`: three new versions of
`M5.0-Wellington-2026-01-15` from the empty store, the second one submitted
against the record the first one created. -/
theorem sequential_new_versions_count_up_witness :
    (publishAll sampleEnv
      [⟨none, Except.ok (sampleRequest "new_version" "confirmed" 0)⟩,
       ⟨none, Except.ok (sampleRequest "new_version" "preliminary" 1)⟩,
       ⟨none, Except.ok (sampleRequest "new_version" "confirmed" 0)⟩] Store.empty).1.map
        Outcome.answer = [some (true, 1), some (true, 2), some (true, 3)] ∧
    chainVersions "M5.0-Wellington-2026-01-15" (publishAll sampleEnv
      [⟨none, Except.ok (sampleRequest "new_version" "confirmed" 0)⟩,
       ⟨none, Except.ok (sampleRequest "new_version" "preliminary" 1)⟩,
       ⟨none, Except.ok (sampleRequest "new_version" "confirmed" 0)⟩] Store.empty).2 =
      [1, 2, 3] :=
  sequential_new_versions_count_up _ _ _ "M5.0-Wellington-2026-01-15"
    [⟨none, Except.ok (sampleRequest "new_version" "confirmed" 0)⟩,
     ⟨none, Except.ok (sampleRequest "new_version" "preliminary" 1)⟩,
     ⟨none, Except.ok (sampleRequest "new_version" "confirmed" 0)⟩] Store.empty 3 rfl
    (by decide) rfl
    ⟨⟨rfl, _, sampleInstant, rfl, by decide, by decide, rfl, rfl⟩,
     ⟨rfl, _, sampleInstant, rfl, by decide, by decide, rfl, rfl⟩,
     ⟨rfl, _, sampleInstant, rfl, by decide, by decide, rfl, rfl⟩, trivial⟩

theorem handler_store_step (pdf : EAT → Option (List Nat) × GoError) (cfg : Config × GoError)
    (send : Config → EAT → List Nat → GoError) (r : Inbound) (s : Store) :
    (apiPublishHandler (storeEnv pdf cfg send) r s).world = s ∨
    ∃ e, (apiPublishHandler (storeEnv pdf cfg send) r s).world =
        ⟨s.records ++ [e], s.nextID + 1⟩ ∧
      ((∃ req d, r.decoded = Except.ok req ∧ req.Mode = "new_event" ∧
          Parse "2006-01-02T15:04" req.EventDate = some d ∧
          e.EventTitle = FormatEventTitle req.Magnitude req.Location d ∧ e.Version = 1) ∨
        e.Version = nextVersion (maxByVersion (chain e.EventTitle s.records))) := by
  rcases r with ⟨cq, dec⟩
  cases cq with
  | some err => left; rfl
  | none =>
  cases dec with
  | error err => left; rfl
  | ok req =>
  by_cases hv : req.Valid
  · obtain ⟨d, hp⟩ := Option.isSome_iff_exists.1 hv.2.2.2
    rw [handler_valid_unfold _ s req d hv hp]
    by_cases hm : req.Mode = "new_event"
    · rw [if_pos hm]
      right
      obtain ⟨h1, _⟩ := publishSave_store pdf cfg send
        { req.toEAT d with
          EventTitle := FormatEventTitle req.Magnitude req.Location d, Version := 1 } [] s
      exact ⟨_, h1, Or.inl ⟨req, d, rfl, hm, hp, rfl, rfl⟩⟩
    · rw [if_neg hm]
      have hw := resolveEventTitle_store pdf cfg send req (req.toEAT d) s
      rcases hx : resolveEventTitle (storeEnv pdf cfg send) req (req.toEAT d) s with
        ⟨x, calls, w1⟩
      rw [hx] at hw
      simp only at hw
      subst hw
      cases x with
      | error out => left; rfl
      | ok title =>
        right
        obtain ⟨h1, _⟩ := publishNewVersion_store pdf cfg send
          { req.toEAT d with EventTitle := title } calls w1
        exact ⟨_, h1, Or.inr rfl⟩
  · left
    have hbad : req.Location = "" ∨ req.EventDate = "" ∨
        Parse "2006-01-02T15:04" req.EventDate = none ∨
        (req.Status ≠ "preliminary" ∧ req.Status ≠ "confirmed") := by
      unfold publishRequest.Valid at hv
      by_contra hcon
      push_neg at hcon
      apply hv
      refine ⟨hcon.1, hcon.2.1, ?_, ?_⟩
      · by_cases hs : req.Status = "preliminary"
        · exact Or.inl hs
        · exact Or.inr (hcon.2.2.2 hs)
      · exact Option.ne_none_iff_isSome.1 hcon.2.2.1
    exact (invalid_request_run _ s req hbad).2.1

theorem dense_append (s : Store) (e : EAT) (id : Int) (hd : Dense s)
    (hk : (versionKeys s).Nodup)
    (hv : e.Version = ((chain e.EventTitle s.records).length : Int) + 1) :
    Dense ⟨s.records ++ [e], id⟩ ∧ (versionKeys ⟨s.records ++ [e], id⟩).Nodup := by
  constructor
  · intro T
    by_cases h : e.EventTitle = T
    · subst h
      simp only [chainVersions, chain_append, if_true, List.map_append, List.map_cons,
        List.map_nil, List.length_append, List.length_cons, List.length_nil, oneTo_succ, hv]
      have := hd e.EventTitle
      unfold chainVersions at this
      rw [this]
    · simp only [chainVersions, chain_append, h, if_false]
      exact hd T
  · simp only [versionKeys, List.map_append, List.map_cons, List.map_nil]
    rw [List.nodup_append]
    refine ⟨hk, by simp, ?_⟩
    intro a ha hb
    simp only [List.mem_singleton] at hb
    subst hb
    obtain ⟨x, hx, hxe⟩ := List.mem_map.1 ha
    simp only [Prod.mk.injEq] at hxe
    have hxc : x ∈ chain e.EventTitle s.records := by
      simp [chain, hx, hxe.1]
    have hxv : x.Version ∈ chainVersions e.EventTitle s := List.mem_map_of_mem _ hxc
    rw [hd e.EventTitle, mem_oneTo] at hxv
    omega

theorem reachable_dense (pdf : EAT → Option (List Nat) × GoError) (cfg : Config × GoError)
    (send : Config → EAT → List Nat → GoError) (rs : List Inbound) : ∀ (s : Store),
    Dense s → (versionKeys s).Nodup →
    FreshNewEvents (storeEnv pdf cfg send) rs s →
    ((s.records.length + rs.length : Nat) : Int) ≤ maxInt64 →
    Dense (publishAll (storeEnv pdf cfg send) rs s).2 ∧
    (versionKeys (publishAll (storeEnv pdf cfg send) rs s).2).Nodup := by
  induction rs with
  | nil => intro s hd hk _ _; exact ⟨hd, hk⟩
  | cons r rest ih =>
    intro s hd hk hfresh hN
    obtain ⟨hf, hrest⟩ := hfresh
    simp only [publishAll]
    simp only [List.length_cons] at hN
    rcases handler_store_step pdf cfg send r s with hw | ⟨e, hw, hcase⟩
    · rw [hw] at hrest ⊢
      exact ih s hd hk hrest (by push_cast at hN ⊢; omega)
    · rw [hw] at hrest ⊢
      have hlen : (chain e.EventTitle s.records).length ≤ s.records.length :=
        List.length_filter_le _ _
      have hv : e.Version = ((chain e.EventTitle s.records).length : Int) + 1 := by
        rcases hcase with ⟨req, d, hdec, hm, hp, ht, hv1⟩ | hnv
        · have := hf req d hdec hm hp
          rw [← ht] at this
          rw [this, hv1]
          rfl
        · rw [hnv]
          exact nextVersion_of_dense _ _ (hd e.EventTitle) (by push_cast at hN; omega)
      obtain ⟨hd', hk'⟩ := dense_append s e (s.nextID + 1) hd hk hv
      refine ih _ hd' hk' hrest ?_
      simp only [List.length_append, List.length_cons, List.length_nil]
      push_cast at hN ⊢
      omega

/-- Claim C8, as stated, fails: two successful `new_event` publishes of the same
magnitude, location and date, one after the other from the empty store, leave
two records with the same `(eventTitle, version)` pair. -/
theorem repeated_new_event_duplicates_version :
    (publishAll sampleEnv
      [⟨none, Except.ok (sampleRequest "new_event" "confirmed" 0)⟩,
       ⟨none, Except.ok (sampleRequest "new_event" "confirmed" 0)⟩] Store.empty).1.map
        Outcome.answer = [some (true, 1), some (true, 1)] ∧
    versionKeys (publishAll sampleEnv
      [⟨none, Except.ok (sampleRequest "new_event" "confirmed" 0)⟩,
       ⟨none, Except.ok (sampleRequest "new_event" "confirmed" 0)⟩] Store.empty).2 =
      [("M5.0-Wellington-2026-01-15", 1), ("M5.0-Wellington-2026-01-15", 1)] ∧
    ¬ (versionKeys (publishAll sampleEnv
      [⟨none, Except.ok (sampleRequest "new_event" "confirmed" 0)⟩,
       ⟨none, Except.ok (sampleRequest "new_event" "confirmed" 0)⟩] Store.empty).2).Nodup := by
  decide

/-- Claim C8, amended: in the sequential store model, where `CreateEAT` appends
the record it is given, `GetEAT` finds a record by id and `GetLatestVersion`
returns a record of maximal version among those with exactly the given title,
every store state reached from the empty store by a sequence of sequential
publishes (any mix of `new_event` and `new_version`, no more of them than a Go
`int` can count) in which no `new_event` publish computes a title that already
has a record in the store has these properties: no two records share the same
`(eventTitle, version)` pair, and for each event title the versions present are
exactly `1..n`, in store order, with no gap. -/
theorem fresh_publishes_keep_versions_dense (pdf : EAT → Option (List Nat) × GoError)
    (cfg : Config × GoError) (send : Config → EAT → List Nat → GoError) (rs : List Inbound)
    (hfresh : FreshNewEvents (storeEnv pdf cfg send) rs Store.empty)
    (hN : (rs.length : Int) ≤ maxInt64) :
    (versionKeys (publishAll (storeEnv pdf cfg send) rs Store.empty).2).Nodup ∧
    (∀ T, chainVersions T (publishAll (storeEnv pdf cfg send) rs Store.empty).2 =
      oneTo (chain T (publishAll (storeEnv pdf cfg send) rs Store.empty).2.records).length) ∧
    (∀ T v, v ∈ chainVersions T (publishAll (storeEnv pdf cfg send) rs Store.empty).2 ↔
      1 ≤ v ∧
      v ≤ (chain T (publishAll (storeEnv pdf cfg send) rs Store.empty).2.records).length) := by
  have h0 : Dense Store.empty := by intro T; rfl
  have hk0 : (versionKeys Store.empty).Nodup := by simp [versionKeys, Store.empty]
  obtain ⟨hd, hk⟩ := reachable_dense pdf cfg send rs Store.empty h0 hk0 hfresh
    (by simpa [Store.empty] using hN)
  refine ⟨hk, hd, ?_⟩
  intro T v
  rw [hd T, mem_oneTo]

/-- Witness of `fresh_publishes_keep_versions_dense`: a new event, a new
version of it, and a new event at another location. -/
theorem fresh_publishes_keep_versions_dense_witness :
    (versionKeys (publishAll sampleEnv
      [⟨none, Except.ok (sampleRequest "new_event" "confirmed" 0)⟩,
       ⟨none, Except.ok (sampleRequest "new_version" "confirmed" 1)⟩,
       ⟨none, Except.ok { sampleRequest "new_event" "confirmed" 0 with Location := "Kaikoura" }⟩]
      Store.empty).2).Nodup ∧
    chainVersions "M5.0-Wellington-2026-01-15" (publishAll sampleEnv
      [⟨none, Except.ok (sampleRequest "new_event" "confirmed" 0)⟩,
       ⟨none, Except.ok (sampleRequest "new_version" "confirmed" 1)⟩,
       ⟨none, Except.ok { sampleRequest "new_event" "confirmed" 0 with Location := "Kaikoura" }⟩]
      Store.empty).2 = [1, 2] := by
  have h := fresh_publishes_keep_versions_dense _ _ _
    [⟨none, Except.ok (sampleRequest "new_event" "confirmed" 0)⟩,
     ⟨none, Except.ok (sampleRequest "new_version" "confirmed" 1)⟩,
     ⟨none, Except.ok { sampleRequest "new_event" "confirmed" 0 with Location := "Kaikoura" }⟩]
    (show FreshNewEvents sampleEnv _ Store.empty from
      ⟨fun req d hreq _ hp => by
          cases hreq
          cases hp
          decide,
       fun req d hreq hm _ => by
          cases hreq
          exact absurd hm (by decide),
       fun req d hreq _ hp => by
          cases hreq
          cases (Option.some.inj ((show Parse "2006-01-02T15:04" "2026-01-15T10:30" =
            some sampleInstant from by decide).symm.trans hp))
          decide,
       trivial⟩)
    (by decide)
  exact ⟨h.1, (h.2.1 _).trans (by decide)⟩

/-! ## The content-store client -/

theorem distinctLoop_eq (eats : List EAT) : ∀ (seen titles : List String),
    Client.distinctLoop eats seen titles =
      titles ++ firstOccurrences (eats.map (fun e => e.EventTitle)) seen := by
  induction eats with
  | nil => intro seen titles; simp [Client.distinctLoop, firstOccurrences]
  | cons e rest ih =>
    intro seen titles
    by_cases h : e.EventTitle ∈ seen
    · simp [Client.distinctLoop, firstOccurrences, h, ih]
    · simp [Client.distinctLoop, firstOccurrences, h, ih]

theorem mem_firstOccurrences (feed : List String) : ∀ (seen : List String) (t : String),
    t ∈ firstOccurrences feed seen ↔ t ∈ feed ∧ t ∉ seen := by
  induction feed with
  | nil => intro seen t; simp [firstOccurrences]
  | cons a rest ih =>
    intro seen t
    by_cases h : a ∈ seen
    · simp only [firstOccurrences, h, if_true, ih, List.mem_cons]
      constructor
      · rintro ⟨h1, h2⟩; exact ⟨Or.inr h1, h2⟩
      · rintro ⟨h1 | h1, h2⟩
        · subst h1; exact absurd h h2
        · exact ⟨h1, h2⟩
    · simp only [firstOccurrences, h, if_false, List.mem_cons, ih]
      constructor
      · rintro (h1 | ⟨h1, h2⟩)
        · subst h1; exact ⟨Or.inl rfl, h⟩
        · exact ⟨Or.inr h1, fun hh => h2 (Or.inr hh)⟩
      · rintro ⟨h1 | h1, h2⟩
        · exact Or.inl h1
        · by_cases hta : t = a
          · exact Or.inl hta
          · exact Or.inr ⟨h1, fun hh => hh.elim hta h2⟩

theorem nodup_firstOccurrences (feed : List String) : ∀ (seen : List String),
    (firstOccurrences feed seen).Nodup := by
  induction feed with
  | nil => intro seen; simp [firstOccurrences]
  | cons a rest ih =>
    intro seen
    by_cases h : a ∈ seen
    · simp only [firstOccurrences, h, if_true]; exact ih seen
    · simp only [firstOccurrences, h, if_false, List.nodup_cons]
      refine ⟨?_, ih _⟩
      rw [mem_firstOccurrences]
      simp

theorem indexOf_firstOccurrences (feed : List String) : ∀ (seen : List String) (a b : String),
    a ∈ firstOccurrences feed seen → b ∈ firstOccurrences feed seen →
    ((firstOccurrences feed seen).indexOf a < (firstOccurrences feed seen).indexOf b ↔
      feed.indexOf a < feed.indexOf b) := by
  induction feed with
  | nil => intro seen a b ha; simp [firstOccurrences] at ha
  | cons x rest ih =>
    intro seen a b ha hb
    by_cases h : x ∈ seen
    · simp only [firstOccurrences, h, if_true] at ha hb ⊢
      have hax : x ≠ a := by
        rintro rfl; exact ((mem_firstOccurrences _ _ _).1 ha).2 h
      have hbx : x ≠ b := by
        rintro rfl; exact ((mem_firstOccurrences _ _ _).1 hb).2 h
      rw [List.indexOf_cons_ne _ hax, List.indexOf_cons_ne _ hbx, ih seen a b ha hb]
      omega
    · simp only [firstOccurrences, h, if_false] at ha hb ⊢
      by_cases hax : x = a
      · subst hax
        by_cases hbx : x = b
        · subst hbx; simp
        · simp [List.indexOf_cons_ne _ hbx]
      · by_cases hbx : x = b
        · subst hbx
          simp [List.indexOf_cons_ne _ hax]
        · have ha' : a ∈ firstOccurrences rest (x :: seen) := by
            rcases List.mem_cons.1 ha with h1 | h1
            · exact absurd h1.symm hax
            · exact h1
          have hb' : b ∈ firstOccurrences rest (x :: seen) := by
            rcases List.mem_cons.1 hb with h1 | h1
            · exact absurd h1.symm hbx
            · exact h1
          rw [List.indexOf_cons_ne _ hax, List.indexOf_cons_ne _ hbx,
            List.indexOf_cons_ne _ hax, List.indexOf_cons_ne _ hbx]
          have := ih (x :: seen) a b ha' hb'
          omega

/-- Claim C9: for every feed of EATs returned by `ListEATs`,
`ListDistinctEvents` returns, without error, the event titles of the feed with
duplicates removed and order preserved by first occurrence: the result has no
repeated element, holds exactly the titles that occur in the feed, and a title
precedes another in the result iff its first occurrence in the feed is earlier;
a feed with the titles `[A, A, B]` yields `[A, B]`. -/
theorem list_distinct_events_first_occurrence (c : Client) (tr : Transport) (js : JSON)
    (now : Time) (days : Int) (eats : List EAT)
    (hfeed : c.ListEATs tr js (now.UTC.AddDays (-days)) = (eats, none)) :
    (c.ListDistinctEvents tr js now days).2 = none ∧
    (c.ListDistinctEvents tr js now days).1.Nodup ∧
    (∀ t, t ∈ (c.ListDistinctEvents tr js now days).1 ↔ t ∈ eats.map (fun e => e.EventTitle)) ∧
    (∀ a b, a ∈ (c.ListDistinctEvents tr js now days).1 →
      b ∈ (c.ListDistinctEvents tr js now days).1 →
      ((c.ListDistinctEvents tr js now days).1.indexOf a <
          (c.ListDistinctEvents tr js now days).1.indexOf b ↔
        (eats.map (fun e => e.EventTitle)).indexOf a <
          (eats.map (fun e => e.EventTitle)).indexOf b)) ∧
    Client.distinctLoop
      [sampleRecord 1 "A" 1, sampleRecord 2 "A" 2, sampleRecord 3 "B" 1] [] [] = ["A", "B"] := by
  have hr : c.ListDistinctEvents tr js now days =
      (firstOccurrences (eats.map (fun e => e.EventTitle)) [], none) := by
    unfold Client.ListDistinctEvents
    simp only [hfeed, distinctLoop_eq, List.nil_append]
  rw [hr]
  refine ⟨rfl, nodup_firstOccurrences _ _, ?_, ?_, by decide⟩
  · intro t; simp [mem_firstOccurrences]
  · intro a b ha hb; exact indexOf_firstOccurrences _ _ a b ha hb

/-- Witness of `list_distinct_events_first_occurrence`: the feed of
`TestListDistinctEvents`, two records of the Wellington event and one of the
Kaikoura event. -/
theorem list_distinct_events_first_occurrence_witness :
    localClient.ListDistinctEvents (okTransport "")
      (stubJSON [sampleRecord 1 "M5.0-Wellington-2026-01-01" 1,
        sampleRecord 2 "M5.0-Wellington-2026-01-01" 2,
        sampleRecord 3 "M6.0-Kaikoura-2026-01-02" 1] zeroEAT) sampleInstant 7 =
      (["M5.0-Wellington-2026-01-01", "M6.0-Kaikoura-2026-01-02"], none) ∧
    (localClient.ListDistinctEvents (okTransport "")
      (stubJSON [sampleRecord 1 "M5.0-Wellington-2026-01-01" 1,
        sampleRecord 2 "M5.0-Wellington-2026-01-01" 2,
        sampleRecord 3 "M6.0-Kaikoura-2026-01-02" 1] zeroEAT) sampleInstant 7).1.Nodup :=
  ⟨by decide,
   (list_distinct_events_first_occurrence localClient (okTransport "")
      (stubJSON [sampleRecord 1 "M5.0-Wellington-2026-01-01" 1,
        sampleRecord 2 "M5.0-Wellington-2026-01-01" 2,
        sampleRecord 3 "M6.0-Kaikoura-2026-01-02" 1] zeroEAT) sampleInstant 7 _ rfl).2.1⟩

/-- Claim C10, as stated, fails: when the content store answers the point lookup
with 404 Not Found, `GetEAT` returns an error that carries the status and the
body, not an absent EAT together with no error. -/
theorem get_eat_not_found_is_error :
    localClient.GetEAT notFoundTransport (stubJSON [] zeroEAT) 42 =
      (none, some "FastSchema error (404): not found") ∧
    localClient.GetEAT notFoundTransport (stubJSON [] zeroEAT) 42 ≠ (none, none) := by
  decide

/-- Claim C10, amended: `GetEAT` returns an absent (nil) EAT exactly when it
returns an error, so never an absent EAT with no error.  A response with a status
outside 200..299, such as 404 Not Found, yields an error carrying the status
code and the body, in the same way as a transport or decoding failure yields an
error; a 2xx response whose body decodes yields the decoded record and no
error. -/
theorem get_eat_absent_iff_error (c : Client) (tr : Transport) (js : JSON) (id : Int) :
    ((c.GetEAT tr js id).1 = none ↔ (c.GetEAT tr js id).2 ≠ none) ∧
    (∀ resp body,
      tr.NewRequest "GET"
        (Sprintf "%s/api/content/eat/%d" [Arg.string c.baseURL, Arg.int id]) = none →
      tr.Do (c.getRequest (Sprintf "%s/api/content/eat/%d" [Arg.string c.baseURL, Arg.int id])) =
        Except.ok resp →
      resp.Body = Except.ok body →
      ((resp.StatusCode < 200 ∨ resp.StatusCode ≥ 300) →
        c.GetEAT tr js id =
          (none, Errorf "FastSchema error (%d): %s"
            [Arg.int resp.StatusCode, Arg.string body])) ∧
      (∀ single, ¬ (resp.StatusCode < 200 ∨ resp.StatusCode ≥ 300) →
        js.UnmarshalSingle body = Except.ok single →
        c.GetEAT tr js id = (some single.Data, none)) ∧
      (∀ err, ¬ (resp.StatusCode < 200 ∨ resp.StatusCode ≥ 300) →
        js.UnmarshalSingle body = Except.error err →
        c.GetEAT tr js id =
          (none, Errorf "decode single response: %w" [Arg.string err]))) ∧
    (∀ err, tr.Do (c.getRequest
        (Sprintf "%s/api/content/eat/%d" [Arg.string c.baseURL, Arg.int id])) =
        Except.error err →
      (c.GetEAT tr js id).1 = none ∧ (c.GetEAT tr js id).2 ≠ none) := by
  refine ⟨?_, ?_, ?_⟩
  · unfold Client.GetEAT
    dsimp only
    split
    · simp
    · split <;> simp [Errorf]
  · intro resp body h1 h2 h3
    refine ⟨?_, ?_, ?_⟩
    · intro h4
      unfold Client.GetEAT Client.doGet
      simp only [h1, h2, h3, h4, if_true]
      rfl
    · intro single h4 h5
      unfold Client.GetEAT Client.doGet
      simp only [h1, h2, h3, h4, if_false, Option.getD_some, h5]
    · intro err h4 h5
      unfold Client.GetEAT Client.doGet
      simp only [h1, h2, h3, h4, if_false, Option.getD_some, h5]
  · intro err h
    have hd : ∃ e, c.doGet tr
        (Sprintf "%s/api/content/eat/%d" [Arg.string c.baseURL, Arg.int id]) = (none, some e) := by
      unfold Client.doGet
      cases tr.NewRequest "GET"
        (Sprintf "%s/api/content/eat/%d" [Arg.string c.baseURL, Arg.int id]) with
      | some e0 => exact ⟨_, rfl⟩
      | none => simp only [h]; exact ⟨_, rfl⟩
    obtain ⟨e, he⟩ := hd
    unfold Client.GetEAT
    simp only [he]
    simp

/-- Witness of `get_eat_absent_iff_error`: the lookup of record 42 against a
store that answers 404 Not Found. -/
theorem get_eat_absent_iff_error_witness :
    localClient.GetEAT notFoundTransport (stubJSON [] zeroEAT) 42 =
      (none, Errorf "FastSchema error (%d): %s" [Arg.int 404, Arg.string "not found"]) :=
  ((get_eat_absent_iff_error localClient notFoundTransport (stubJSON [] zeroEAT) 42).2.1
    ⟨404, Except.ok "not found"⟩ "not found" rfl rfl rfl).1 (Or.inr (by decide))

/-! ## Status codes, login and the bearer token -/

theorem fastschema_error_text (code : Int) (body : String) :
    Sprintf "FastSchema error (%d): %s" [Arg.int code, Arg.string body] =
      "FastSchema error (" ++ toString code ++ "): " ++ body := by
  apply String.ext
  simp [Sprintf, sprintfAux, fmtVerb]

theorem login_failed_text (code : Int) (body : String) :
    Sprintf "login failed (%d): %s" [Arg.int code, Arg.string body] =
      "login failed (" ++ toString code ++ "): " ++ body := by
  apply String.ext
  simp [Sprintf, sprintfAux, fmtVerb]

theorem doGet_non_2xx (c : Client) (tr : Transport) (resp : Response) (body url : String)
    (hnew : tr.NewRequest "GET" url = none) (hdo : tr.Do (c.getRequest url) = Except.ok resp)
    (hbody : resp.Body = Except.ok body)
    (hcode : resp.StatusCode < 200 ∨ resp.StatusCode ≥ 300) :
    c.doGet tr url =
      (none, some ("FastSchema error (" ++ toString resp.StatusCode ++ "): " ++ body)) := by
  unfold Client.doGet
  simp only [hnew, hdo, hbody, hcode, if_true, Errorf, fastschema_error_text]

theorem doPost_non_2xx (c : Client) (tr : Transport) (resp : Response)
    (body url ct payload : String)
    (hnew : tr.NewRequest "POST" url = none)
    (hdo : tr.Do (c.postRequest url ct payload) = Except.ok resp)
    (hbody : resp.Body = Except.ok body)
    (hcode : resp.StatusCode < 200 ∨ resp.StatusCode ≥ 300) :
    c.doPost tr url ct payload =
      (none, some ("FastSchema error (" ++ toString resp.StatusCode ++ "): " ++ body)) := by
  unfold Client.doPost
  simp only [hnew, hdo, hbody, hcode, if_true, Errorf, fastschema_error_text]

theorem read_body_text (err : String) :
    Sprintf "read body: %w" [Arg.string err] = "read body: " ++ err := by
  apply String.ext
  simp [Sprintf, sprintfAux, fmtVerb]

theorem doGet_unread_body (c : Client) (tr : Transport) (resp : Response) (err url : String)
    (hnew : tr.NewRequest "GET" url = none) (hdo : tr.Do (c.getRequest url) = Except.ok resp)
    (hbody : resp.Body = Except.error err) :
    c.doGet tr url = (none, some ("read body: " ++ err)) := by
  unfold Client.doGet
  simp only [hnew, hdo, hbody, Errorf, read_body_text]

theorem doPost_unread_body (c : Client) (tr : Transport) (resp : Response)
    (err url ct payload : String)
    (hnew : tr.NewRequest "POST" url = none)
    (hdo : tr.Do (c.postRequest url ct payload) = Except.ok resp)
    (hbody : resp.Body = Except.error err) :
    c.doPost tr url ct payload = (none, some ("read body: " ++ err)) := by
  unfold Client.doPost
  simp only [hnew, hdo, hbody, Errorf, read_body_text]

/-- Claim C11, as stated, fails: `doGet` and `doPost` read the body before they
look at the status code.  Against a store that answers 500 over a connection
that breaks while the body is read, `GetEAT` and `CreateEAT` return the error
`read body: unexpected EOF`, which carries neither the status code nor a
response body. -/
theorem non_2xx_unread_body_hides_status :
    (∀ r, (brokenBodyTransport.Do r).toOption.map Response.StatusCode = some 500) ∧
    localClient.GetEAT brokenBodyTransport (stubJSON [] zeroEAT) 1 =
      (none, some "read body: unexpected EOF") ∧
    localClient.CreateEAT brokenBodyTransport (stubJSON [] zeroEAT)
      (stubPostJSON ⟨0, "", "", "", 0, ""⟩) zeroEAT = (none, some "read body: unexpected EOF") ∧
    ¬ List.IsInfix "500".data "read body: unexpected EOF".data :=
  ⟨fun _ => rfl, by decide, by decide, by decide⟩

/-- Claim C11, amended: when the request of a client operation is answered with
a status code outside 200..299 and the body of the answer is read without
error, the operation returns an error whose message carries the decimal status
code and the raw response body, and no data: `ListEATs` no records, `GetEAT`,
`GetLatestVersion`, `CreateEAT` and `UploadFile` a nil pointer, `ApplySchema`
only the error.  When reading the body fails, these operations return the error
`read body: <cause>` and no data.  `Login` answered with a status outside
200..299 returns `login failed (<code>): <text read>` and leaves the client
unchanged. -/
theorem non_2xx_response_is_error (c : Client) (tr : Transport) (resp : Response)
    (hnew : ∀ m u, tr.NewRequest m u = none) (hdo : ∀ r, tr.Do r = Except.ok resp)
    (hcode : resp.StatusCode < 200 ∨ resp.StatusCode ≥ 300) :
    (∀ body, resp.Body = Except.ok body →
      (∀ js since, c.ListEATs tr js since =
        ([], some ("FastSchema error (" ++ toString resp.StatusCode ++ "): " ++ body))) ∧
      (∀ js id, c.GetEAT tr js id =
        (none, some ("FastSchema error (" ++ toString resp.StatusCode ++ "): " ++ body))) ∧
      (∀ js title, c.GetLatestVersion tr js title =
        (none, some ("FastSchema error (" ++ toString resp.StatusCode ++ "): " ++ body))) ∧
      (∀ js pj eat payload, pj.MarshalEAT eat = Except.ok payload →
        c.CreateEAT tr js pj eat =
          (none, some ("FastSchema error (" ++ toString resp.StatusCode ++ "): " ++ body))) ∧
      (∀ pj mp filename text, mp.CreateFormFile filename = none → mp.Close = none →
        c.UploadFile tr pj mp filename (Except.ok text) =
          (none, some ("FastSchema error (" ++ toString resp.StatusCode ++ "): " ++ body))) ∧
      (∀ schemaJSON, c.ApplySchema tr schemaJSON =
        some ("FastSchema error (" ++ toString resp.StatusCode ++ "): " ++ body))) ∧
    (∀ err, resp.Body = Except.error err →
      (∀ js since, c.ListEATs tr js since = ([], some ("read body: " ++ err))) ∧
      (∀ js id, c.GetEAT tr js id = (none, some ("read body: " ++ err))) ∧
      (∀ js title, c.GetLatestVersion tr js title = (none, some ("read body: " ++ err))) ∧
      (∀ js pj eat payload, pj.MarshalEAT eat = Except.ok payload →
        c.CreateEAT tr js pj eat = (none, some ("read body: " ++ err))) ∧
      (∀ pj mp filename text, mp.CreateFormFile filename = none → mp.Close = none →
        c.UploadFile tr pj mp filename (Except.ok text) = (none, some ("read body: " ++ err))) ∧
      (∀ schemaJSON, c.ApplySchema tr schemaJSON = some ("read body: " ++ err))) ∧
    (∀ (hc : PostClient) (ljs : LoginJSON) username password payload (sresp : StreamResponse),
      ljs.Marshal { Login := username, Password := password } = Except.ok payload →
      hc.Post c.loginURL "application/json" payload = Except.ok sresp →
      (sresp.StatusCode < 200 ∨ sresp.StatusCode ≥ 300) →
      c.Login hc ljs username password =
        (some ("login failed (" ++ toString sresp.StatusCode ++ "): " ++ sresp.Data), c)) := by
  refine ⟨?_, ?_, ?_⟩
  · intro body hbody
    refine ⟨?_, ?_, ?_, ?_, ?_, ?_⟩
    · intro js since
      unfold Client.ListEATs
      simp only [doGet_non_2xx c tr resp body _ (hnew _ _) (hdo _) hbody hcode]
    · intro js id
      unfold Client.GetEAT
      simp only [doGet_non_2xx c tr resp body _ (hnew _ _) (hdo _) hbody hcode]
    · intro js title
      unfold Client.GetLatestVersion
      simp only [doGet_non_2xx c tr resp body _ (hnew _ _) (hdo _) hbody hcode]
    · intro js pj eat payload hm
      unfold Client.CreateEAT
      simp only [hm, doPost_non_2xx c tr resp body _ _ _ (hnew _ _) (hdo _) hbody hcode]
    · intro pj mp filename text h1 h2
      unfold Client.UploadFile
      simp only [h1, h2, doPost_non_2xx c tr resp body _ _ _ (hnew _ _) (hdo _) hbody hcode]
    · intro schemaJSON
      unfold Client.ApplySchema
      simp only [doPost_non_2xx c tr resp body _ _ _ (hnew _ _) (hdo _) hbody hcode]
  · intro err hbody
    refine ⟨?_, ?_, ?_, ?_, ?_, ?_⟩
    · intro js since
      unfold Client.ListEATs
      simp only [doGet_unread_body c tr resp err _ (hnew _ _) (hdo _) hbody]
    · intro js id
      unfold Client.GetEAT
      simp only [doGet_unread_body c tr resp err _ (hnew _ _) (hdo _) hbody]
    · intro js title
      unfold Client.GetLatestVersion
      simp only [doGet_unread_body c tr resp err _ (hnew _ _) (hdo _) hbody]
    · intro js pj eat payload hm
      unfold Client.CreateEAT
      simp only [hm, doPost_unread_body c tr resp err _ _ _ (hnew _ _) (hdo _) hbody]
    · intro pj mp filename text h1 h2
      unfold Client.UploadFile
      simp only [h1, h2, doPost_unread_body c tr resp err _ _ _ (hnew _ _) (hdo _) hbody]
    · intro schemaJSON
      unfold Client.ApplySchema
      simp only [doPost_unread_body c tr resp err _ _ _ (hnew _ _) (hdo _) hbody]
  · intro hc ljs username password payload sresp hm hp hcode'
    have hne : sresp.StatusCode ≠ 200 := by omega
    unfold Client.Login
    simp only [hm, hp, hne, ne_eq, not_false_eq_true, if_true, Errorf, login_failed_text]

/-- Witness of `non_2xx_response_is_error`: `GetEAT` against a store that
answers 500 (`TestErrorResponse`), and against one whose 500 answer cannot be
read. -/
theorem non_2xx_response_is_error_witness :
    localClient.GetEAT serverErrorTransport (stubJSON [] zeroEAT) 1 =
      (none, some "FastSchema error (500): \x7b\"error\":\"internal error\"\x7d") ∧
    localClient.GetEAT brokenBodyTransport (stubJSON [] zeroEAT) 1 =
      (none, some "read body: unexpected EOF") :=
  ⟨((non_2xx_response_is_error localClient serverErrorTransport
      ⟨500, Except.ok "\x7b\"error\":\"internal error\"\x7d"⟩ (fun _ _ => rfl) (fun _ => rfl)
      (Or.inr (by decide))).1 "\x7b\"error\":\"internal error\"\x7d" rfl).2.1
      (stubJSON [] zeroEAT) 1,
   ((non_2xx_response_is_error localClient brokenBodyTransport
      ⟨500, Except.error "unexpected EOF"⟩ (fun _ _ => rfl) (fun _ => rfl)
      (Or.inr (by decide))).2.1 "unexpected EOF" rfl).2.1 (stubJSON [] zeroEAT) 1⟩

/-- Claim C15, as stated, fails: `Login` accepts the status 200 only.  A store
that answers the login with 201 Created and a body carrying a token has
answered successfully, yet `Login` returns the error `login failed (201): ...`
and stores no token. -/
theorem login_rejects_201 :
    (createdLoginStore "http://localhost:8000" "tok").Post localClient.loginURL
      "application/json" "" = Except.ok ⟨201, "tok", none⟩ ∧
    (stubLoginJSON "test-jwt-token").Decode "tok" none = Except.ok ⟨⟨"test-jwt-token"⟩⟩ ∧
    localClient.Login (createdLoginStore "http://localhost:8000" "tok")
      (stubLoginJSON "test-jwt-token") "admin" "secret" =
      (some "login failed (201): tok", localClient) ∧
    (localClient.Login (createdLoginStore "http://localhost:8000" "tok")
      (stubLoginJSON "test-jwt-token") "admin" "secret").2.token = "" :=
  ⟨rfl, rfl, by decide, by decide⟩

/-- Claim C15, amended: `Login` stores the bearer token exactly when it
succeeds, and it succeeds only on the status 200.  When the store answers the
login request with 200 OK and a body that decodes with `data.token = t`, `Login`
returns no error and the token of the client is `t` afterwards; whenever `Login`
returns an error (transport error, any other status, 201..299 included,
undecodable body, payload that cannot be marshalled) the client is unchanged;
and `Login` returns no error only in the first case. -/
theorem login_stores_token_iff_success (c : Client) (hc : PostClient) (js : LoginJSON)
    (username password : String) :
    (∀ payload resp loginResp,
      js.Marshal { Login := username, Password := password } = Except.ok payload →
      hc.Post c.loginURL "application/json" payload = Except.ok resp →
      resp.StatusCode = 200 →
      js.Decode resp.Data resp.ReadErr = Except.ok loginResp →
      c.Login hc js username password = (none, { c with token := loginResp.Data.Token })) ∧
    ((c.Login hc js username password).1 ≠ none → (c.Login hc js username password).2 = c) ∧
    ((c.Login hc js username password).1 = none →
      ∃ payload resp loginResp,
        js.Marshal { Login := username, Password := password } = Except.ok payload ∧
        hc.Post c.loginURL "application/json" payload = Except.ok resp ∧
        resp.StatusCode = 200 ∧
        js.Decode resp.Data resp.ReadErr = Except.ok loginResp ∧
        (c.Login hc js username password).2 = { c with token := loginResp.Data.Token }) ∧
    (∀ payload err,
      js.Marshal { Login := username, Password := password } = Except.ok payload →
      hc.Post c.loginURL "application/json" payload = Except.error err →
      (c.Login hc js username password).1 ≠ none ∧ (c.Login hc js username password).2 = c) ∧
    (∀ payload resp,
      js.Marshal { Login := username, Password := password } = Except.ok payload →
      hc.Post c.loginURL "application/json" payload = Except.ok resp →
      resp.StatusCode ≠ 200 →
      (c.Login hc js username password).1 ≠ none ∧ (c.Login hc js username password).2 = c) ∧
    (∀ payload resp err,
      js.Marshal { Login := username, Password := password } = Except.ok payload →
      hc.Post c.loginURL "application/json" payload = Except.ok resp →
      resp.StatusCode = 200 →
      js.Decode resp.Data resp.ReadErr = Except.error err →
      (c.Login hc js username password).1 ≠ none ∧ (c.Login hc js username password).2 = c) := by
  refine ⟨?_, ?_, ?_, ?_, ?_, ?_⟩
  · intro payload resp loginResp hm hp hs hd
    unfold Client.Login
    simp only [hm, hp, hs, hd, ne_eq, not_true_eq_false, if_false]
  · unfold Client.Login
    split
    · intro _; rfl
    · split
      · intro _; rfl
      · split
        · intro _; rfl
        · split
          · intro _; rfl
          · intro h; exact absurd rfl h
  · unfold Client.Login
    split
    · intro h; simp [Errorf] at h
    · rename_i payload hm
      split
      · intro h; simp [Errorf] at h
      · rename_i resp hp
        split
        · intro h; simp [Errorf] at h
        · rename_i hs
          split
          · intro h; simp [Errorf] at h
          · rename_i loginResp hd
            intro _
            exact ⟨payload, resp, loginResp, hm, hp, by simpa using hs, hd, rfl⟩
  · intro payload err hm hp
    unfold Client.Login
    simp [hm, hp, Errorf]
  · intro payload resp hm hp hs
    unfold Client.Login
    simp [hm, hp, hs, Errorf]
  · intro payload resp err hm hp hs hd
    unfold Client.Login
    simp [hm, hp, hs, hd, Errorf]

/-- Witness of `login_stores_token_iff_success`: a login that is answered with
the token `test-jwt-token` (`TestLogin`). -/
theorem login_stores_token_iff_success_witness :
    localClient.Login (localLoginStore "http://localhost:8000" "x") (stubLoginJSON "test-jwt-token")
      "admin" "secret" = (none, { localClient with token := "test-jwt-token" }) :=
  (login_stores_token_iff_success localClient (localLoginStore "http://localhost:8000" "x")
    (stubLoginJSON "test-jwt-token") "admin" "secret").1 "" ⟨200, "x", none⟩ ⟨⟨"test-jwt-token"⟩⟩
    rfl rfl rfl rfl

/-- Claim C16, evaluated on the code: `Login` posts to the base URL followed by
`/api/auth/local/login`, which is not the base URL followed by
`/api/auth/login`; against the mock content store of `TestMain`, which serves
the login at `/api/auth/login`, `Login` is answered 404, returns an error and
stores no token. -/
theorem login_posts_to_local_login :
    (∀ c : Client, c.loginURL = c.baseURL ++ "/api/auth/local/login") ∧
    localClient.loginURL = "http://localhost:8000/api/auth/local/login" ∧
    localClient.loginURL ≠ localClient.baseURL ++ "/api/auth/login" ∧
    localClient.Login (testMainStore "http://localhost:8000") (stubLoginJSON "test-token")
      "admin" "secret" = (some "login failed (404): ", localClient) := by
  refine ⟨fun _ => rfl, by decide, by decide, by decide⟩

theorem getRequest_auth (c : Client) (url : String) : AuthHeaderOK c (c.getRequest url) := by
  unfold AuthHeaderOK Client.getRequest
  by_cases h : c.token = "" <;> simp [h, List.lookup]

theorem postRequest_auth (c : Client) (url ct body : String) :
    AuthHeaderOK c (c.postRequest url ct body) := by
  unfold AuthHeaderOK Client.postRequest
  have hne : ("Authorization" == "Content-Type") = false := by decide
  by_cases h : c.token = "" <;> simp [h, List.lookup, hne]

theorem doGet_congr (c : Client) (tr tr' : Transport)
    (hnew : ∀ m u, tr.NewRequest m u = tr'.NewRequest m u)
    (hdo : ∀ r, AuthHeaderOK c r → tr.Do r = tr'.Do r) (url : String) :
    c.doGet tr url = c.doGet tr' url := by
  unfold Client.doGet
  rw [hnew, hdo _ (getRequest_auth c url)]

theorem doPost_congr (c : Client) (tr tr' : Transport)
    (hnew : ∀ m u, tr.NewRequest m u = tr'.NewRequest m u)
    (hdo : ∀ r, AuthHeaderOK c r → tr.Do r = tr'.Do r) (url ct body : String) :
    c.doPost tr url ct body = c.doPost tr' url ct body := by
  unfold Client.doPost
  rw [hnew, hdo _ (postRequest_auth c url ct body)]

theorem request_error_text (err : String) :
    Sprintf "request: %w" [Arg.string err] = "request: " ++ err := by
  apply String.ext
  simp [Sprintf, sprintfAux, fmtVerb]

theorem doGet_request_error (c : Client) (tr : Transport) (url err : String)
    (hnew : tr.NewRequest "GET" url = none)
    (hdo : tr.Do (c.getRequest url) = Except.error err) :
    c.doGet tr url = (none, some ("request: " ++ err)) := by
  unfold Client.doGet
  simp only [hnew, hdo, Errorf, request_error_text]

theorem doPost_request_error (c : Client) (tr : Transport) (url ct body err : String)
    (hnew : tr.NewRequest "POST" url = none)
    (hdo : tr.Do (c.postRequest url ct body) = Except.error err) :
    c.doPost tr url ct body = (none, some ("request: " ++ err)) := by
  unfold Client.doPost
  simp only [hnew, hdo, Errorf, request_error_text]

/-- Claim C17: every request built by `doGet` or `doPost` carries an
`Authorization` header if and only if the token of the client is non-empty, and
then its value is exactly `Bearer ` followed by the token.  These are the
requests that are sent: `doGet` and `doPost` hand the request they build to the
network and return its failure as `request: <cause>`, and each of `ListEATs`,
`GetEAT`, `GetLatestVersion`, `CreateEAT`, `UploadFile` and `ApplySchema` fails
with that error against a network that refuses every request with the right
header.  They send no other request: two content stores that answer the requests
with the right header alike give the same result.  With the token `test-token`
the request of `CreateEAT` carries `Bearer test-token`. -/
theorem requests_carry_bearer_token (c : Client) :
    (∀ url, ((c.getRequest url).Header.lookup "Authorization" = none ↔ c.token = "") ∧
      (c.token ≠ "" →
        (c.getRequest url).Header.lookup "Authorization" = some ("Bearer " ++ c.token))) ∧
    (∀ url ct body,
      ((c.postRequest url ct body).Header.lookup "Authorization" = none ↔ c.token = "") ∧
      (c.token ≠ "" →
        (c.postRequest url ct body).Header.lookup "Authorization" =
          some ("Bearer " ++ c.token))) ∧
    (∀ (tr : Transport) url err, tr.NewRequest "GET" url = none →
      tr.Do (c.getRequest url) = Except.error err →
      c.doGet tr url = (none, some ("request: " ++ err))) ∧
    (∀ (tr : Transport) url ct body err, tr.NewRequest "POST" url = none →
      tr.Do (c.postRequest url ct body) = Except.error err →
      c.doPost tr url ct body = (none, some ("request: " ++ err))) ∧
    (∀ (tr : Transport) err, (∀ m u, tr.NewRequest m u = none) →
      (∀ r, AuthHeaderOK c r → tr.Do r = Except.error err) →
      (∀ js since, c.ListEATs tr js since = ([], some ("request: " ++ err))) ∧
      (∀ js id, c.GetEAT tr js id = (none, some ("request: " ++ err))) ∧
      (∀ js title, c.GetLatestVersion tr js title = (none, some ("request: " ++ err))) ∧
      (∀ js pj eat payload, pj.MarshalEAT eat = Except.ok payload →
        c.CreateEAT tr js pj eat = (none, some ("request: " ++ err))) ∧
      (∀ pj mp filename text, mp.CreateFormFile filename = none → mp.Close = none →
        c.UploadFile tr pj mp filename (Except.ok text) = (none, some ("request: " ++ err))) ∧
      (∀ schemaJSON, c.ApplySchema tr schemaJSON = some ("request: " ++ err))) ∧
    (∀ tr tr' : Transport, (∀ m u, tr.NewRequest m u = tr'.NewRequest m u) →
      (∀ r, AuthHeaderOK c r → tr.Do r = tr'.Do r) →
      (∀ js since, c.ListEATs tr js since = c.ListEATs tr' js since) ∧
      (∀ js id, c.GetEAT tr js id = c.GetEAT tr' js id) ∧
      (∀ js title, c.GetLatestVersion tr js title = c.GetLatestVersion tr' js title) ∧
      (∀ js pj eat, c.CreateEAT tr js pj eat = c.CreateEAT tr' js pj eat) ∧
      (∀ pj mp filename data,
        c.UploadFile tr pj mp filename data = c.UploadFile tr' pj mp filename data) ∧
      (∀ schemaJSON, c.ApplySchema tr schemaJSON = c.ApplySchema tr' schemaJSON)) ∧
    (({ localClient with token := "test-token" } : Client).postRequest
        "http://localhost:8000/api/content/eat" "application/json" "").Header.lookup
        "Authorization" = some "Bearer test-token" := by
  refine ⟨?_, ?_, ?_, ?_, ?_, ?_, by decide⟩
  · intro url
    have h := getRequest_auth c url
    unfold AuthHeaderOK at h
    by_cases ht : c.token = "" <;> simp [h, ht]
  · intro url ct body
    have h := postRequest_auth c url ct body
    unfold AuthHeaderOK at h
    by_cases ht : c.token = "" <;> simp [h, ht]
  · intro tr url err hnew hdo
    exact doGet_request_error c tr url err hnew hdo
  · intro tr url ct body err hnew hdo
    exact doPost_request_error c tr url ct body err hnew hdo
  · intro tr err hnew hdo
    have hg : ∀ url, c.doGet tr url = (none, some ("request: " ++ err)) := fun url =>
      doGet_request_error c tr url err (hnew _ _) (hdo _ (getRequest_auth c url))
    have hp : ∀ url ct body, c.doPost tr url ct body = (none, some ("request: " ++ err)) :=
      fun url ct body =>
        doPost_request_error c tr url ct body err (hnew _ _) (hdo _ (postRequest_auth c url ct body))
    refine ⟨?_, ?_, ?_, ?_, ?_, ?_⟩
    · intro js since
      unfold Client.ListEATs
      simp only [hg]
    · intro js id
      unfold Client.GetEAT
      simp only [hg]
    · intro js title
      unfold Client.GetLatestVersion
      simp only [hg]
    · intro js pj eat payload hm
      unfold Client.CreateEAT
      simp only [hm, hp]
    · intro pj mp filename text h1 h2
      unfold Client.UploadFile
      simp only [h1, h2, hp]
    · intro schemaJSON
      unfold Client.ApplySchema
      simp only [hp]
  · intro tr tr' hnew hdo
    refine ⟨?_, ?_, ?_, ?_, ?_, ?_⟩
    · intro js since
      unfold Client.ListEATs
      simp only [doGet_congr c tr tr' hnew hdo]
    · intro js id
      unfold Client.GetEAT
      simp only [doGet_congr c tr tr' hnew hdo]
    · intro js title
      unfold Client.GetLatestVersion
      simp only [doGet_congr c tr tr' hnew hdo]
    · intro js pj eat
      unfold Client.CreateEAT
      simp only [doPost_congr c tr tr' hnew hdo]
    · intro pj mp filename data
      unfold Client.UploadFile
      simp only [doPost_congr c tr tr' hnew hdo]
    · intro schemaJSON
      unfold Client.ApplySchema
      simp only [doPost_congr c tr tr' hnew hdo]

/-- Witness of `requests_carry_bearer_token` (`TestCreateEAT`): with the token
`test-token` the request of `CreateEAT` carries `Bearer test-token`; a store
that insists on that header accepts it and its answer is what `CreateEAT`
decodes, while the same call with another token or with none is answered 401;
and a network that fails at the request `CreateEAT` builds makes it fail. -/
theorem requests_carry_bearer_token_witness :
    (({ localClient with token := "test-token" } : Client).token ≠ "" ∧
      (({ localClient with token := "test-token" } : Client).postRequest
        "http://localhost:8000/api/content/eat" "application/json" "payload").Header.lookup
        "Authorization" = some "Bearer test-token") ∧
    ({ localClient with token := "test-token" } : Client).CreateEAT
      (bearerCheckingStore "Bearer test-token" "created")
      (exactJSON "created" (sampleRecord 99 "M5.0-Test-2026-01-01" 1))
      (stubPostJSON ⟨0, "", "", "", 0, ""⟩) (sampleRecord 0 "M5.0-Test-2026-01-01" 1) =
      (some (sampleRecord 99 "M5.0-Test-2026-01-01" 1), none) ∧
    ({ localClient with token := "other" } : Client).CreateEAT
      (bearerCheckingStore "Bearer test-token" "created")
      (exactJSON "created" (sampleRecord 99 "M5.0-Test-2026-01-01" 1))
      (stubPostJSON ⟨0, "", "", "", 0, ""⟩) (sampleRecord 0 "M5.0-Test-2026-01-01" 1) =
      (none, some "FastSchema error (401): unexpected auth header") ∧
    localClient.CreateEAT (bearerCheckingStore "Bearer test-token" "created")
      (exactJSON "created" (sampleRecord 99 "M5.0-Test-2026-01-01" 1))
      (stubPostJSON ⟨0, "", "", "", 0, ""⟩) (sampleRecord 0 "M5.0-Test-2026-01-01" 1) =
      (none, some "FastSchema error (401): unexpected auth header") ∧
    ({ localClient with token := "test-token" } : Client).doPost
      (refusingBearerTransport "Bearer test-token")
      "http://localhost:8000/api/content/eat" "application/json" "payload" =
      (none, some "request: connection refused") :=
  ⟨⟨by decide,
    ((requests_carry_bearer_token { localClient with token := "test-token" }).2.1
      "http://localhost:8000/api/content/eat" "application/json" "payload").2 (by decide)⟩,
   by decide, by decide, by decide,
   (requests_carry_bearer_token { localClient with token := "test-token" }).2.2.2.1
     (refusingBearerTransport "Bearer test-token")
     "http://localhost:8000/api/content/eat" "application/json" "payload" "connection refused"
     rfl rfl⟩

theorem eq_filter_text (title : String) :
    Sprintf "\x7b\"event_title\":\x7b\"$eq\":\"%s\"\x7d\x7d" [Arg.string title] =
      "\x7b\"event_title\":\x7b\"$eq\":\"" ++ title ++ "\"\x7d\x7d" := by
  apply String.ext
  simp [Sprintf, sprintfAux, fmtVerb]

theorem latest_url_text (c : Client) (title : String) :
    c.latestVersionURL title =
      c.baseURL ++ "/api/content/eat?filter=" ++
        QueryEscape ("\x7b\"event_title\":\x7b\"$eq\":\"" ++ title ++ "\"\x7d\x7d") ++
        "&sort=-version&limit=1" := by
  unfold Client.latestVersionURL
  simp only [eq_filter_text]
  apply String.ext
  simp [Sprintf, sprintfAux, fmtVerb]

/-- Claim C18: for every event title and every 2xx list response that decodes,
`GetLatestVersion` returns absent (nil, no error) if and only if the item list
of the response is empty, and otherwise the first item of the response, without
error; the URL it requests is the base URL followed by `/api/content/eat` with
the query `filter=` (the escaped text `{"event_title":{"$eq":"<title>"}}`),
`sort=-version` and `limit=1`. -/
theorem get_latest_version_first_item (c : Client) (tr : Transport) (js : JSON)
    (title : String) (resp : Response) (body : String) (list : ListResponse)
    (hnew : tr.NewRequest "GET" (c.latestVersionURL title) = none)
    (hdo : tr.Do (c.getRequest (c.latestVersionURL title)) = Except.ok resp)
    (hbody : resp.Body = Except.ok body)
    (hcode : 200 ≤ resp.StatusCode ∧ resp.StatusCode < 300)
    (hdec : js.UnmarshalList body = Except.ok list) :
    (c.GetLatestVersion tr js title = (none, none) ↔ list.Data.Items = []) ∧
    (∀ first rest, list.Data.Items = first :: rest →
      c.GetLatestVersion tr js title = (some first, none)) ∧
    (c.GetLatestVersion tr js title).2 = none ∧
    c.latestVersionURL title =
      c.baseURL ++ "/api/content/eat?filter=" ++
        QueryEscape ("\x7b\"event_title\":\x7b\"$eq\":\"" ++ title ++ "\"\x7d\x7d") ++
        "&sort=-version&limit=1" := by
  have hc : ¬ (resp.StatusCode < 200 ∨ resp.StatusCode ≥ 300) := by omega
  have hget : c.doGet tr (c.latestVersionURL title) = (some body, none) := by
    unfold Client.doGet
    simp only [hnew, hdo, hbody, hc, if_false]
  have hnil : list.Data.Items = [] → c.GetLatestVersion tr js title = (none, none) := by
    intro h
    unfold Client.GetLatestVersion
    simp only [hget, Option.getD_some, hdec, h]
  have hcons : ∀ first rest, list.Data.Items = first :: rest →
      c.GetLatestVersion tr js title = (some first, none) := by
    intro first rest h
    unfold Client.GetLatestVersion
    simp only [hget, Option.getD_some, hdec, h]
  refine ⟨⟨?_, hnil⟩, hcons, ?_, latest_url_text c title⟩
  · intro h
    cases hi : list.Data.Items with
    | nil => rfl
    | cons first rest =>
      rw [hcons first rest hi] at h
      simp at h
  · cases hi : list.Data.Items with
    | nil => rw [hnil hi]
    | cons first rest => rw [hcons first rest hi]

/-- Witness of `get_latest_version_first_item`: the response of
`TestGetLatestVersion`, one record of version 3. -/
theorem get_latest_version_first_item_witness :
    localClient.GetLatestVersion (okTransport "")
      (stubJSON [sampleRecord 5 "M5.0-Wellington-2026-01-01" 3] zeroEAT)
      "M5.0-Wellington-2026-01-01" =
      (some (sampleRecord 5 "M5.0-Wellington-2026-01-01" 3), none) ∧
    localClient.latestVersionURL "M5.0-Wellington-2026-01-01" =
      "http://localhost:8000/api/content/eat?filter=%7B%22event_title%22%3A%7B%22%24eq%22%3A%22M5.0-Wellington-2026-01-01%22%7D%7D&sort=-version&limit=1" :=
  ⟨(get_latest_version_first_item localClient (okTransport "")
      (stubJSON [sampleRecord 5 "M5.0-Wellington-2026-01-01" 3] zeroEAT)
      "M5.0-Wellington-2026-01-01" ⟨200, Except.ok ""⟩ ""
      ⟨⟨1, 100, 1, 1, [sampleRecord 5 "M5.0-Wellington-2026-01-01" 3]⟩⟩
      rfl rfl rfl (by decide) rfl).2.1 _ [] rfl,
   by decide⟩

/-! ## The publish handler after the create -/

/-- A valid request is handled by the preparation followed by the save. -/
theorem handler_eq_prepare {σ : Type} (env : Env σ) (w : σ) (req : publishRequest)
    (eventDate : Time) (hv : req.Valid)
    (hp : Parse "2006-01-02T15:04" req.EventDate = some eventDate) :
    apiPublishHandler env ⟨none, Except.ok req⟩ w =
      match publishPrepare env req eventDate w with
      | (Except.error out, calls, w1) => ⟨out, calls, w1⟩
      | (Except.ok eat, calls, w1) => publishSave env eat calls w1 := by
  rw [handler_valid_unfold env w req eventDate hv hp]
  unfold publishPrepare
  by_cases hm : req.Mode = "new_event"
  · simp only [hm, if_true]
    rfl
  · simp only [hm, if_false]
    rcases hx : resolveEventTitle env req (req.toEAT eventDate) w with ⟨x, calls, w1⟩
    cases x with
    | error out => rfl
    | ok title =>
      dsimp only
      unfold publishNewVersion
      rcases hl : env.GetLatestVersion title w1 with ⟨⟨latest, err⟩, w2⟩
      cases err with
      | some e => rfl
      | none => rfl

theorem resolveEventTitle_calls {σ : Type} (env : Env σ) (req : publishRequest) (eat : EAT)
    (w : σ) : ∀ c ∈ (resolveEventTitle env req eat w).2.1, c.isStoreRead = true := by
  intro c hc
  unfold resolveEventTitle at hc
  split at hc
  · split at hc <;> simp at hc <;> subst hc <;> rfl
  · simp at hc

theorem publishPrepare_calls {σ : Type} (env : Env σ) (req : publishRequest) (eventDate : Time)
    (w : σ) : ∀ c ∈ (publishPrepare env req eventDate w).2.1, c.isStoreRead = true := by
  intro c hc
  unfold publishPrepare at hc
  dsimp only at hc
  split at hc
  · simp at hc
  · have hr := resolveEventTitle_calls env req (req.toEAT eventDate) w
    split at hc
    · rename_i hx
      rw [hx] at hr
      exact hr c hc
    · rename_i hx
      rw [hx] at hr
      split at hc
      · rcases List.mem_append.1 hc with h | h
        · exact hr c h
        · simp at h; subst h; rfl
      · rcases List.mem_append.1 hc with h | h
        · exact hr c h
        · simp at h; subst h; rfl

theorem read_not_notify (c : Call) (h : c.isStoreRead = true) :
    c.isNotify = false ∧ c.isSend = false ∧ createdArgs [c] = [] := by
  cases c <;> simp_all [Call.isStoreRead, Call.isNotify, Call.isSend, createdArgs]

theorem createdArgs_of_reads (l : List Call) (h : ∀ c ∈ l, c.isStoreRead = true) :
    createdArgs l = [] := by
  induction l with
  | nil => rfl
  | cons c rest ih =>
    have hc := h c (List.mem_cons_self _ _)
    have hr := ih (fun x hx => h x (List.mem_cons_of_mem _ hx))
    cases c <;> simp_all [createdArgs, Call.isStoreRead]

theorem publishSave_success {σ : Type} (env : Env σ) (eat created : EAT) (calls : List Call)
    (w w1 : σ) (hcreate : env.CreateEAT eat w = ((some created, none), w1)) :
    (publishSave env eat calls w).out = successOutcome created.ID created.Version ∧
    (publishSave env eat calls w).calls =
      calls ++ Call.CreateEAT eat :: (publishNotify env created w1).1 := by
  unfold publishSave
  rw [hcreate]
  exact ⟨rfl, rfl⟩

theorem publishPrepare_frame {σ : Type} (env : Env σ)
    (pdf : EAT → σ → Option (List Nat) × GoError) (cfg : σ → Config × GoError)
    (send : Config → EAT → List Nat → σ → GoError × σ) (req : publishRequest)
    (eventDate : Time) (w : σ) :
    publishPrepare { env with GenerateEATPDF := pdf, ConfigFromEnv := cfg, SendEATEmail := send }
      req eventDate w = publishPrepare env req eventDate w := rfl

/-- Claim C12: for every publish request that passes validation and whose
`CreateEAT` call succeeds, `apiPublishHandler` returns `success = true` with the
id and version of the record the store returned from the create call; the calls
after the create are none to the store; and the response is the same for every
PDF renderer, every email configuration and every mailer, so whether PDF
generation, configuration or sending succeed or fail. -/
theorem publish_success_response {σ : Type} (env : Env σ) (w w1 w2 : σ) (req : publishRequest)
    (eventDate : Time) (eat created : EAT) (calls : List Call)
    (hv : req.Valid) (hp : Parse "2006-01-02T15:04" req.EventDate = some eventDate)
    (hprep : publishPrepare env req eventDate w = (Except.ok eat, calls, w1))
    (hcreate : env.CreateEAT eat w1 = ((some created, none), w2)) :
    (apiPublishHandler env ⟨none, Except.ok req⟩ w).out =
      successOutcome created.ID created.Version ∧
    (∃ rest, (apiPublishHandler env ⟨none, Except.ok req⟩ w).calls =
        calls ++ Call.CreateEAT eat :: rest ∧ ∀ c ∈ rest, c.isStore = false) ∧
    (∀ (pdf : EAT → σ → Option (List Nat) × GoError) (cfg : σ → Config × GoError)
      (send : Config → EAT → List Nat → σ → GoError × σ),
      (apiPublishHandler
        { env with GenerateEATPDF := pdf, ConfigFromEnv := cfg, SendEATEmail := send }
        ⟨none, Except.ok req⟩ w).out = successOutcome created.ID created.Version) := by
  refine ⟨?_, ?_, ?_⟩
  · rw [handler_eq_prepare env w req eventDate hv hp, hprep]
    exact (publishSave_success env eat created calls w1 w2 hcreate).1
  · rw [handler_eq_prepare env w req eventDate hv hp, hprep]
    exact ⟨_, (publishSave_success env eat created calls w1 w2 hcreate).2,
      publishNotify_no_store env created w2⟩
  · intro pdf cfg send
    rw [handler_eq_prepare _ w req eventDate hv hp, publishPrepare_frame, hprep]
    exact (publishSave_success
      { env with GenerateEATPDF := pdf, ConfigFromEnv := cfg, SendEATEmail := send }
      eat created calls w1 w2 hcreate).1

/-- Witness of `publish_success_response`: a new event published while PDF
generation fails is answered with the id 1 that the store assigned, not the id
0 of the submitted record. -/
theorem publish_success_response_witness :
    (apiPublishHandler failingPdfEnv
      ⟨none, Except.ok (sampleRequest "new_event" "confirmed" 0)⟩ Store.empty).out =
      successOutcome 1 1 ∧
    (apiPublishHandler sampleEnv
      ⟨none, Except.ok (sampleRequest "new_event" "confirmed" 0)⟩ Store.empty).out =
      successOutcome 1 1 :=
  ⟨(publish_success_response failingPdfEnv Store.empty Store.empty
      ⟨[{ (sampleRequest "new_event" "confirmed" 0).toEAT sampleInstant with
          ID := 1, EventTitle := "M5.0-Wellington-2026-01-15", Version := 1 }], 2⟩
      (sampleRequest "new_event" "confirmed" 0) sampleInstant
      { (sampleRequest "new_event" "confirmed" 0).toEAT sampleInstant with
        EventTitle := "M5.0-Wellington-2026-01-15", Version := 1 }
      { (sampleRequest "new_event" "confirmed" 0).toEAT sampleInstant with
        ID := 1, EventTitle := "M5.0-Wellington-2026-01-15", Version := 1 }
      [] (by decide) (by decide) rfl rfl).1,
   by decide⟩

theorem publishNotify_sends {σ : Type} (env : Env σ) (created : EAT) (w : σ)
    (bytes : List Nat) (hcfg : (env.ConfigFromEnv w).2 = none)
    (hpdf : (env.GenerateEATPDF created w).1 = some bytes) :
    Call.SendEATEmail (env.ConfigFromEnv w).1 created bytes ∈ (publishNotify env created w).1 := by
  unfold publishNotify
  simp only [hcfg, hpdf]
  split <;> simp

theorem publishNotify_no_send {σ : Type} (env : Env σ) (created : EAT) (w : σ)
    (h : (env.GenerateEATPDF created w).1 = none ∨ (env.ConfigFromEnv w).2 ≠ none) :
    ∀ c ∈ (publishNotify env created w).1, c.isSend = false := by
  intro c hc
  unfold publishNotify at hc
  dsimp only at hc
  split at hc
  · split at hc <;> simp at hc <;> rcases hc with rfl | rfl | rfl | rfl <;> rfl
  · rename_i hcfg
    have hpdf : (env.GenerateEATPDF created w).1 = none := by
      rcases h with h | h
      · exact h
      · exact absurd hcfg h
    split at hc
    · split at hc <;> simp at hc <;> rcases hc with rfl | rfl | rfl <;> rfl
    · rename_i bytes hb
      rw [hpdf] at hb
      exact absurd hb (by simp)

theorem publishNotify_sends_once {σ : Type} (env : Env σ) (created : EAT) (w : σ)
    (bytes : List Nat) (hcfg : (env.ConfigFromEnv w).2 = none)
    (hpdf : (env.GenerateEATPDF created w).1 = some bytes) :
    (publishNotify env created w).1.filter Call.isSend =
      [Call.SendEATEmail (env.ConfigFromEnv w).1 created bytes] := by
  unfold publishNotify
  simp only [hcfg, hpdf]
  split <;> split <;> simp [List.filter, Call.isSend]

theorem filter_isSend_of_reads (l : List Call) (h : ∀ c ∈ l, c.isStoreRead = true) :
    l.filter Call.isSend = [] := by
  rw [List.filter_eq_nil_iff]
  intro c hc
  simp [(read_not_notify c (h c hc)).2.1]

/-- Claim C13: after a successful create, whenever email is configured
(`ConfigFromEnv` returns no error), `apiPublishHandler` sends the notification
email for the persisted record, once, with the rendered PDF attached, and the
caller sees the success response whatever the mailer answers; when email is not
configured no email is sent.  The PDF is the one `GenerateEATPDF` returns:
`generate.go` returns an error only when `Output` of the document into its
memory buffer fails, and the statement is about the runs in which `Output`
wrote the document. -/
theorem email_sent_with_rendered_pdf {σ : Type} (env : Env σ) (w w1 w2 : σ)
    (req : publishRequest) (eventDate : Time) (eat created : EAT) (calls : List Call)
    (output : EAT → Except String (List Nat)) (bytes : List Nat)
    (hv : req.Valid) (hp : Parse "2006-01-02T15:04" req.EventDate = some eventDate)
    (hprep : publishPrepare env req eventDate w = (Except.ok eat, calls, w1))
    (hcreate : env.CreateEAT eat w1 = ((some created, none), w2))
    (hgen : env.GenerateEATPDF created w2 = GenerateEATPDF output created)
    (hout : output created = Except.ok bytes) (hne : bytes ≠ []) :
    (apiPublishHandler env ⟨none, Except.ok req⟩ w).out =
      successOutcome created.ID created.Version ∧
    ((env.ConfigFromEnv w2).2 = none →
      (apiPublishHandler env ⟨none, Except.ok req⟩ w).calls.filter Call.isSend =
        [Call.SendEATEmail (env.ConfigFromEnv w2).1 created bytes]) ∧
    ((env.ConfigFromEnv w2).2 ≠ none →
      (apiPublishHandler env ⟨none, Except.ok req⟩ w).calls.filter Call.isSend = []) := by
  have hrun : apiPublishHandler env ⟨none, Except.ok req⟩ w = publishSave env eat calls w1 := by
    rw [handler_eq_prepare env w req eventDate hv hp, hprep]
  have hsave := publishSave_success env eat created calls w1 w2 hcreate
  have hreads : calls.filter Call.isSend = [] := by
    apply filter_isSend_of_reads
    have := publishPrepare_calls env req eventDate w
    rw [hprep] at this
    exact this
  have hpdf : (env.GenerateEATPDF created w2).1 = some bytes := by
    rw [hgen]
    simp [GenerateEATPDF, hout, hne]
  rw [hrun, hsave.2]
  refine ⟨hsave.1, ?_, ?_⟩
  · intro hcfg
    rw [List.filter_append, hreads, List.filter_cons]
    simp [Call.isSend, publishNotify_sends_once env created w2 bytes hcfg hpdf]
  · intro hcfg
    rw [List.filter_append, hreads, List.filter_cons]
    have hno := publishNotify_no_send env created w2 (Or.inr hcfg)
    have : (publishNotify env created w2).1.filter Call.isSend = [] := by
      rw [List.filter_eq_nil_iff]
      intro c hc
      simp [hno c hc]
    simp [Call.isSend, this]

/-- Witness of `email_sent_with_rendered_pdf`: a new event published against the
empty store with email configured; the one email of the run carries the
persisted record and the rendered PDF. -/
theorem email_sent_with_rendered_pdf_witness :
    (sampleEnv.ConfigFromEnv
      ⟨[{ (sampleRequest "new_event" "confirmed" 0).toEAT sampleInstant with
          ID := 1, EventTitle := "M5.0-Wellington-2026-01-15", Version := 1 }], 2⟩).2 = none ∧
    (apiPublishHandler sampleEnv
      ⟨none, Except.ok (sampleRequest "new_event" "confirmed" 0)⟩ Store.empty).calls.filter
        Call.isSend =
      [Call.SendEATEmail
        ⟨"smtp.example.org", "587", "", "", "portal@example.org", ["duty@example.org"]⟩
        { (sampleRequest "new_event" "confirmed" 0).toEAT sampleInstant with
          ID := 1, EventTitle := "M5.0-Wellington-2026-01-15", Version := 1 }
        [37, 80, 68, 70]] :=
  ⟨rfl,
   (email_sent_with_rendered_pdf sampleEnv Store.empty Store.empty
    ⟨[{ (sampleRequest "new_event" "confirmed" 0).toEAT sampleInstant with
        ID := 1, EventTitle := "M5.0-Wellington-2026-01-15", Version := 1 }], 2⟩
    (sampleRequest "new_event" "confirmed" 0) sampleInstant
    { (sampleRequest "new_event" "confirmed" 0).toEAT sampleInstant with
      EventTitle := "M5.0-Wellington-2026-01-15", Version := 1 }
    { (sampleRequest "new_event" "confirmed" 0).toEAT sampleInstant with
      ID := 1, EventTitle := "M5.0-Wellington-2026-01-15", Version := 1 }
    [] (fun _ => Except.ok [37, 80, 68, 70]) [37, 80, 68, 70]
    (by decide) (by decide) rfl rfl rfl rfl (by decide)).2.1 rfl⟩

theorem append_ne_empty (a b : String) (h : a ≠ "") : a ++ b ≠ "" := by
  intro hab
  apply h
  have hd : a.data ++ b.data = [] := by
    have := congrArg String.data hab
    simpa using this
  apply String.ext
  exact (List.append_eq_nil.1 hd).1

theorem publishSave_failure {σ : Type} (env : Env σ) (eat : EAT) (calls : List Call)
    (w w1 : σ) (x : Option EAT) (err : String)
    (hcreate : env.CreateEAT eat w = ((x, some err), w1)) :
    publishSave env eat calls w =
      ⟨writePublishError ("failed to save EAT: " ++ err), calls ++ [Call.CreateEAT eat], w1⟩ := by
  unfold publishSave
  rw [hcreate]
  cases x <;> rfl

theorem publishNewVersion_failure {σ : Type} (env : Env σ) (eat : EAT) (calls : List Call)
    (w w1 : σ) (x : Option EAT) (err : String)
    (hlat : env.GetLatestVersion eat.EventTitle w = ((x, some err), w1)) :
    publishNewVersion env eat calls w =
      ⟨writePublishError "failed to look up latest version",
        calls ++ [Call.GetLatestVersion eat.EventTitle], w1⟩ := by
  unfold publishNewVersion
  rw [hlat]

theorem writePublishError_softFail (msg : String) (h : msg ≠ "") :
    (writePublishError msg).SoftFail :=
  ⟨rfl, rfl, _, rfl, rfl, h⟩

/-- Claim C14: for every valid publish request, if a content-store call fails
(the `GetEAT` lookup of `existing_eat_id`, the `GetLatestVersion` lookup, or
`CreateEAT`), `apiPublishHandler` returns a soft-fail response (`success =
false` with a non-empty error message, no handler error); when one of the two
lookups fails the run ends with that lookup and no `CreateEAT` call is made, and
when any of the three fails no PDF is generated and no email is sent. -/
theorem publish_store_failure_soft_fail {σ : Type} (env : Env σ) (w : σ)
    (req : publishRequest) (eventDate : Time) (hv : req.Valid)
    (hp : Parse "2006-01-02T15:04" req.EventDate = some eventDate) :
    (req.Mode ≠ "new_event" → req.ExistingEATID > 0 → ∀ x err w1,
      env.GetEAT req.ExistingEATID w = ((x, some err), w1) →
      (apiPublishHandler env ⟨none, Except.ok req⟩ w).out.SoftFail ∧
      (apiPublishHandler env ⟨none, Except.ok req⟩ w).calls = [Call.GetEAT req.ExistingEATID]) ∧
    (req.Mode ≠ "new_event" → ∀ title calls w1 x err w2,
      resolveEventTitle env req (req.toEAT eventDate) w = (Except.ok title, calls, w1) →
      env.GetLatestVersion title w1 = ((x, some err), w2) →
      (apiPublishHandler env ⟨none, Except.ok req⟩ w).out.SoftFail ∧
      (apiPublishHandler env ⟨none, Except.ok req⟩ w).calls =
        calls ++ [Call.GetLatestVersion title] ∧
      createdArgs (apiPublishHandler env ⟨none, Except.ok req⟩ w).calls = [] ∧
      ∀ c ∈ (apiPublishHandler env ⟨none, Except.ok req⟩ w).calls, c.isNotify = false) ∧
    (∀ eat calls w1 x err w2,
      publishPrepare env req eventDate w = (Except.ok eat, calls, w1) →
      env.CreateEAT eat w1 = ((x, some err), w2) →
      (apiPublishHandler env ⟨none, Except.ok req⟩ w).out.SoftFail ∧
      (apiPublishHandler env ⟨none, Except.ok req⟩ w).calls = calls ++ [Call.CreateEAT eat] ∧
      ∀ c ∈ (apiPublishHandler env ⟨none, Except.ok req⟩ w).calls, c.isNotify = false) := by
  refine ⟨?_, ?_, ?_⟩
  · intro hm hpos x err w1 hget
    rw [handler_valid_unfold env w req eventDate hv hp, if_neg hm]
    have hres : resolveEventTitle env req (req.toEAT eventDate) w =
        (Except.error (writePublishError "failed to look up existing EAT"),
          [Call.GetEAT req.ExistingEATID], w1) := by
      simp [resolveEventTitle, hpos, hget]
    rw [hres]
    exact ⟨writePublishError_softFail _ (by decide), rfl⟩
  · intro hm title calls w1 x err w2 hres hlat
    have hreads : ∀ c ∈ calls, c.isStoreRead = true := by
      have := resolveEventTitle_calls env req (req.toEAT eventDate) w
      rw [hres] at this
      exact this
    rw [handler_valid_unfold env w req eventDate hv hp, if_neg hm, hres]
    dsimp only
    rw [publishNewVersion_failure env { req.toEAT eventDate with EventTitle := title }
      calls w1 w2 x err hlat]
    refine ⟨writePublishError_softFail _ (by decide), rfl, ?_, ?_⟩
    · rw [createdArgs_append, createdArgs_of_reads calls hreads]
      rfl
    · intro c hc
      rcases List.mem_append.1 hc with hc | hc
      · exact (read_not_notify c (hreads c hc)).1
      · simp at hc; subst hc; rfl
  · intro eat calls w1 x err w2 hprep hcreate
    have hreads : ∀ c ∈ calls, c.isStoreRead = true := by
      have := publishPrepare_calls env req eventDate w
      rw [hprep] at this
      exact this
    rw [handler_eq_prepare env w req eventDate hv hp, hprep]
    dsimp only
    rw [publishSave_failure env eat calls w1 w2 x err hcreate]
    refine ⟨writePublishError_softFail _ (append_ne_empty _ _ (by decide)), rfl, ?_⟩
    intro c hc
    rcases List.mem_append.1 hc with hc | hc
    · exact (read_not_notify c (hreads c hc)).1
    · simp at hc; subst hc; rfl

/-- Witness of `publish_store_failure_soft_fail`: a new version against the
unknown record 42 stops at the failed lookup, and a new event against a store
whose create fails stops at the create. -/
theorem publish_store_failure_soft_fail_witness :
    (apiPublishHandler sampleEnv
      ⟨none, Except.ok (sampleRequest "new_version" "confirmed" 42)⟩ sampleStore).calls =
      [Call.GetEAT 42] ∧
    (apiPublishHandler sampleEnv
      ⟨none, Except.ok (sampleRequest "new_version" "confirmed" 42)⟩ sampleStore).out =
      writePublishError "failed to look up existing EAT" ∧
    (apiPublishHandler failingCreateEnv
      ⟨none, Except.ok (sampleRequest "new_event" "confirmed" 0)⟩ sampleStore).out =
      writePublishError "failed to save EAT: FastSchema error (500): internal error" := by
  have h := publish_store_failure_soft_fail sampleEnv sampleStore
    (sampleRequest "new_version" "confirmed" 42) sampleInstant (by decide) (by decide)
  exact ⟨(h.1 (by decide) (by decide) none "FastSchema error (404): not found" sampleStore
    rfl).2, by decide, by decide⟩

/-! ## Query validation and the SMTP configuration -/

theorem query_none_iff (v : Values) :
    Query v = none ↔
      (v.Get "id" = "" ∨ ∃ n, Atoi (v.Get "id") = Except.ok n) ∧
      (v.Get "days" = "" ∨ ∃ d, Atoi (v.Get "days") = Except.ok d ∧ 1 ≤ d ∧ d ≤ 90) ∧
      (v.Get "version" = "" ∨ ∃ n, Atoi (v.Get "version") = Except.ok n ∧ 1 ≤ n) := by
  unfold Query
  generalize v.Get "id" = id
  generalize v.Get "days" = days
  generalize v.Get "version" = version
  by_cases h1 : id = "" <;> by_cases h2 : days = "" <;> by_cases h3 : version = "" <;>
    cases ha : Atoi id <;> cases hb : Atoi days <;> cases hc : Atoi version <;>
    simp [h1, h2, h3, ha, hb, hc] <;> (try split_ifs) <;> (try simp) <;> (try omega)

theorem query_error_code (v : Values) : ∀ e, Query v = some e → e.Code = 400 := by
  intro e he
  unfold Query at he
  dsimp only at he
  split at he
  · simp at he; subst he; rfl
  · split at he
    · simp at he; subst he; rfl
    · split at he
      · simp at he; subst he; rfl
      · simp at he

/-- The parses of `strconv.Atoi` on sample texts. -/
theorem test_atoi :
    Atoi "42" = Except.ok 42 ∧ Atoi "-1" = Except.ok (-1) ∧ Atoi "+7" = Except.ok 7 ∧
    Atoi "007" = Except.ok 7 ∧ Atoi "9223372036854775807" = Except.ok 9223372036854775807 ∧
    Atoi "-9223372036854775808" = Except.ok (-9223372036854775808) ∧
    Atoi "" = Except.error "invalid syntax" ∧ Atoi "-" = Except.error "invalid syntax" ∧
    Atoi "abc" = Except.error "invalid syntax" ∧ Atoi "1_0" = Except.error "invalid syntax" ∧
    Atoi " 7" = Except.error "invalid syntax" ∧
    Atoi "9223372036854775808" = Except.error "value out of range" := by
  refine ⟨rfl, rfl, rfl, rfl, rfl, rfl, rfl, rfl, rfl, rfl, rfl, rfl⟩

/-- Claim C19: for every set of query values, `valid.Query` returns no error if
and only if `id` is empty or parses as a decimal integer, `days` is empty or
parses as an integer `d` with `1 <= d <= 90`, and `version` is empty or parses
as an integer `v` with `v >= 1`; otherwise the error is a status error with
code 400.  The values `id=abc`, `days=0`, `days=100`, `days=abc`, `version=0`
and `version=-1` are rejected; `id=42`, `days=7`, `version=3` and the empty set
are accepted. -/
theorem query_accepts_iff (v : Values) :
    (Query v = none ↔
      (v.Get "id" = "" ∨ ∃ n, Atoi (v.Get "id") = Except.ok n) ∧
      (v.Get "days" = "" ∨ ∃ d, Atoi (v.Get "days") = Except.ok d ∧ 1 ≤ d ∧ d ≤ 90) ∧
      (v.Get "version" = "" ∨ ∃ n, Atoi (v.Get "version") = Except.ok n ∧ 1 ≤ n)) ∧
    (∀ e, Query v = some e → e.Code = 400) ∧
    [[("id", ["abc"])], [("days", ["0"])], [("days", ["100"])], [("days", ["abc"])],
      [("version", ["0"])], [("version", ["-1"])]].map
        (fun q => (Query q).map (fun e => e.Code)) =
      [some 400, some 400, some 400, some 400, some 400, some 400] ∧
    [[("id", ["42"])], [("days", ["7"])], [("version", ["3"])], []].map Query =
      [none, none, none, none] :=
  ⟨query_none_iff v, query_error_code v, by decide, by decide⟩

/-- Witness of `query_accepts_iff`: the rejection of `days=100` has code 400. -/
theorem query_accepts_iff_witness :
    Query [("days", ["100"])] =
      some ⟨400, some "invalid days: 100 (must be 1-90)"⟩ ∧
    (⟨400, some "invalid days: 100 (must be 1-90)"⟩ : StatusError).Code = 400 :=
  ⟨by decide, (query_accepts_iff [("days", ["100"])]).2.1 _ (by decide)⟩

theorem splitChars_ne_nil (sep : Char) (cs : List Char) : splitChars sep cs ≠ [] := by
  induction cs with
  | nil => simp [splitChars]
  | cons c rest ih =>
    simp only [splitChars]
    split
    · simp
    · split <;> simp

/-- Joining the pieces of a split with the separator gives the text back, and
no piece holds the separator. -/
theorem splitChars_spec (sep : Char) (cs : List Char) :
    List.intercalate [sep] (splitChars sep cs) = cs ∧
    ∀ piece ∈ splitChars sep cs, sep ∉ piece := by
  induction cs with
  | nil => simp [splitChars, List.intercalate]
  | cons c rest ih =>
    obtain ⟨ih1, ih2⟩ := ih
    simp only [splitChars]
    by_cases hc : c = sep
    · subst hc
      simp only [if_true]
      constructor
      · cases hs : splitChars c rest with
        | nil => exact absurd hs (splitChars_ne_nil c rest)
        | cons p ps =>
          rw [hs] at ih1
          rw [← ih1]
          cases ps <;> simp [List.intercalate, List.intersperse]
      · intro piece hp
        rcases List.mem_cons.1 hp with rfl | hp
        · simp
        · exact ih2 piece hp
    · simp only [hc, if_false]
      cases hs : splitChars sep rest with
      | nil => exact absurd hs (splitChars_ne_nil sep rest)
      | cons p ps =>
        rw [hs] at ih1 ih2
        constructor
        · rw [← ih1]
          cases ps <;> simp [List.intercalate, List.intersperse]
        · intro piece hp
          rcases List.mem_cons.1 hp with rfl | hp
          · intro hmem
            rcases List.mem_cons.1 hmem with h | h
            · exact hc h.symm
            · exact ih2 p (List.mem_cons_self _ _) h
          · exact ih2 piece (List.mem_cons_of_mem _ hp)

theorem split_length_pos (s : String) (sep : Char) : 0 < (Split s sep).length := by
  unfold Split
  rw [List.length_map]
  exact List.length_pos.2 (splitChars_ne_nil sep s.data)

/-- Trimming removes a run of spaces at each end and nothing else, and what is
left neither starts nor ends with a space. -/
theorem trimSpaceChars_spec (cs : List Char) :
    (∃ pre post, cs = pre ++ trimSpaceChars cs ++ post ∧
      (∀ c ∈ pre, isSpace c = true) ∧ (∀ c ∈ post, isSpace c = true)) ∧
    (∀ c, (trimSpaceChars cs).head? = some c → isSpace c = false) ∧
    (∀ c, (trimSpaceChars cs).getLast? = some c → isSpace c = false) := by
  have hmid : cs.dropWhile isSpace =
      trimSpaceChars cs ++ ((cs.dropWhile isSpace).reverse.takeWhile isSpace).reverse := by
    unfold trimSpaceChars
    rw [← List.reverse_append, List.takeWhile_append_dropWhile, List.reverse_reverse]
  have hlast : ∀ c, (trimSpaceChars cs).getLast? = some c → isSpace c = false := by
    intro c hc
    unfold trimSpaceChars at hc
    rw [List.getLast?_reverse] at hc
    have := List.head?_dropWhile_not isSpace (cs.dropWhile isSpace).reverse
    rw [hc] at this
    simpa using this
  refine ⟨⟨cs.takeWhile isSpace, ((cs.dropWhile isSpace).reverse.takeWhile isSpace).reverse,
    ?_, ?_, ?_⟩, ?_, hlast⟩
  · rw [List.append_assoc, ← hmid, List.takeWhile_append_dropWhile]
  · intro c hc
    exact List.mem_takeWhile_imp hc
  · intro c hc
    exact List.mem_takeWhile_imp (List.mem_reverse.1 hc)
  · intro c hc
    cases ht : trimSpaceChars cs with
    | nil => rw [ht] at hc; simp at hc
    | cons x xs =>
      rw [ht] at hc hmid
      simp only [List.head?_cons, Option.some.injEq] at hc
      subst hc
      have := List.head?_dropWhile_not isSpace cs
      rw [hmid] at this
      simpa using this

/-- Claim C20: for every environment, `ConfigFromEnv` returns an error if and
only if `SMTP_HOST` is empty, `SMTP_FROM` is empty, or `SMTP_RECIPIENTS` is
empty; when it succeeds, the port is `SMTP_PORT`, or `587` when that is empty,
and the recipients are the comma-separated parts of `SMTP_RECIPIENTS`, in
order, each with the surrounding whitespace trimmed (the parts hold no comma
and joined with commas give the text back; trimming removes a run of spaces at
each end only and leaves no space at either end); `a@b.com, c@d.com` gives
`a@b.com` and `c@d.com`. -/
theorem config_from_env_error_iff (getenv : String → String) :
    ((ConfigFromEnv getenv).2 ≠ none ↔
      getenv "SMTP_HOST" = "" ∨ getenv "SMTP_FROM" = "" ∨ getenv "SMTP_RECIPIENTS" = "") ∧
    ((ConfigFromEnv getenv).2 = none →
      (ConfigFromEnv getenv).1.Port =
        (if getenv "SMTP_PORT" = "" then "587" else getenv "SMTP_PORT") ∧
      (ConfigFromEnv getenv).1.Recipients =
        (Split (getenv "SMTP_RECIPIENTS") ',').map TrimSpace ∧
      (ConfigFromEnv getenv).1.Host = getenv "SMTP_HOST" ∧
      (ConfigFromEnv getenv).1.FromAddr = getenv "SMTP_FROM") ∧
    (∀ s : String,
      List.intercalate [','] ((Split s ',').map String.data) = s.data ∧
      ∀ part ∈ Split s ',', ',' ∉ part.data) ∧
    (∀ s : String,
      (∃ pre post, s.data = pre ++ (TrimSpace s).data ++ post ∧
        (∀ c ∈ pre, isSpace c = true) ∧ (∀ c ∈ post, isSpace c = true)) ∧
      (∀ c, (TrimSpace s).data.head? = some c → isSpace c = false) ∧
      (∀ c, (TrimSpace s).data.getLast? = some c → isSpace c = false)) ∧
    (Split "a@b.com, c@d.com" ',').map TrimSpace = ["a@b.com", "c@d.com"] := by
  have hlen : ∀ s : String, Split s ',' ≠ [] := by
    intro s
    exact List.length_pos.1 (split_length_pos s ',')
  refine ⟨?_, ?_, ?_, fun s => trimSpaceChars_spec s.data, by decide⟩
  · unfold ConfigFromEnv
    by_cases h1 : getenv "SMTP_HOST" = "" <;> by_cases h2 : getenv "SMTP_FROM" = "" <;>
      by_cases h3 : getenv "SMTP_RECIPIENTS" = "" <;> simp [h1, h2, h3, Errorf, hlen]
  · unfold ConfigFromEnv
    by_cases h1 : getenv "SMTP_HOST" = "" <;> by_cases h2 : getenv "SMTP_FROM" = "" <;>
      by_cases h3 : getenv "SMTP_RECIPIENTS" = "" <;> simp [h1, h2, h3, Errorf, hlen]
  · intro s
    obtain ⟨h1, h2⟩ := splitChars_spec ',' s.data
    constructor
    · unfold Split
      rw [List.map_map]
      have : (String.data ∘ String.mk) = id := rfl
      rw [this, List.map_id]
      exact h1
    · intro part hp
      unfold Split at hp
      obtain ⟨cs, hcs, rfl⟩ := List.mem_map.1 hp
      exact h2 cs hcs

/-- Witness of `config_from_env_error_iff`: the environment of the valid case
of `TestConfigFromEnv`. -/
theorem config_from_env_error_iff_witness :
    (ConfigFromEnv (fun k =>
      if k = "SMTP_HOST" then "smtp.example.com"
      else if k = "SMTP_FROM" then "test@example.com"
      else if k = "SMTP_RECIPIENTS" then "a@b.com, c@d.com" else "")).1.Port = "587" ∧
    (ConfigFromEnv (fun k =>
      if k = "SMTP_HOST" then "smtp.example.com"
      else if k = "SMTP_FROM" then "test@example.com"
      else if k = "SMTP_RECIPIENTS" then "a@b.com, c@d.com" else "")).1.Recipients =
      ["a@b.com", "c@d.com"] := by
  have h := (config_from_env_error_iff (fun k =>
      if k = "SMTP_HOST" then "smtp.example.com"
      else if k = "SMTP_FROM" then "test@example.com"
      else if k = "SMTP_RECIPIENTS" then "a@b.com, c@d.com" else "")).2.1 (by decide)
  exact ⟨h.1.trans (by decide), h.2.1.trans (by decide)⟩

/-! ## The dashboard -/

theorem versionsLoop_eq (title : String) (eats versions : List EAT) :
    versionsLoop title eats versions =
      versions ++ eats.filter (fun e => e.EventTitle = title) := by
  induction eats generalizing versions with
  | nil => simp [versionsLoop]
  | cons e rest ih =>
    by_cases h : e.EventTitle = title
    · simp [versionsLoop, h, ih]
    · simp [versionsLoop, h, ih]

/-- Claim C21: whenever `dashboardHandler` has a current EAT it renders a page,
and the version history of that page is exactly the sub-sequence, in feed
order, of the records returned by `ListEATs` for the day before the event date
of the current EAT whose title equals the title of the current EAT (so no
record with another title is included); the history is empty when that
`ListEATs` call fails. -/
theorem dashboard_version_history (c : Client) (tr : Transport) (js : JSON) (tmpl : Template)
    (now : Time) (nonce : String) (q : Values) (current : EAT)
    (hcur : dashboardCurrent c tr js now q = Except.ok (some current)) :
    ∃ page, dashboardHandler c tr js tmpl now nonce (Except.ok q) =
        DashboardResult.rendered page "text/html; charset=utf-8" (tmpl page).1 (tmpl page).2 ∧
      page.CurrentEAT = some current ∧
      (∀ eats, c.ListEATs tr js (current.EventDate.AddDays (-1)) = (eats, none) →
        page.Versions = eats.filter (fun e => e.EventTitle = current.EventTitle) ∧
        List.Sublist page.Versions eats ∧
        ∀ e ∈ page.Versions, e.EventTitle = current.EventTitle) ∧
      (∀ eats err, c.ListEATs tr js (current.EventDate.AddDays (-1)) = (eats, some err) →
        page.Versions = []) := by
  refine ⟨{ Page.withNonce nonce with
      CurrentEAT := some current, Versions := dashboardVersions c tr js (some current) },
    ?_, rfl, ?_, ?_⟩
  · simp only [dashboardHandler, hcur]
  · intro eats h
    have hv : dashboardVersions c tr js (some current) =
        eats.filter (fun e => e.EventTitle = current.EventTitle) := by
      simp [dashboardVersions, h, versionsLoop_eq]
    refine ⟨hv, ?_, ?_⟩
    · show List.Sublist (dashboardVersions c tr js (some current)) eats
      rw [hv]
      exact List.filter_sublist _
    · intro e he
      have he' : e ∈ dashboardVersions c tr js (some current) := he
      rw [hv] at he'
      simpa using (List.mem_filter.mp he').2
  · intro eats err h
    show dashboardVersions c tr js (some current) = []
    simp [dashboardVersions, h]

/-- The theorem of claim C21 on the store that holds `sampleFeed`, for a request
without parameters: the current EAT is version 2 of the first event of the
feed, and the history is versions 2 and 1 of that event, without the record of
the other event that lies between them in the feed. -/
theorem dashboard_version_history_witness :
    dashboardCurrent localClient echoTransport sampleChainJSON sampleInstant [] =
      Except.ok (some (sampleRecord 9 "M5.0-X-2026-01-01" 2)) ∧
    localClient.ListEATs echoTransport sampleChainJSON
      ((sampleRecord 9 "M5.0-X-2026-01-01" 2).EventDate.AddDays (-1)) = (sampleFeed, none) ∧
    (∃ page, dashboardHandler localClient echoTransport sampleChainJSON sampleTemplate
          sampleInstant "n" (Except.ok []) =
        DashboardResult.rendered page "text/html; charset=utf-8" (sampleTemplate page).1
          (sampleTemplate page).2 ∧
      page.CurrentEAT = some (sampleRecord 9 "M5.0-X-2026-01-01" 2) ∧
      page.Versions =
        [sampleRecord 9 "M5.0-X-2026-01-01" 2, sampleRecord 7 "M5.0-X-2026-01-01" 1]) := by
  have hcur : dashboardCurrent localClient echoTransport sampleChainJSON sampleInstant [] =
      Except.ok (some (sampleRecord 9 "M5.0-X-2026-01-01" 2)) := rfl
  have hlist : localClient.ListEATs echoTransport sampleChainJSON
      ((sampleRecord 9 "M5.0-X-2026-01-01" 2).EventDate.AddDays (-1)) = (sampleFeed, none) := by
    decide
  obtain ⟨page, hrun, hc, hok, _⟩ :=
    dashboard_version_history localClient echoTransport sampleChainJSON sampleTemplate
      sampleInstant "n" [] (sampleRecord 9 "M5.0-X-2026-01-01" 2) hcur
  refine ⟨hcur, hlist, page, hrun, hc, ?_⟩
  rw [(hok sampleFeed hlist).1]
  decide

theorem dashboardCurrent_of_version (c : Client) (tr : Transport) (js : JSON) (now : Time)
    (q : Values) (ht : q.Get "event_title" ≠ "") (hv : q.Get "version" ≠ "") :
    dashboardCurrent c tr js now q =
      match c.GetLatestVersion tr js (q.Get "event_title") with
      | (_, some err) => Except.error ⟨500, some err⟩
      | (eat, none) => Except.ok eat := by
  unfold dashboardCurrent
  exact if_pos ⟨ht, hv⟩

/-- Claim C22 does not hold of the code: for a request that carries both a
non-empty `event_title` and a non-empty `version`, `dashboardHandler` parses the
version and drops it, and the current EAT of the page is whatever
`GetLatestVersion` returns for the title.  Two requests for the same title are
therefore answered alike whatever versions they name. -/
theorem dashboard_shows_latest_version (c : Client) (tr : Transport) (js : JSON)
    (tmpl : Template) (now : Time) (nonce : String) (q : Values)
    (ht : q.Get "event_title" ≠ "") (hv : q.Get "version" ≠ "") :
    (∀ latest, c.GetLatestVersion tr js (q.Get "event_title") = (latest, none) →
      (dashboardHandler c tr js tmpl now nonce (Except.ok q)).page.map Page.CurrentEAT =
        some latest) ∧
    (∀ q2 : Values, q2.Get "event_title" = q.Get "event_title" → q2.Get "version" ≠ "" →
      dashboardHandler c tr js tmpl now nonce (Except.ok q2) =
        dashboardHandler c tr js tmpl now nonce (Except.ok q)) := by
  constructor
  · intro latest hl
    simp [dashboardHandler, dashboardCurrent_of_version c tr js now q ht hv, hl,
      DashboardResult.page]
  · intro q2 h2 hv2
    have ht2 : q2.Get "event_title" ≠ "" := by rw [h2]; exact ht
    simp only [dashboardHandler, dashboardCurrent_of_version c tr js now q ht hv,
      dashboardCurrent_of_version c tr js now q2 ht2 hv2, h2]

/-- The failing input of claim C22: the store holds versions 1 and 2 of the
event `M5.0-X-2026-01-01`; the request `event_title=M5.0-X-2026-01-01&version=1`
passes `valid.Query`, and the page shows version 2 as the current EAT, although
the record with version 1 is in the store (it is listed in the version history
of the same page). -/
theorem dashboard_shows_latest_version_witness :
    Query [("event_title", ["M5.0-X-2026-01-01"]), ("version", ["1"])] = none ∧
    Atoi "1" = Except.ok 1 ∧
    sampleRecord 7 "M5.0-X-2026-01-01" 1 ∈ sampleFeed ∧
    (dashboardHandler localClient echoTransport sampleChainJSON sampleTemplate sampleInstant "n"
      (Except.ok [("event_title", ["M5.0-X-2026-01-01"]), ("version", ["1"])])).page.map
        Page.CurrentEAT = some (some (sampleRecord 9 "M5.0-X-2026-01-01" 2)) ∧
    (dashboardHandler localClient echoTransport sampleChainJSON sampleTemplate sampleInstant "n"
      (Except.ok [("event_title", ["M5.0-X-2026-01-01"]), ("version", ["1"])])).page.map
        Page.Versions =
      some [sampleRecord 9 "M5.0-X-2026-01-01" 2, sampleRecord 7 "M5.0-X-2026-01-01" 1] ∧
    dashboardHandler localClient echoTransport sampleChainJSON sampleTemplate sampleInstant "n"
        (Except.ok [("event_title", ["M5.0-X-2026-01-01"]), ("version", ["2"])]) =
      dashboardHandler localClient echoTransport sampleChainJSON sampleTemplate sampleInstant "n"
        (Except.ok [("event_title", ["M5.0-X-2026-01-01"]), ("version", ["1"])]) :=
  ⟨by decide, rfl, by decide,
    (dashboard_shows_latest_version localClient echoTransport sampleChainJSON sampleTemplate
      sampleInstant "n" [("event_title", ["M5.0-X-2026-01-01"]), ("version", ["1"])]
      (by decide) (by decide)).1 _ rfl,
    by decide,
    (dashboard_shows_latest_version localClient echoTransport sampleChainJSON sampleTemplate
      sampleInstant "n" [("event_title", ["M5.0-X-2026-01-01"]), ("version", ["1"])]
      (by decide) (by decide)).2 [("event_title", ["M5.0-X-2026-01-01"]), ("version", ["2"])]
      rfl (by decide)⟩

/-! ## Injectivity of the event title -/

theorem sprintf_one_decimal (m : Float32) :
    Sprintf "%.1f" [Arg.float32 m] = FormatFloat32 m 1 := by
  apply String.ext
  simp [Sprintf, sprintfAux, fmtVerb]

/-- The one-decimal text of a finite magnitude ends in a point and one character,
and has no point before that. -/
theorem formatFloat32_one_shape (m : Float32) (h : m.isFinite = true) :
    ∃ pre d, (FormatFloat32 m 1).data = pre ++ ['.', d] ∧ '.' ∉ pre := by
  have hf : m.isInfOrNaN = false := by simpa [Float32.isFinite] using h
  simp only [FormatFloat32, hf]
  have hlt : roundHalfEven (m.mant * 10 ^ 1) m.exp2 % 10 ^ 1 < 10 := Nat.mod_lt _ (by decide)
  simp only [Bool.false_eq_true, if_false, show ¬ (1 = 0) from by decide, zeroPad_one _ hlt]
  refine ⟨_, _, rfl, ?_⟩
  intro hmem
  rcases List.mem_append.1 hmem with hs | hd
  · split at hs
    · simp at hs
    · simp at hs
  · exact absurd (repr_isDigit _ _ hd) (by decide)

theorem split_at_first_point : ∀ (a b u v : List Char), '.' ∉ a → '.' ∉ b →
    a ++ '.' :: u = b ++ '.' :: v → a = b ∧ u = v
  | [], [], u, v, _, _, h => by simpa using h
  | [], y :: b, u, v, _, hb, h => by
    simp only [List.nil_append, List.cons_append, List.cons.injEq] at h
    exact absurd h.1.symm (fun e => hb (by simp [e]))
  | x :: a, [], u, v, ha, _, h => by
    simp only [List.nil_append, List.cons_append, List.cons.injEq] at h
    exact absurd h.1 (fun e => ha (by simp [e]))
  | x :: a, y :: b, u, v, ha, hb, h => by
    simp only [List.cons_append, List.cons.injEq] at h
    have ih := split_at_first_point a b u v (fun e => ha (List.mem_cons_of_mem _ e))
      (fun e => hb (List.mem_cons_of_mem _ e)) h.2
    exact ⟨by rw [h.1, ih.1], ih.2⟩

theorem digitChar_value (k : Nat) (h : k < 10) : (Nat.digitChar k).toNat - 48 = k := by
  interval_cases k <;> rfl

theorem digitsValue_append (a b : List Char) :
    digitsValue (a ++ b) = b.foldl (fun acc c => acc * 10 + (c.toNat - 48)) (digitsValue a) := by
  simp [digitsValue, List.foldl_append]

/-- The digits `toDigitsCore` puts in front of `ds` read back as `n`. -/
theorem toDigitsCore_value (fuel : Nat) : ∀ (n : Nat) (ds : List Char), n < fuel →
    ∃ pre, Nat.toDigitsCore 10 fuel n ds = pre ++ ds ∧ digitsValue pre = n := by
  induction fuel with
  | zero => intro n ds h; omega
  | succ f ih =>
    intro n ds h
    simp only [Nat.toDigitsCore]
    have hd : (Nat.digitChar (n % 10)).toNat - 48 = n % 10 :=
      digitChar_value _ (Nat.mod_lt _ (by decide))
    split
    · rename_i h0
      refine ⟨[Nat.digitChar (n % 10)], rfl, ?_⟩
      simp only [digitsValue, List.foldl, hd]
      omega
    · rename_i h0
      obtain ⟨pre, hpre, hval⟩ := ih (n / 10) (Nat.digitChar (n % 10) :: ds) (by omega)
      refine ⟨pre ++ [Nat.digitChar (n % 10)], by simp [hpre], ?_⟩
      rw [digitsValue_append, hval]
      simp only [List.foldl, hd]
      omega

theorem digitsValue_repr (n : Nat) : digitsValue (Nat.repr n).data = n := by
  obtain ⟨pre, hpre, hval⟩ := toDigitsCore_value (n + 1) n [] (Nat.lt_succ_self n)
  simp only [Nat.repr, Nat.toDigits, List.asString, hpre, List.append_nil, hval]

theorem digitsValue_zeroPad (width n : Nat) : digitsValue (zeroPad width n) = n := by
  have hz : ∀ k : Nat, digitsValue (List.replicate k '0') = 0 := by
    intro k
    induction k with
    | zero => rfl
    | succ k ih =>
      rw [List.replicate_succ', digitsValue_append, ih]
      rfl
  simp only [zeroPad]
  rw [digitsValue_append, hz]
  exact digitsValue_repr n

theorem length_zeroPad (width n : Nat) (hw : 0 < width) (h : n < 10 ^ width) :
    (zeroPad width n).length = width := by
  have hl : (Nat.repr n).data.length ≤ width := Nat.repr_length n width hw h
  simp only [zeroPad, List.length_append, List.length_replicate]
  omega

theorem appendInt_nonneg (x : Int) (width : Nat) (h : 0 ≤ x) :
    appendInt x width = zeroPad width x.natAbs := by
  simp [appendInt, not_lt.mpr h]

/-- The month and the day of a calendar date are in range. -/
theorem civilFromDays_range (days : Int) :
    1 ≤ (civilFromDays days).month ∧ (civilFromDays days).month ≤ 12 ∧
    1 ≤ (civilFromDays days).day ∧ (civilFromDays days).day ≤ 31 := by
  simp only [civilFromDays]
  split_ifs <;> omega

/-- The parts of a `YYYY-MM-DD` date with a year in 0..9999 and two-digit month
and day have 4, 2 and 2 characters. -/
theorem isoDate_parts (c : Civil) (hy : 0 ≤ c.year ∧ c.year ≤ 9999)
    (hm : 0 ≤ c.month ∧ c.month ≤ 99) (hd : 0 ≤ c.day ∧ c.day ≤ 99) :
    (isoDate c).data = zeroPad 4 c.year.natAbs ++ '-' :: (zeroPad 2 c.month.natAbs ++
      '-' :: zeroPad 2 c.day.natAbs) ∧
    (zeroPad 4 c.year.natAbs).length = 4 ∧ (zeroPad 2 c.month.natAbs).length = 2 ∧
    (zeroPad 2 c.day.natAbs).length = 2 := by
  refine ⟨?_, ?_, ?_, ?_⟩
  · simp [isoDate, appendInt_nonneg _ _ hy.1, appendInt_nonneg _ _ hm.1,
      appendInt_nonneg _ _ hd.1]
  · exact length_zeroPad _ _ (by decide) (by omega)
  · exact length_zeroPad _ _ (by decide) (by omega)
  · exact length_zeroPad _ _ (by decide) (by omega)

theorem length_isoDate (c : Civil) (hy : 0 ≤ c.year ∧ c.year ≤ 9999)
    (hm : 0 ≤ c.month ∧ c.month ≤ 99) (hd : 0 ≤ c.day ∧ c.day ≤ 99) :
    (isoDate c).data.length = 10 := by
  obtain ⟨h, h4, h2, h2'⟩ := isoDate_parts c hy hm hd
  rw [h]
  simp only [List.length_append, List.length_cons, h4, h2, h2']

theorem zeroPad_injective (width a b : Nat) (h : zeroPad width a = zeroPad width b) : a = b := by
  have := congrArg digitsValue h
  simpa [digitsValue_zeroPad] using this

theorem isoDate_injective (c1 c2 : Civil) (hy1 : 0 ≤ c1.year ∧ c1.year ≤ 9999)
    (hm1 : 0 ≤ c1.month ∧ c1.month ≤ 99) (hd1 : 0 ≤ c1.day ∧ c1.day ≤ 99)
    (hy2 : 0 ≤ c2.year ∧ c2.year ≤ 9999) (hm2 : 0 ≤ c2.month ∧ c2.month ≤ 99)
    (hd2 : 0 ≤ c2.day ∧ c2.day ≤ 99) (h : isoDate c1 = isoDate c2) : c1 = c2 := by
  obtain ⟨e1, a1, b1, _⟩ := isoDate_parts c1 hy1 hm1 hd1
  obtain ⟨e2, a2, b2, _⟩ := isoDate_parts c2 hy2 hm2 hd2
  have hdata : (isoDate c1).data = (isoDate c2).data := by rw [h]
  rw [e1, e2] at hdata
  obtain ⟨hY, hrest⟩ := List.append_inj hdata (by rw [a1, a2])
  obtain ⟨hM, hrest2⟩ := List.append_inj (List.cons.inj hrest).2 (by rw [b1, b2])
  have hD := (List.cons.inj hrest2).2
  have y := zeroPad_injective _ _ _ hY
  have m := zeroPad_injective _ _ _ hM
  have d := zeroPad_injective _ _ _ hD
  cases c1
  cases c2
  simp only [Civil.mk.injEq]
  simp only at hy1 hy2 hm1 hm2 hd1 hd2 y m d
  omega

theorem utcDate_range (t : Time) :
    (0 ≤ (utcDate t).month ∧ (utcDate t).month ≤ 99) ∧
    (0 ≤ (utcDate t).day ∧ (utcDate t).day ≤ 99) := by
  have h := civilFromDays_range (t.sec / 86400)
  unfold utcDate
  omega

/-- Claim C24: `FormatEventTitle` is injective on its rendered components.  For
finite magnitudes `m1`, `m2`, arbitrary locations `l1`, `l2` and instants `t1`,
`t2` whose UTC year lies in 0..9999, the two titles are equal if and only if
the magnitudes render to the same one-decimal text, the locations are equal
and the instants fall on the same UTC calendar date. -/
theorem format_event_title_injective (m1 m2 : Float32) (l1 l2 : String) (t1 t2 : Time)
    (hf1 : m1.isFinite = true) (hf2 : m2.isFinite = true)
    (hy1 : 0 ≤ (utcDate t1).year ∧ (utcDate t1).year ≤ 9999)
    (hy2 : 0 ≤ (utcDate t2).year ∧ (utcDate t2).year ≤ 9999) :
    FormatEventTitle m1 l1 t1 = FormatEventTitle m2 l2 t2 ↔
      (Sprintf "%.1f" [Arg.float32 m1] = Sprintf "%.1f" [Arg.float32 m2] ∧ l1 = l2 ∧
        utcDate t1 = utcDate t2) := by
  constructor
  · intro h
    rw [formatEventTitle_concat, formatEventTitle_concat, sprintf_one_decimal,
      sprintf_one_decimal] at h
    obtain ⟨p1, x1, e1, n1⟩ := formatFloat32_one_shape m1 hf1
    obtain ⟨p2, x2, e2, n2⟩ := formatFloat32_one_shape m2 hf2
    have hdata := congrArg String.data h
    simp only [String.data_append, e1, e2, List.append_assoc, List.cons_append,
      List.nil_append] at hdata
    have hdata2 := (List.cons.inj hdata).2
    obtain ⟨hp, hrest⟩ := split_at_first_point _ _ _ _ n1 n2 hdata2
    obtain ⟨hx, hrest2⟩ := List.cons.inj hrest
    have hlen1 := length_isoDate _ hy1 (utcDate_range t1).1 (utcDate_range t1).2
    have hlen2 := length_isoDate _ hy2 (utcDate_range t2).1 (utcDate_range t2).2
    obtain ⟨hl, hd⟩ := List.append_inj' (List.cons.inj hrest2).2
      (by simp only [List.length_cons, hlen1, hlen2])
    refine ⟨?_, String.ext hl, ?_⟩
    · rw [sprintf_one_decimal, sprintf_one_decimal]
      apply String.ext
      rw [e1, e2, hp, hx]
    · exact isoDate_injective _ _ hy1 (utcDate_range t1).1 (utcDate_range t1).2 hy2
        (utcDate_range t2).1 (utcDate_range t2).2 (String.ext (List.cons.inj hd).2)
  · rintro ⟨hm, hl, hd⟩
    rw [formatEventTitle_concat, formatEventTitle_concat, hm, hl, hd]

/-- The theorem of claim C24 at 5.0 and 5.04, which both render as `5.0`, and two
instants of 2026-01-15: the titles are equal; and at two locations that differ
only in where a `-` and a digit stand: the titles differ. -/
theorem format_event_title_injective_witness :
    mag5_0.isFinite = true ∧ (0 ≤ (utcDate sampleInstant).year ∧
      (utcDate sampleInstant).year ≤ 9999) ∧
    FormatEventTitle mag5_0 "Wellington" sampleInstant =
      FormatEventTitle ⟨false, 129, 2181038⟩ "Wellington" (DateUTC 2026 1 15 23 59 59) ∧
    FormatEventTitle mag5_0 "A-1" sampleInstant ≠ FormatEventTitle mag5_0 "A" sampleInstant :=
  ⟨by decide, by decide,
    (format_event_title_injective mag5_0 ⟨false, 129, 2181038⟩ "Wellington" "Wellington"
      sampleInstant (DateUTC 2026 1 15 23 59 59) (by decide) (by decide) (by decide)
      (by decide)).2 ⟨by decide, rfl, by decide⟩,
    fun h => absurd ((format_event_title_injective mag5_0 mag5_0 "A-1" "A" sampleInstant
      sampleInstant (by decide) (by decide) (by decide) (by decide)).1 h).2.1 (by decide)⟩

/-! ## The mode field -/

/-- Claim C25: `apiPublishHandler` does not validate the mode field.  A request
whose mode is any string other than `new_event`, the empty string and
misspellings included, is processed exactly as the same request with mode
`new_version`: the two runs have the same outcome, make the same collaborator
calls and leave the same world.  This holds for every decoded request, so in
particular for every valid one. -/
theorem publish_mode_defaults_to_new_version {σ : Type} (env : Env σ) (w : σ)
    (cq : Option StatusError) (req : publishRequest) (hmode : req.Mode ≠ "new_event") :
    apiPublishHandler env ⟨cq, Except.ok req⟩ w =
      apiPublishHandler env ⟨cq, Except.ok { req with Mode := "new_version" }⟩ w := by
  have hnv : ¬ ("new_version" = "new_event") := by decide
  simp only [apiPublishHandler, hmode, hnv, if_false]
  rfl

/-- The theorem of claim C25 at a valid request with an empty mode and at one
with a misspelt mode, against a store that holds version 3 of the chain: both
are answered like a `new_version` request, with version 4 under id 8. -/
theorem publish_mode_defaults_to_new_version_witness :
    (sampleRequest "" "confirmed" 7).Valid ∧
    (apiPublishHandler sampleEnv ⟨none, Except.ok (sampleRequest "" "confirmed" 7)⟩
      sampleStore).out = successOutcome 8 4 ∧
    apiPublishHandler sampleEnv ⟨none, Except.ok (sampleRequest "" "confirmed" 7)⟩ sampleStore =
      apiPublishHandler sampleEnv
        ⟨none, Except.ok { sampleRequest "" "confirmed" 7 with Mode := "new_version" }⟩
        sampleStore ∧
    apiPublishHandler sampleEnv ⟨none, Except.ok (sampleRequest "new_evnt" "confirmed" 7)⟩
        sampleStore =
      apiPublishHandler sampleEnv
        ⟨none, Except.ok { sampleRequest "new_evnt" "confirmed" 7 with Mode := "new_version" }⟩
        sampleStore :=
  ⟨by decide, by decide,
    publish_mode_defaults_to_new_version sampleEnv sampleStore none
      (sampleRequest "" "confirmed" 7) (by decide),
    publish_mode_defaults_to_new_version sampleEnv sampleStore none
      (sampleRequest "new_evnt" "confirmed" 7) (by decide)⟩

/-! ## The filter of `GetLatestVersion` -/

theorem unhex_hexDigit (n : Nat) (h : n < 16) : unhex (hexDigit n) = some n := by
  interval_cases n <;> rfl

theorem queryUnescape_plain (c : Char) (rest : List Char) (h1 : c ≠ '%') (h2 : c ≠ '+') :
    QueryUnescape (c :: rest) =
      (QueryUnescape rest).map (fun r => (String.utf8EncodeChar c).map UInt8.toNat ++ r) := by
  rcases rest with _ | ⟨a, _ | ⟨b, r⟩⟩ <;> simp [QueryUnescape, h1, h2]

theorem queryUnescape_plus (rest : List Char) :
    QueryUnescape ('+' :: rest) = (QueryUnescape rest).map (fun r => 32 :: r) := by
  rcases rest with _ | ⟨a, _ | ⟨b, r⟩⟩ <;> simp [QueryUnescape]

theorem queryUnescape_percent (a b : Char) (rest : List Char) (x y : Nat)
    (ha : unhex a = some x) (hb : unhex b = some y) :
    QueryUnescape ('%' :: a :: b :: rest) =
      (QueryUnescape rest).map (fun r => (16 * x + y) :: r) := by
  rw [QueryUnescape]
  simp [ha, hb]

theorem queryUnescape_bytes (bs : List UInt8) (rest : List Char) :
    QueryUnescape
        (bs.flatMap (fun b => ['%', hexDigit (b.toNat / 16), hexDigit (b.toNat % 16)]) ++ rest) =
      (QueryUnescape rest).map (fun r => bs.map UInt8.toNat ++ r) := by
  induction bs with
  | nil => simp
  | cons b bs ih =>
    have hb : b.toNat < 256 := b.val.isLt
    have h3 : 16 * (b.toNat / 16) + b.toNat % 16 = b.toNat := by omega
    simp only [List.flatMap_cons, List.cons_append, List.nil_append]
    rw [queryUnescape_percent _ _ _ _ _ (unhex_hexDigit _ (by omega))
      (unhex_hexDigit _ (by omega)), ih, h3, Option.map_map]
    rfl

theorem queryUnescape_char (c : Char) (rest : List Char) :
    QueryUnescape (queryEscapeChar c ++ rest) =
      (QueryUnescape rest).map (fun r => (String.utf8EncodeChar c).map UInt8.toNat ++ r) := by
  unfold queryEscapeChar
  split_ifs with hkeep hsp
  · have h1 : c ≠ '%' := by
      rintro rfl
      revert hkeep
      decide
    have h2 : c ≠ '+' := by
      rintro rfl
      revert hkeep
      decide
    exact queryUnescape_plain c rest h1 h2
  · subst hsp
    exact queryUnescape_plus rest
  · exact queryUnescape_bytes _ rest

/-- URL-decoding inverts the escaping: the decoded bytes of an escaped text are
the UTF-8 bytes of the text. -/
theorem queryUnescape_escape (s : String) :
    QueryUnescape (QueryEscape s).data = some (utf8Bytes s) := by
  have h : ∀ cs : List Char, QueryUnescape (cs.flatMap queryEscapeChar) =
      some (cs.flatMap (fun c => (String.utf8EncodeChar c).map UInt8.toNat)) := by
    intro cs
    induction cs with
    | nil => rfl
    | cons c cs ih => simp only [List.flatMap_cons, queryUnescape_char, ih, Option.map_some']
  exact h s.data

theorem jsonStringBody_quote (rest : List Char) :
    jsonStringBody ('\x22' :: rest) = some ([], rest) := by
  rw [jsonStringBody.eq_def]
  simp

theorem jsonStringBody_plain_cons (c : Char) (rest : List Char) (h : plainJSONChar c = true) :
    jsonStringBody (c :: rest) =
      match jsonStringBody rest with
      | some (units, r) => some (c.toNat :: units, r)
      | none => none := by
  simp only [plainJSONChar, Bool.and_eq_true, bne_iff_ne, ne_eq, decide_eq_true_eq] at h
  obtain ⟨⟨h1, h2⟩, h3⟩ := h
  rw [jsonStringBody.eq_def]
  simp only [h1, h2, if_false, not_lt.mpr h3]

/-- A run of plain characters up to a quote is read as those characters. -/
theorem jsonStringBody_plain (cs rest : List Char) (h : ∀ c ∈ cs, plainJSONChar c = true) :
    jsonStringBody (cs ++ '\x22' :: rest) = some (cs.map Char.toNat, rest) := by
  induction cs with
  | nil => exact jsonStringBody_quote rest
  | cons c cs ih =>
    rw [List.cons_append, jsonStringBody_plain_cons c _ (h c (List.mem_cons_self _ _)),
      ih (fun x hx => h x (List.mem_cons_of_mem _ hx))]
    rfl

theorem char_not_surrogate (c : Char) : ¬ (0xD800 ≤ c.toNat ∧ c.toNat < 0xE000) := by
  have h := c.valid
  simp only [UInt32.isValidChar, Nat.isValidChar] at h
  have e : c.toNat = c.val.toNat := rfl
  omega

/-- The code points of characters decode to those characters. -/
theorem decodeUnits_chars : ∀ cs : List Char, decodeUnits (cs.map Char.toNat) = cs
  | [] => rfl
  | [c] => by
    simp only [List.map_cons, List.map_nil, decodeUnits, if_neg (char_not_surrogate c),
      Char.ofNat_toNat]
  | c :: d :: rest => by
    have h1 : ¬ (0xD800 ≤ c.toNat ∧ c.toNat < 0xDC00 ∧ 0xDC00 ≤ d.toNat ∧ d.toNat < 0xE000) := by
      have := char_not_surrogate c
      omega
    have ih := decodeUnits_chars (d :: rest)
    simp only [List.map_cons] at ih ⊢
    simp only [decodeUnits, if_neg h1, if_neg (char_not_surrogate c), Char.ofNat_toNat, ih]

/-- A text of plain characters between quotes is a JSON string with that text
as its value. -/
theorem jsonString_plain (s : String) (rest : List Char)
    (h : ∀ c ∈ s.data, plainJSONChar c = true) :
    jsonString (s.data ++ '\x22' :: rest) = some (s, rest) := by
  simp only [jsonString, jsonStringBody_plain s.data rest h, decodeUnits_chars]

theorem jsonValue_string (fuel : Nat) (s : String) (rest : List Char)
    (h : ∀ c ∈ s.data, plainJSONChar c = true) :
    jsonValue (fuel + 1) ('\x22' :: (s.data ++ '\x22' :: rest)) = some (JValue.str s, rest) := by
  rw [jsonValue.eq_def]
  simp [skipWS, jsonString_plain s rest h]

theorem jsonMembers_single (fuel : Nat) (key : String) (v : JValue) (body rest : List Char)
    (hk : ∀ c ∈ key.data, plainJSONChar c = true)
    (hv : jsonValue fuel body = some (v, '\x7d' :: rest)) :
    jsonMembers (fuel + 1) ('\x22' :: (key.data ++ '\x22' :: ':' :: body)) =
      some ([(key, v)], rest) := by
  rw [jsonMembers.eq_def]
  simp [skipWS, jsonString_plain key _ hk, hv]

theorem jsonValue_object (fuel : Nat) (members : List (String × JValue))
    (body rest : List Char)
    (hm : jsonMembers fuel ('\x22' :: body) = some (members, rest)) :
    jsonValue (fuel + 1) ('\x7b' :: '\x22' :: body) = some (JValue.obj members, rest) := by
  rw [jsonValue.eq_def]
  simp [skipWS, hm]

/-- The filter text of a title of plain characters is a JSON document whose
value is the filter object of the title. -/
theorem jsonDocument_titleFilter (title : String)
    (h : ∀ c ∈ title.data, plainJSONChar c = true) :
    jsonDocument 5 ("\x7b\"event_title\":\x7b\"$eq\":\"" ++ title ++ "\"\x7d\x7d").data =
      some (titleFilter title) := by
  have h1 := jsonValue_string 0 title ['\x7d', '\x7d'] h
  have h2 := jsonMembers_single 1 "$eq" (JValue.str title)
    ('\x22' :: (title.data ++ ['\x22', '\x7d', '\x7d'])) ['\x7d'] (by decide) h1
  have h3 := jsonValue_object 2 _ _ _ h2
  have h4 := jsonMembers_single 3 "event_title" _ _ [] (by decide) h3
  have h5 := jsonValue_object 4 _ _ _ h4
  have hd : ("\x7b\"event_title\":\x7b\"$eq\":\"" ++ title ++ "\"\x7d\x7d").data =
      '\x7b' :: '\x22' :: ("event_title".data ++ '\x22' :: ':' :: '\x7b' :: '\x22' ::
        ("$eq".data ++ '\x22' :: ':' :: '\x22' :: (title.data ++ ['\x22', '\x7d', '\x7d']))) := by
    simp
  rw [hd, jsonDocument, h5]
  rfl

/-- Claim C23, as stated, fails: the title is inserted into the filter text
without escaping.  For the title `a"b` the decoded `filter` parameter is the text
`{"event_title":{"$eq":"a"b"}}`, and for the title `a\` it is
`{"event_title":{"$eq":"a\"}}`; neither is a well-formed JSON document.  For the
title `x"},"version":{"$eq":"1` the decoded parameter is a well-formed document,
but its value is an object with the two members `event_title` (for the title
`x`) and `version`, not the filter object of the title. -/
theorem latest_version_filter_injection :
    (localClient.latestVersionURL "a\"b" =
        "http://localhost:8000/api/content/eat?filter=" ++
          "%7B%22event_title%22%3A%7B%22%24eq%22%3A%22a%22b%22%7D%7D" ++
          "&sort=-version&limit=1" ∧
      QueryUnescape "%7B%22event_title%22%3A%7B%22%24eq%22%3A%22a%22b%22%7D%7D".data =
        some (utf8Bytes "\x7b\"event_title\":\x7b\"$eq\":\"a\"b\"\x7d\x7d") ∧
      ¬ WellFormedJSON "\x7b\"event_title\":\x7b\"$eq\":\"a\"b\"\x7d\x7d") ∧
    (localClient.latestVersionURL "a\\" =
        "http://localhost:8000/api/content/eat?filter=" ++
          "%7B%22event_title%22%3A%7B%22%24eq%22%3A%22a%5C%22%7D%7D" ++
          "&sort=-version&limit=1" ∧
      QueryUnescape "%7B%22event_title%22%3A%7B%22%24eq%22%3A%22a%5C%22%7D%7D".data =
        some (utf8Bytes "\x7b\"event_title\":\x7b\"$eq\":\"a\\\"\x7d\x7d") ∧
      ¬ WellFormedJSON "\x7b\"event_title\":\x7b\"$eq\":\"a\\\"\x7d\x7d") ∧
    (localClient.latestVersionURL "x\"\x7d,\"version\":\x7b\"$eq\":\"1" =
        "http://localhost:8000/api/content/eat?filter=" ++
          "%7B%22event_title%22%3A%7B%22%24eq%22%3A%22x%22%7D%2C%22version%22%3A%7B%22%24eq%22%3A%221%22%7D%7D" ++
          "&sort=-version&limit=1" ∧
      QueryUnescape ("%7B%22event_title%22%3A%7B%22%24eq%22%3A%22x%22%7D%2C%22version%22%3A" ++
          "%7B%22%24eq%22%3A%221%22%7D%7D").data =
        some (utf8Bytes
          "\x7b\"event_title\":\x7b\"$eq\":\"x\"\x7d,\"version\":\x7b\"$eq\":\"1\"\x7d\x7d") ∧
      IsJSONOf "\x7b\"event_title\":\x7b\"$eq\":\"x\"\x7d,\"version\":\x7b\"$eq\":\"1\"\x7d\x7d"
        (JValue.obj [("event_title", JValue.obj [("$eq", JValue.str "x")]),
          ("version", JValue.obj [("$eq", JValue.str "1")])]) ∧
      ¬ IsJSONOf "\x7b\"event_title\":\x7b\"$eq\":\"x\"\x7d,\"version\":\x7b\"$eq\":\"1\"\x7d\x7d"
        (titleFilter "x\"\x7d,\"version\":\x7b\"$eq\":\"1")) := by
  refine ⟨⟨?u1, ?d1, ?w1⟩, ⟨?u2, ?d2, ?w2⟩, ?u3, ?d3, ⟨6, ?j3⟩, ?w3⟩
  case u1 => rfl
  case d1 => rfl
  case u2 => rfl
  case d2 => rfl
  case u3 =>
    set_option maxRecDepth 4096 in
    rfl
  case d3 => rfl
  case j3 => rfl
  case w1 =>
    rintro ⟨fuel, v, h⟩
    have hnone : jsonDocument fuel "\x7b\"event_title\":\x7b\"$eq\":\"a\"b\"\x7d\x7d".data = none := by
      rcases fuel with _ | _ | _ | _ | _ | n <;> rfl
    rw [hnone] at h
    cases h
  case w2 =>
    rintro ⟨fuel, v, h⟩
    have hnone : jsonDocument fuel "\x7b\"event_title\":\x7b\"$eq\":\"a\\\"\x7d\x7d".data = none := by
      rcases fuel with _ | _ | _ | _ | _ | n <;> rfl
    rw [hnone] at h
    cases h
  case w3 =>
    rintro ⟨fuel, h⟩
    have hval : jsonDocument fuel
          "\x7b\"event_title\":\x7b\"$eq\":\"x\"\x7d,\"version\":\x7b\"$eq\":\"1\"\x7d\x7d".data = none ∨
        jsonDocument fuel
          "\x7b\"event_title\":\x7b\"$eq\":\"x\"\x7d,\"version\":\x7b\"$eq\":\"1\"\x7d\x7d".data =
          some (JValue.obj [("event_title", JValue.obj [("$eq", JValue.str "x")]),
            ("version", JValue.obj [("$eq", JValue.str "1")])]) := by
      rcases fuel with _ | _ | _ | _ | _ | _ | n
      iterate 6 exact Or.inl rfl
      exact Or.inr rfl
    rcases hval with e | e <;> rw [e] at h <;> simp [titleFilter] at h

/-- Claim C23, amended: for every event title that contains no double quote, no
backslash and no control character, the URL `GetLatestVersion` requests carries
a `filter` parameter whose URL-decoding is the UTF-8 text
`{"event_title":{"$eq":"<title>"}}`, and that text is a well-formed JSON
document whose value is the object with the one member `event_title`, the
object with the one member `$eq`, the title. -/
theorem latest_version_filter_is_title_object (c : Client) (title : String)
    (hplain : ∀ ch ∈ title.data, plainJSONChar ch = true) :
    ∃ param doc : String,
      c.latestVersionURL title =
        c.baseURL ++ "/api/content/eat?filter=" ++ param ++ "&sort=-version&limit=1" ∧
      QueryUnescape param.data = some (utf8Bytes doc) ∧
      doc = "\x7b\"event_title\":\x7b\"$eq\":\"" ++ title ++ "\"\x7d\x7d" ∧
      IsJSONOf doc (titleFilter title) :=
  ⟨_, _, latest_url_text c title, queryUnescape_escape _, rfl, 5,
    jsonDocument_titleFilter title hplain⟩

/-- The theorem of claim C23 at the title `M5.0-Ōtaki Beach-2026-01-15`, whose
characters are all plain. -/
theorem latest_version_filter_is_title_object_witness :
    (∀ ch ∈ "M5.0-Ōtaki Beach-2026-01-15".data, plainJSONChar ch = true) ∧
    ∃ param doc : String,
      localClient.latestVersionURL "M5.0-Ōtaki Beach-2026-01-15" =
        localClient.baseURL ++ "/api/content/eat?filter=" ++ param ++
          "&sort=-version&limit=1" ∧
      QueryUnescape param.data = some (utf8Bytes doc) ∧
      doc = "\x7b\"event_title\":\x7b\"$eq\":\"" ++ "M5.0-Ōtaki Beach-2026-01-15" ++ "\"\x7d\x7d" ∧
      IsJSONOf doc (titleFilter "M5.0-Ōtaki Beach-2026-01-15") :=
  ⟨by decide, latest_version_filter_is_title_object localClient "M5.0-Ōtaki Beach-2026-01-15"
    (by decide)⟩

end NemaMar
